import Mathlib

/-!
# P4 model-specific MSR operations (`xen/arch/x86/oprofile/op_model_p4.c`)

A shallow embedding of the Pentium 4 performance-counter driver: the static
resource tables, the address allocator `p4_fill_in_addresses`, the event
configurator `pmc_setup_one_p4_counter` and the setup sequence `p4_setup_ctrs`.

Machine words are natural numbers.  Register contents are 64-bit values; the
only operation of the modelled code that can wrap is the negation in
`CTR_WRITE`, which is reduced modulo `2^64` explicitly.  Addresses and loop
indices stay far below `2^32`.
-/

namespace OpModelP4

/-! ## MSR numbers -/

/-- Modelled from the spec: the MSR numbers of the architecture header
`asm/msr.h`, which the driver includes but which is not part of the source
file.  The values are the Pentium 4 numbering of that header (counters from
`0x300`, CCCRs `0x360 .. 0x371`, ESCRs from `0x3a0`, `CRU_ESCR4/5` at
`0x3e0/0x3e1`). -/
def MSR_IA32_MISC_ENABLE : Nat := 0x1a0

/-- Modelled from the spec: MSR number from `asm/msr.h`. -/
def MSR_P4_BPU_PERFCTR0 : Nat := 0x300
/-- Modelled from the spec: MSR number from `asm/msr.h`. -/
def MSR_P4_BPU_PERFCTR2 : Nat := 0x302
/-- Modelled from the spec: MSR number from `asm/msr.h`. -/
def MSR_P4_MS_PERFCTR0 : Nat := 0x304
/-- Modelled from the spec: MSR number from `asm/msr.h`. -/
def MSR_P4_MS_PERFCTR2 : Nat := 0x306
/-- Modelled from the spec: MSR number from `asm/msr.h`. -/
def MSR_P4_FLAME_PERFCTR0 : Nat := 0x308
/-- Modelled from the spec: MSR number from `asm/msr.h`. -/
def MSR_P4_FLAME_PERFCTR2 : Nat := 0x30a
/-- Modelled from the spec: MSR number from `asm/msr.h`. -/
def MSR_P4_IQ_PERFCTR4 : Nat := 0x310
/-- Modelled from the spec: MSR number from `asm/msr.h`. -/
def MSR_P4_IQ_PERFCTR5 : Nat := 0x311

/-- Modelled from the spec: MSR number from `asm/msr.h` (CCCRs are
`0x360 .. 0x371`). -/
def MSR_P4_BPU_CCCR0 : Nat := 0x360
/-- Modelled from the spec: MSR number from `asm/msr.h`. -/
def MSR_P4_BPU_CCCR1 : Nat := 0x361
/-- Modelled from the spec: MSR number from `asm/msr.h`. -/
def MSR_P4_BPU_CCCR2 : Nat := 0x362
/-- Modelled from the spec: MSR number from `asm/msr.h`. -/
def MSR_P4_BPU_CCCR3 : Nat := 0x363
/-- Modelled from the spec: MSR number from `asm/msr.h`. -/
def MSR_P4_MS_CCCR0 : Nat := 0x364
/-- Modelled from the spec: MSR number from `asm/msr.h`. -/
def MSR_P4_MS_CCCR1 : Nat := 0x365
/-- Modelled from the spec: MSR number from `asm/msr.h`. -/
def MSR_P4_MS_CCCR2 : Nat := 0x366
/-- Modelled from the spec: MSR number from `asm/msr.h`. -/
def MSR_P4_MS_CCCR3 : Nat := 0x367
/-- Modelled from the spec: MSR number from `asm/msr.h`. -/
def MSR_P4_FLAME_CCCR0 : Nat := 0x368
/-- Modelled from the spec: MSR number from `asm/msr.h`. -/
def MSR_P4_FLAME_CCCR1 : Nat := 0x369
/-- Modelled from the spec: MSR number from `asm/msr.h`. -/
def MSR_P4_FLAME_CCCR2 : Nat := 0x36a
/-- Modelled from the spec: MSR number from `asm/msr.h`. -/
def MSR_P4_FLAME_CCCR3 : Nat := 0x36b
/-- Modelled from the spec: MSR number from `asm/msr.h`. -/
def MSR_P4_IQ_CCCR0 : Nat := 0x36c
/-- Modelled from the spec: MSR number from `asm/msr.h`. -/
def MSR_P4_IQ_CCCR1 : Nat := 0x36d
/-- Modelled from the spec: MSR number from `asm/msr.h`. -/
def MSR_P4_IQ_CCCR2 : Nat := 0x36e
/-- Modelled from the spec: MSR number from `asm/msr.h`. -/
def MSR_P4_IQ_CCCR3 : Nat := 0x36f
/-- Modelled from the spec: MSR number from `asm/msr.h`. -/
def MSR_P4_IQ_CCCR4 : Nat := 0x370
/-- Modelled from the spec: MSR number from `asm/msr.h`. -/
def MSR_P4_IQ_CCCR5 : Nat := 0x371

/-- Modelled from the spec: MSR number from `asm/msr.h`. -/
def MSR_P4_BSU_ESCR0 : Nat := 0x3a0
/-- Modelled from the spec: MSR number from `asm/msr.h`. -/
def MSR_P4_BSU_ESCR1 : Nat := 0x3a1
/-- Modelled from the spec: MSR number from `asm/msr.h`. -/
def MSR_P4_FSB_ESCR0 : Nat := 0x3a2
/-- Modelled from the spec: MSR number from `asm/msr.h`. -/
def MSR_P4_FSB_ESCR1 : Nat := 0x3a3
/-- Modelled from the spec: MSR number from `asm/msr.h`. -/
def MSR_P4_FIRM_ESCR0 : Nat := 0x3a4
/-- Modelled from the spec: MSR number from `asm/msr.h`. -/
def MSR_P4_FIRM_ESCR1 : Nat := 0x3a5
/-- Modelled from the spec: MSR number from `asm/msr.h`. -/
def MSR_P4_DAC_ESCR0 : Nat := 0x3a8
/-- Modelled from the spec: MSR number from `asm/msr.h`. -/
def MSR_P4_DAC_ESCR1 : Nat := 0x3a9
/-- Modelled from the spec: MSR number from `asm/msr.h`. -/
def MSR_P4_MOB_ESCR0 : Nat := 0x3aa
/-- Modelled from the spec: MSR number from `asm/msr.h`. -/
def MSR_P4_MOB_ESCR1 : Nat := 0x3ab
/-- Modelled from the spec: MSR number from `asm/msr.h`. -/
def MSR_P4_PMH_ESCR0 : Nat := 0x3ac
/-- Modelled from the spec: MSR number from `asm/msr.h`. -/
def MSR_P4_PMH_ESCR1 : Nat := 0x3ad
/-- Modelled from the spec: MSR number from `asm/msr.h`. -/
def MSR_P4_SAAT_ESCR0 : Nat := 0x3ae
/-- Modelled from the spec: MSR number from `asm/msr.h`. -/
def MSR_P4_SAAT_ESCR1 : Nat := 0x3af
/-- Modelled from the spec: MSR number from `asm/msr.h`. -/
def MSR_P4_BPU_ESCR0 : Nat := 0x3b2
/-- Modelled from the spec: MSR number from `asm/msr.h`. -/
def MSR_P4_BPU_ESCR1 : Nat := 0x3b3
/-- Modelled from the spec: MSR number from `asm/msr.h`. -/
def MSR_P4_ITLB_ESCR0 : Nat := 0x3b6
/-- Modelled from the spec: MSR number from `asm/msr.h`. -/
def MSR_P4_ITLB_ESCR1 : Nat := 0x3b7
/-- Modelled from the spec: MSR number from `asm/msr.h`. -/
def MSR_P4_CRU_ESCR0 : Nat := 0x3b8
/-- Modelled from the spec: MSR number from `asm/msr.h`. -/
def MSR_P4_CRU_ESCR1 : Nat := 0x3b9
/-- Modelled from the spec: MSR number from `asm/msr.h`. -/
def MSR_P4_IQ_ESCR0 : Nat := 0x3ba
/-- Modelled from the spec: MSR number from `asm/msr.h`. -/
def MSR_P4_IQ_ESCR1 : Nat := 0x3bb
/-- Modelled from the spec: MSR number from `asm/msr.h`. -/
def MSR_P4_RAT_ESCR0 : Nat := 0x3bc
/-- Modelled from the spec: MSR number from `asm/msr.h`. -/
def MSR_P4_RAT_ESCR1 : Nat := 0x3bd
/-- Modelled from the spec: MSR number from `asm/msr.h`. -/
def MSR_P4_SSU_ESCR0 : Nat := 0x3be
/-- Modelled from the spec: MSR number from `asm/msr.h`. -/
def MSR_P4_MS_ESCR0 : Nat := 0x3c0
/-- Modelled from the spec: MSR number from `asm/msr.h`. -/
def MSR_P4_MS_ESCR1 : Nat := 0x3c1
/-- Modelled from the spec: MSR number from `asm/msr.h`. -/
def MSR_P4_TBPU_ESCR0 : Nat := 0x3c2
/-- Modelled from the spec: MSR number from `asm/msr.h`. -/
def MSR_P4_TBPU_ESCR1 : Nat := 0x3c3
/-- Modelled from the spec: MSR number from `asm/msr.h`. -/
def MSR_P4_TC_ESCR0 : Nat := 0x3c4
/-- Modelled from the spec: MSR number from `asm/msr.h`. -/
def MSR_P4_TC_ESCR1 : Nat := 0x3c5
/-- Modelled from the spec: MSR number from `asm/msr.h`. -/
def MSR_P4_IX_ESCR0 : Nat := 0x3c8
/-- Modelled from the spec: MSR number from `asm/msr.h`. -/
def MSR_P4_CRU_ESCR2 : Nat := 0x3cc
/-- Modelled from the spec: MSR number from `asm/msr.h`. -/
def MSR_P4_CRU_ESCR3 : Nat := 0x3cd
/-- Modelled from the spec: MSR number from `asm/msr.h`. -/
def MSR_P4_CRU_ESCR4 : Nat := 0x3e0
/-- Modelled from the spec: MSR number from `asm/msr.h`. -/
def MSR_P4_CRU_ESCR5 : Nat := 0x3e1

/-! ## Sizes -/

def NUM_EVENTS : Nat := 39

def NUM_COUNTERS_NON_HT : Nat := 8
def NUM_ESCRS_NON_HT : Nat := 45
def NUM_CCCRS_NON_HT : Nat := 18
def NUM_CONTROLS_NON_HT : Nat := NUM_ESCRS_NON_HT + NUM_CCCRS_NON_HT

def NUM_COUNTERS_HT2 : Nat := 4
def NUM_ESCRS_HT2 : Nat := 23
def NUM_CCCRS_HT2 : Nat := 9
def NUM_CONTROLS_HT2 : Nat := NUM_ESCRS_HT2 + NUM_CCCRS_HT2

/-! ## Resource tables -/

/-- Entry of `p4_counters`: `struct p4_counter_binding`. -/
structure p4_counter_binding where
  virt_counter : Nat
  counter_address : Nat
  cccr_address : Nat
  deriving DecidableEq, Repr

/-- One element of `bindings[2]` inside `struct p4_event_binding`. -/
structure escr_binding where
  virt_counter : Nat
  escr_address : Nat
  deriving DecidableEq, Repr

/-- Entry of `p4_events`: `struct p4_event_binding`. -/
structure p4_event_binding where
  escr_select : Nat
  event_select : Nat
  bindings : List escr_binding
  deriving DecidableEq, Repr

def CTR_BPU_0 : Nat := 1 <<< 0
def CTR_MS_0 : Nat := 1 <<< 1
def CTR_FLAME_0 : Nat := 1 <<< 2
def CTR_IQ_4 : Nat := 1 <<< 3
def CTR_BPU_2 : Nat := 1 <<< 4
def CTR_MS_2 : Nat := 1 <<< 5
def CTR_FLAME_2 : Nat := 1 <<< 6
def CTR_IQ_5 : Nat := 1 <<< 7

def p4_counters : List p4_counter_binding :=
  [ ⟨CTR_BPU_0, MSR_P4_BPU_PERFCTR0, MSR_P4_BPU_CCCR0⟩,
    ⟨CTR_MS_0, MSR_P4_MS_PERFCTR0, MSR_P4_MS_CCCR0⟩,
    ⟨CTR_FLAME_0, MSR_P4_FLAME_PERFCTR0, MSR_P4_FLAME_CCCR0⟩,
    ⟨CTR_IQ_4, MSR_P4_IQ_PERFCTR4, MSR_P4_IQ_CCCR4⟩,
    ⟨CTR_BPU_2, MSR_P4_BPU_PERFCTR2, MSR_P4_BPU_CCCR2⟩,
    ⟨CTR_MS_2, MSR_P4_MS_PERFCTR2, MSR_P4_MS_CCCR2⟩,
    ⟨CTR_FLAME_2, MSR_P4_FLAME_PERFCTR2, MSR_P4_FLAME_CCCR2⟩,
    ⟨CTR_IQ_5, MSR_P4_IQ_PERFCTR5, MSR_P4_IQ_CCCR5⟩ ]

def NUM_UNUSED_CCCRS : Nat := NUM_CCCRS_NON_HT - NUM_COUNTERS_NON_HT

/-- All cccr we don't use. -/
def p4_unused_cccr : List Nat :=
  [ MSR_P4_BPU_CCCR1, MSR_P4_BPU_CCCR3,
    MSR_P4_MS_CCCR1, MSR_P4_MS_CCCR3,
    MSR_P4_FLAME_CCCR1, MSR_P4_FLAME_CCCR3,
    MSR_P4_IQ_CCCR0, MSR_P4_IQ_CCCR1,
    MSR_P4_IQ_CCCR2, MSR_P4_IQ_CCCR3 ]

/-- The event table; event codes are indices into it, offset by one. -/
def p4_events : List p4_event_binding :=
  [ -- BRANCH_RETIRED
    ⟨0x05, 0x06, [⟨CTR_IQ_4, MSR_P4_CRU_ESCR2⟩, ⟨CTR_IQ_5, MSR_P4_CRU_ESCR3⟩]⟩,
    -- MISPRED_BRANCH_RETIRED
    ⟨0x04, 0x03, [⟨CTR_IQ_4, MSR_P4_CRU_ESCR0⟩, ⟨CTR_IQ_5, MSR_P4_CRU_ESCR1⟩]⟩,
    -- TC_DELIVER_MODE
    ⟨0x01, 0x01, [⟨CTR_MS_0, MSR_P4_TC_ESCR0⟩, ⟨CTR_MS_2, MSR_P4_TC_ESCR1⟩]⟩,
    -- BPU_FETCH_REQUEST
    ⟨0x00, 0x03, [⟨CTR_BPU_0, MSR_P4_BPU_ESCR0⟩, ⟨CTR_BPU_2, MSR_P4_BPU_ESCR1⟩]⟩,
    -- ITLB_REFERENCE
    ⟨0x03, 0x18, [⟨CTR_BPU_0, MSR_P4_ITLB_ESCR0⟩, ⟨CTR_BPU_2, MSR_P4_ITLB_ESCR1⟩]⟩,
    -- MEMORY_CANCEL
    ⟨0x05, 0x02, [⟨CTR_FLAME_0, MSR_P4_DAC_ESCR0⟩, ⟨CTR_FLAME_2, MSR_P4_DAC_ESCR1⟩]⟩,
    -- MEMORY_COMPLETE
    ⟨0x02, 0x08, [⟨CTR_FLAME_0, MSR_P4_SAAT_ESCR0⟩, ⟨CTR_FLAME_2, MSR_P4_SAAT_ESCR1⟩]⟩,
    -- LOAD_PORT_REPLAY
    ⟨0x02, 0x04, [⟨CTR_FLAME_0, MSR_P4_SAAT_ESCR0⟩, ⟨CTR_FLAME_2, MSR_P4_SAAT_ESCR1⟩]⟩,
    -- STORE_PORT_REPLAY
    ⟨0x02, 0x05, [⟨CTR_FLAME_0, MSR_P4_SAAT_ESCR0⟩, ⟨CTR_FLAME_2, MSR_P4_SAAT_ESCR1⟩]⟩,
    -- MOB_LOAD_REPLAY
    ⟨0x02, 0x03, [⟨CTR_BPU_0, MSR_P4_MOB_ESCR0⟩, ⟨CTR_BPU_2, MSR_P4_MOB_ESCR1⟩]⟩,
    -- PAGE_WALK_TYPE
    ⟨0x04, 0x01, [⟨CTR_BPU_0, MSR_P4_PMH_ESCR0⟩, ⟨CTR_BPU_2, MSR_P4_PMH_ESCR1⟩]⟩,
    -- BSQ_CACHE_REFERENCE
    ⟨0x07, 0x0c, [⟨CTR_BPU_0, MSR_P4_BSU_ESCR0⟩, ⟨CTR_BPU_2, MSR_P4_BSU_ESCR1⟩]⟩,
    -- IOQ_ALLOCATION
    ⟨0x06, 0x03, [⟨CTR_BPU_0, MSR_P4_FSB_ESCR0⟩, ⟨0, 0⟩]⟩,
    -- IOQ_ACTIVE_ENTRIES
    ⟨0x06, 0x1a, [⟨CTR_BPU_2, MSR_P4_FSB_ESCR1⟩, ⟨0, 0⟩]⟩,
    -- FSB_DATA_ACTIVITY
    ⟨0x06, 0x17, [⟨CTR_BPU_0, MSR_P4_FSB_ESCR0⟩, ⟨CTR_BPU_2, MSR_P4_FSB_ESCR1⟩]⟩,
    -- BSQ_ALLOCATION
    ⟨0x07, 0x05, [⟨CTR_BPU_0, MSR_P4_BSU_ESCR0⟩, ⟨0, 0⟩]⟩,
    -- BSQ_ACTIVE_ENTRIES
    ⟨0x07, 0x06, [⟨CTR_BPU_2, MSR_P4_BSU_ESCR1⟩, ⟨0, 0⟩]⟩,
    -- X87_ASSIST
    ⟨0x05, 0x03, [⟨CTR_IQ_4, MSR_P4_CRU_ESCR2⟩, ⟨CTR_IQ_5, MSR_P4_CRU_ESCR3⟩]⟩,
    -- SSE_INPUT_ASSIST
    ⟨0x01, 0x34, [⟨CTR_FLAME_0, MSR_P4_FIRM_ESCR0⟩, ⟨CTR_FLAME_2, MSR_P4_FIRM_ESCR1⟩]⟩,
    -- PACKED_SP_UOP
    ⟨0x01, 0x08, [⟨CTR_FLAME_0, MSR_P4_FIRM_ESCR0⟩, ⟨CTR_FLAME_2, MSR_P4_FIRM_ESCR1⟩]⟩,
    -- PACKED_DP_UOP
    ⟨0x01, 0x0c, [⟨CTR_FLAME_0, MSR_P4_FIRM_ESCR0⟩, ⟨CTR_FLAME_2, MSR_P4_FIRM_ESCR1⟩]⟩,
    -- SCALAR_SP_UOP
    ⟨0x01, 0x0a, [⟨CTR_FLAME_0, MSR_P4_FIRM_ESCR0⟩, ⟨CTR_FLAME_2, MSR_P4_FIRM_ESCR1⟩]⟩,
    -- SCALAR_DP_UOP
    ⟨0x01, 0x0e, [⟨CTR_FLAME_0, MSR_P4_FIRM_ESCR0⟩, ⟨CTR_FLAME_2, MSR_P4_FIRM_ESCR1⟩]⟩,
    -- 64BIT_MMX_UOP
    ⟨0x01, 0x02, [⟨CTR_FLAME_0, MSR_P4_FIRM_ESCR0⟩, ⟨CTR_FLAME_2, MSR_P4_FIRM_ESCR1⟩]⟩,
    -- 128BIT_MMX_UOP
    ⟨0x01, 0x1a, [⟨CTR_FLAME_0, MSR_P4_FIRM_ESCR0⟩, ⟨CTR_FLAME_2, MSR_P4_FIRM_ESCR1⟩]⟩,
    -- X87_FP_UOP
    ⟨0x01, 0x04, [⟨CTR_FLAME_0, MSR_P4_FIRM_ESCR0⟩, ⟨CTR_FLAME_2, MSR_P4_FIRM_ESCR1⟩]⟩,
    -- X87_SIMD_MOVES_UOP
    ⟨0x01, 0x2e, [⟨CTR_FLAME_0, MSR_P4_FIRM_ESCR0⟩, ⟨CTR_FLAME_2, MSR_P4_FIRM_ESCR1⟩]⟩,
    -- MACHINE_CLEAR
    ⟨0x05, 0x02, [⟨CTR_IQ_4, MSR_P4_CRU_ESCR2⟩, ⟨CTR_IQ_5, MSR_P4_CRU_ESCR3⟩]⟩,
    -- GLOBAL_POWER_EVENTS
    ⟨0x06, 0x13, [⟨CTR_BPU_0, MSR_P4_FSB_ESCR0⟩, ⟨CTR_BPU_2, MSR_P4_FSB_ESCR1⟩]⟩,
    -- TC_MS_XFER
    ⟨0x00, 0x05, [⟨CTR_MS_0, MSR_P4_MS_ESCR0⟩, ⟨CTR_MS_2, MSR_P4_MS_ESCR1⟩]⟩,
    -- UOP_QUEUE_WRITES
    ⟨0x00, 0x09, [⟨CTR_MS_0, MSR_P4_MS_ESCR0⟩, ⟨CTR_MS_2, MSR_P4_MS_ESCR1⟩]⟩,
    -- FRONT_END_EVENT
    ⟨0x05, 0x08, [⟨CTR_IQ_4, MSR_P4_CRU_ESCR2⟩, ⟨CTR_IQ_5, MSR_P4_CRU_ESCR3⟩]⟩,
    -- EXECUTION_EVENT
    ⟨0x05, 0x0c, [⟨CTR_IQ_4, MSR_P4_CRU_ESCR2⟩, ⟨CTR_IQ_5, MSR_P4_CRU_ESCR3⟩]⟩,
    -- REPLAY_EVENT
    ⟨0x05, 0x09, [⟨CTR_IQ_4, MSR_P4_CRU_ESCR2⟩, ⟨CTR_IQ_5, MSR_P4_CRU_ESCR3⟩]⟩,
    -- INSTR_RETIRED
    ⟨0x04, 0x02, [⟨CTR_IQ_4, MSR_P4_CRU_ESCR0⟩, ⟨CTR_IQ_5, MSR_P4_CRU_ESCR1⟩]⟩,
    -- UOPS_RETIRED
    ⟨0x04, 0x01, [⟨CTR_IQ_4, MSR_P4_CRU_ESCR0⟩, ⟨CTR_IQ_5, MSR_P4_CRU_ESCR1⟩]⟩,
    -- UOP_TYPE
    ⟨0x02, 0x02, [⟨CTR_IQ_4, MSR_P4_RAT_ESCR0⟩, ⟨CTR_IQ_5, MSR_P4_RAT_ESCR1⟩]⟩,
    -- RETIRED_MISPRED_BRANCH_TYPE
    ⟨0x02, 0x05, [⟨CTR_MS_0, MSR_P4_TBPU_ESCR0⟩, ⟨CTR_MS_2, MSR_P4_TBPU_ESCR1⟩]⟩,
    -- RETIRED_BRANCH_TYPE
    ⟨0x02, 0x04, [⟨CTR_MS_0, MSR_P4_TBPU_ESCR0⟩, ⟨CTR_MS_2, MSR_P4_TBPU_ESCR1⟩]⟩ ]

/-! ## Execution context and module state -/

/-- What the driver reads about the processor it runs on: the two fields of
`boot_cpu_data` it consults, the number of the executing logical CPU
(`smp_processor_id()`) and the first member of that CPU's sibling mask
(`cpumask_first(per_cpu(cpu_sibling_mask, cpu))`). -/
structure Cpu where
  x86_num_siblings : Nat
  x86_model : Nat
  cpu : Nat
  sibling_first : Nat
  deriving Repr

/-- Diagnostics emitted through `printk`. -/
inductive Diag where
  | event_out_of_range (event : Nat)
  | no_binding (event stag ctr : Nat)
  | pmc_not_available
  deriving DecidableEq, Repr

/-- The mutable state: the two file-scope variables `num_counters` and
`reset_value`, the model-specific registers, and two histories kept for
reasoning: every `wrmsrl` as an (address, value) pair and every `printk`,
oldest first. -/
structure State where
  num_counters : Nat
  reset_value : Nat → Nat
  msr : Nat → Nat
  writes : List (Nat × Nat)
  log : List Diag
  /-- Every `xenoprof_log_event` call, as (eip, mode, counter index), oldest first. -/
  samples : List (Nat × Nat × Nat) := []
  /-- The addresses read by the overflow monitor, oldest first. -/
  reads : List Nat := []
  /-- Content of the local APIC register `APIC_LVTPC`. -/
  lvtpc : Nat := 0

/-- The caller-provided address arrays: `msrs->counters[i].addr` and
`msrs->controls[i].addr`. -/
structure op_msrs where
  counters : Nat → Nat
  controls : Nat → Nat

/-- Array store `a[i] = v`. -/
def set_at (a : Nat → Nat) (i v : Nat) : Nat → Nat :=
  fun j => if j = i then v else a j

/-- Capability descriptor: the numeric fields of `struct op_x86_model_spec`
(both published descriptors carry the same five function pointers). -/
structure op_x86_model_spec where
  num_counters : Nat
  num_controls : Nat
  deriving DecidableEq, Repr

def op_p4_ht2_spec : op_x86_model_spec :=
  { num_counters := NUM_COUNTERS_HT2, num_controls := NUM_CONTROLS_HT2 }

def op_p4_spec : op_x86_model_spec :=
  { num_counters := NUM_COUNTERS_NON_HT, num_controls := NUM_CONTROLS_NON_HT }

/-! ## Topology -/

/-- The function `setup_num_counters`: switches the counter count to 4 on a two-sibling
core, and otherwise leaves the variable as it is. -/
def setup_num_counters (c : Cpu) (s : State) : State :=
  if c.x86_num_siblings = 2 then { s with num_counters := NUM_COUNTERS_HT2 } else s

def addr_increment (c : Cpu) : Nat :=
  if c.x86_num_siblings = 2 then 2 else 1

/-- The function `get_stagger`: the C comparison `cpu != cpumask_first(...)`
as 0 or 1. -/
def get_stagger (c : Cpu) : Nat :=
  if c.cpu ≠ c.sibling_first then 1 else 0

def VIRT_CTR (s : State) (stagger i : Nat) : Nat :=
  i + s.num_counters * stagger

/-! ## Loops -/

/-- A counting loop `for (i = i0; i < n; ++i) body`, given the number `n - i0`
of iterations that remain; the body may fail. -/
def for_count {σ : Type} (body : Nat → σ → Option σ) : Nat → Nat → σ → Option σ
  | 0, _, st => some st
  | k + 1, i, st => (body i st).bind (for_count body k (i + 1))

/-- An address scan `for (addr = a; cond(addr); addr += inc) body`.  The first
argument bounds the number of iterations; the result is `none` if the bound is
used up while the condition still holds. -/
def for_addr {σ : Type} (cond : Nat → Bool) (inc : Nat) (body : Nat → σ → Option σ) :
    Nat → Nat → σ → Option σ
  | 0, addr, st => if cond addr then none else some st
  | fuel + 1, addr, st =>
    if cond addr then (body addr st).bind (for_addr cond inc body fuel (addr + inc))
    else some st

/-- Scan `for (addr = a; addr <= last; addr += inc)`. -/
def for_addr_le {σ : Type} (last inc : Nat) (body : Nat → σ → Option σ) (a : Nat) (st : σ) :
    Option σ :=
  for_addr (fun addr => decide (addr ≤ last)) inc body (last + 1 - a) a st

/-- Scan `for (addr = a; addr < bound; addr += inc)`. -/
def for_addr_lt {σ : Type} (bound inc : Nat) (body : Nat → σ → Option σ) (a : Nat) (st : σ) :
    Option σ :=
  for_addr (fun addr => decide (addr < bound)) inc body (bound - a) a st

/-! ## Address allocator -/

/-- Loop body `msrs->controls[i].addr = addr` together with the `++i` of the
loop header; the state is the pair (`i`, `controls`). -/
def store_control (addr : Nat) (p : Nat × (Nat → Nat)) : Option (Nat × (Nat → Nat)) :=
  some (p.1 + 1, set_at p.2 p.1 addr)

/-- The function `p4_fill_in_addresses`.  Returns the updated module state, the filled
arrays, and the final value of the local index `i`, which is the number of
entries stored into `msrs->controls`. -/
def p4_fill_in_addresses (c : Cpu) (s : State) (msrs : op_msrs) :
    Option (State × op_msrs × Nat) := do
  let s := setup_num_counters c s
  let stag := get_stagger c
  -- the counter registers we pay attention to
  let counters ← for_count
    (fun i ctrs => (p4_counters[VIRT_CTR s stag i]?).map
      (fun b => set_at ctrs i b.counter_address))
    s.num_counters 0 msrs.counters
  -- 18 CCCR registers
  let p ← for_addr_le MSR_P4_IQ_CCCR5 (addr_increment c) store_control
    (MSR_P4_BPU_CCCR0 + stag) (0, msrs.controls)
  -- 43 ESCR registers in three or four discontiguous group
  let p ← for_addr_lt MSR_P4_IQ_ESCR0 (addr_increment c) store_control
    (MSR_P4_BSU_ESCR0 + stag) p
  -- no IQ_ESCR0/1 on some models, we save a second time BSU_ESCR0/1
  let p ←
    if c.x86_model ≥ 0x3 then
      for_addr_le MSR_P4_BSU_ESCR1 (addr_increment c) store_control
        (MSR_P4_BSU_ESCR0 + stag) p
    else
      for_addr_le MSR_P4_IQ_ESCR1 (addr_increment c) store_control
        (MSR_P4_IQ_ESCR0 + stag) p
  let p ← for_addr_le MSR_P4_SSU_ESCR0 (addr_increment c) store_control
    (MSR_P4_RAT_ESCR0 + stag) p
  let p ← for_addr_le MSR_P4_TC_ESCR1 (addr_increment c) store_control
    (MSR_P4_MS_ESCR0 + stag) p
  let p ← for_addr_le MSR_P4_CRU_ESCR3 (addr_increment c) store_control
    (MSR_P4_IX_ESCR0 + stag) p
  -- there are 2 remaining non-contiguously located ESCRs
  let p ←
    if s.num_counters = NUM_COUNTERS_NON_HT then
      -- standard non-HT CPUs handle both remaining ESCRs
      (store_control MSR_P4_CRU_ESCR5 p).bind (store_control MSR_P4_CRU_ESCR4)
    else if stag = 0 then
      -- HT CPUs give the first remainder to the even thread
      store_control MSR_P4_CRU_ESCR4 p
    else
      -- and two copies of the second to the odd thread
      (store_control MSR_P4_CRU_ESCR5 p).bind (store_control MSR_P4_CRU_ESCR5)
  pure (s, { counters := counters, controls := p.2 }, p.1)

/-- The first `n` entries of an address array, as a list. -/
def entries (a : Nat → Nat) (n : Nat) : List Nat :=
  (List.range n).map a

/-! ### The filled arrays seen as lists

The loops of `p4_fill_in_addresses` store at consecutive indices starting from
zero, so each filled array is an initial segment laid over the caller's array.
The two functions below run the same loops with "append to a list" as the
body; `p4_fill_in_addresses_eq` proves that the arrays the C loops fill are
exactly these lists. -/

/-- An array whose first `l.length` entries are `l` and whose other entries
are those of `a`. -/
def overlay (a : Nat → Nat) (l : List Nat) : Nat → Nat :=
  fun j => if h : j < l.length then l[j] else a j

/-- List counterpart of `store_control`. -/
def append_control (addr : Nat) (l : List Nat) : Option (List Nat) :=
  some (l ++ [addr])

/-- The counter addresses in the order the first loop stores them. -/
def counter_list (nc stag : Nat) : Option (List Nat) :=
  for_count
    (fun i l => (p4_counters[i + nc * stag]?).map (fun b => l ++ [b.counter_address]))
    nc 0 []

/-- The control addresses in the order the control loops store them, for
address stride `inc`, stagger `stag`, counter count `nc`; `newer` is the
outcome of the test `x86_model >= 0x3`. -/
def control_list (inc stag : Nat) (newer : Bool) (nc : Nat) : Option (List Nat) := do
  let l ← for_addr_le MSR_P4_IQ_CCCR5 inc append_control (MSR_P4_BPU_CCCR0 + stag) []
  let l ← for_addr_lt MSR_P4_IQ_ESCR0 inc append_control (MSR_P4_BSU_ESCR0 + stag) l
  let l ←
    if newer then
      for_addr_le MSR_P4_BSU_ESCR1 inc append_control (MSR_P4_BSU_ESCR0 + stag) l
    else
      for_addr_le MSR_P4_IQ_ESCR1 inc append_control (MSR_P4_IQ_ESCR0 + stag) l
  let l ← for_addr_le MSR_P4_SSU_ESCR0 inc append_control (MSR_P4_RAT_ESCR0 + stag) l
  let l ← for_addr_le MSR_P4_TC_ESCR1 inc append_control (MSR_P4_MS_ESCR0 + stag) l
  let l ← for_addr_le MSR_P4_CRU_ESCR3 inc append_control (MSR_P4_IX_ESCR0 + stag) l
  if nc = NUM_COUNTERS_NON_HT then
    (append_control MSR_P4_CRU_ESCR5 l).bind (append_control MSR_P4_CRU_ESCR4)
  else if stag = 0 then
    append_control MSR_P4_CRU_ESCR4 l
  else
    (append_control MSR_P4_CRU_ESCR5 l).bind (append_control MSR_P4_CRU_ESCR5)

/-- Representation of a list of stored controls as the pair (`i`, `controls`). -/
def control_rep (a : Nat → Nat) (l : List Nat) : Nat × (Nat → Nat) :=
  (l.length, overlay a l)

/-! ## Register access -/

def rdmsrl (s : State) (addr : Nat) : Nat :=
  s.msr addr

def wrmsrl (s : State) (addr val : Nat) : State :=
  { s with msr := set_at s.msr addr val, writes := s.writes ++ [(addr, val)] }

def printk (s : State) (d : Diag) : State :=
  { s with log := s.log ++ [d] }

/-- Negation of a 64-bit unsigned value, as in `-(msr_content)`. -/
def neg64 (x : Nat) : Nat :=
  (2 ^ 64 - x % 2 ^ 64) % 2 ^ 64

def MISC_PMC_ENABLED_P (x : Nat) : Nat := x &&& (1 <<< 7)

def ESCR_RESERVED_BITS : Nat := 0x80000003
def ESCR_CLEAR (escr : Nat) : Nat := escr &&& ESCR_RESERVED_BITS
def ESCR_SET_USR_0 (escr usr : Nat) : Nat := escr ||| ((usr &&& 1) <<< 2)
def ESCR_SET_OS_0 (escr os : Nat) : Nat := escr ||| ((os &&& 1) <<< 3)
def ESCR_SET_USR_1 (escr usr : Nat) : Nat := escr ||| (usr &&& 1)
def ESCR_SET_OS_1 (escr os : Nat) : Nat := escr ||| ((os &&& 1) <<< 1)
def ESCR_SET_EVENT_SELECT (escr sel : Nat) : Nat := escr ||| ((sel &&& 0x3f) <<< 25)
def ESCR_SET_EVENT_MASK (escr mask : Nat) : Nat := escr ||| ((mask &&& 0xffff) <<< 9)

def CCCR_RESERVED_BITS : Nat := 0x38030FFF
def CCCR_CLEAR (cccr : Nat) : Nat := cccr &&& CCCR_RESERVED_BITS
def CCCR_SET_REQUIRED_BITS (cccr : Nat) : Nat := cccr ||| 0x00030000
def CCCR_SET_ESCR_SELECT (cccr sel : Nat) : Nat := cccr ||| ((sel &&& 0x07) <<< 13)
def CCCR_SET_PMI_OVF_0 (cccr : Nat) : Nat := cccr ||| (1 <<< 26)
def CCCR_SET_PMI_OVF_1 (cccr : Nat) : Nat := cccr ||| (1 <<< 27)

/-- The macro `CTR_WRITE(l, i)`: writes `-(l)` to the counter register of physical
counter `i`; the table index may be out of range. -/
def CTR_WRITE (s : State) (l i : Nat) : Option State :=
  (p4_counters[i]?).map (fun b => wrmsrl s b.counter_address (neg64 l))

/-! ## Event configurator -/

/-- One element of the external array `counter_config` (declared in
`op_counter.h`; all fields are `unsigned long`). -/
structure op_counter_config where
  count : Nat
  enabled : Nat
  event : Nat
  kernel : Nat
  user : Nat
  unit_mask : Nat
  deriving DecidableEq, Repr

/-- The ESCR value `pmc_setup_one_p4_counter` writes, from the value `escr`
read: `ESCR_CLEAR`, the user and kernel bits of the stagger, event select and
event mask, in the order of the code. -/
def escr_program (stag : Nat) (cf : op_counter_config) (ev : p4_event_binding) (escr : Nat) :
    Nat :=
  let escr := ESCR_CLEAR escr
  let escr :=
    if stag = 0 then ESCR_SET_OS_0 (ESCR_SET_USR_0 escr cf.user) cf.kernel
    else ESCR_SET_OS_1 (ESCR_SET_USR_1 escr cf.user) cf.kernel
  let escr := ESCR_SET_EVENT_SELECT escr ev.event_select
  ESCR_SET_EVENT_MASK escr cf.unit_mask

/-- The CCCR value `pmc_setup_one_p4_counter` writes, from the value `cccr`
read. -/
def cccr_program (stag : Nat) (ev : p4_event_binding) (cccr : Nat) : Nat :=
  let cccr := CCCR_CLEAR cccr
  let cccr := CCCR_SET_REQUIRED_BITS cccr
  let cccr := CCCR_SET_ESCR_SELECT cccr ev.escr_select
  if stag = 0 then CCCR_SET_PMI_OVF_0 cccr else CCCR_SET_PMI_OVF_1 cccr

/-- The binding loop of `pmc_setup_one_p4_counter`,
`for (i = 0; i < maxbind; i++)`, with its early `return` and the `printk`
that follows the loop.  The first argument is `maxbind - i`. -/
def bind_loop (cf : op_counter_config) (ev : p4_event_binding) (stag ctr counter_bit : Nat) :
    Nat → Nat → State → Option State
  | 0, _, s => some (printk s (Diag.no_binding cf.event stag ctr))
  | k + 1, i, s =>
    (ev.bindings[i]?).bind fun b =>
      if b.virt_counter &&& counter_bit ≠ 0 then
        -- modify ESCR
        let s := wrmsrl s b.escr_address (escr_program stag cf ev (rdmsrl s b.escr_address))
        -- modify CCCR
        (p4_counters[VIRT_CTR s stag ctr]?).map fun cb =>
          wrmsrl s cb.cccr_address (cccr_program stag ev (rdmsrl s cb.cccr_address))
      else bind_loop cf ev stag ctr counter_bit k (i + 1) s

/-- The function `pmc_setup_one_p4_counter(ctr)`; `cfg` is the array `counter_config`.
The result is `none` where the C code has no defined behaviour: a shift count
of 32 or more, or a table index out of range. -/
def pmc_setup_one_p4_counter (c : Cpu) (cfg : Nat → op_counter_config) (ctr : Nat) (s : State) :
    Option State :=
  let maxbind := 2
  let stag := get_stagger c
  -- convert from counter *number* to counter *bit*
  if VIRT_CTR s stag ctr ≥ 32 then none
  else
    let counter_bit := (1 <<< VIRT_CTR s stag ctr) % 2 ^ 32
    -- find our event binding structure.
    if (cfg ctr).event ≤ 0 ∨ (cfg ctr).event > NUM_EVENTS then
      some (printk s (Diag.event_out_of_range (cfg ctr).event))
    else
      (p4_events[(cfg ctr).event - 1]?).bind fun ev =>
        bind_loop (cfg ctr) ev stag ctr counter_bit maxbind 0 s

/-- The first candidate pair of an event whose sub-counter flag has the bit
`counter_bit` set, if there is one. -/
def first_binding (ev : p4_event_binding) (counter_bit : Nat) : Option escr_binding :=
  ev.bindings.find? (fun b => decide (b.virt_counter &&& counter_bit ≠ 0))

/-- The state after the two register writes of `pmc_setup_one_p4_counter`
for the candidate pair `b` and the physical counter `cb`. -/
def program_binding (stag : Nat) (cf : op_counter_config) (ev : p4_event_binding)
    (b : escr_binding) (cb : p4_counter_binding) (s : State) : State :=
  let s := wrmsrl s b.escr_address (escr_program stag cf ev (rdmsrl s b.escr_address))
  wrmsrl s cb.cccr_address (cccr_program stag ev (rdmsrl s cb.cccr_address))

/-! ## Setup sequence -/

/-- The block `rdmsrl; CCCR_CLEAR; CCCR_SET_REQUIRED_BITS; wrmsrl` on one CCCR. -/
def clear_cccr (s : State) (addr : Nat) : State :=
  wrmsrl s addr (CCCR_SET_REQUIRED_BITS (CCCR_CLEAR (rdmsrl s addr)))

/-- Loop body `wrmsrl(addr, 0x0ULL)`. -/
def clear_escr (addr : Nat) (s : State) : Option State :=
  some (wrmsrl s addr 0)

/-- Body of the last loop of `p4_setup_ctrs` ("setup all counters"). -/
def setup_counter (c : Cpu) (cfg : Nat → op_counter_config) (i : Nat) (s : State) :
    Option State :=
  if (cfg i).enabled ≠ 0 then
    let s := { s with reset_value := set_at s.reset_value i (cfg i).count }
    (pmc_setup_one_p4_counter c cfg i s).bind fun s =>
      CTR_WRITE s (cfg i).count (VIRT_CTR s (get_stagger c) i)
  else
    some { s with reset_value := set_at s.reset_value i 0 }

/-- The function `p4_setup_ctrs`.  (The stray `++i` in the header of the `RAT_ESCR0` loop
changes only the local `i`, which is reassigned before its next use.) -/
def p4_setup_ctrs (c : Cpu) (cfg : Nat → op_counter_config) (s : State) : Option State :=
  let stag := get_stagger c
  if MISC_PMC_ENABLED_P (rdmsrl s MSR_IA32_MISC_ENABLE) = 0 then
    some (printk s Diag.pmc_not_available)
  else do
    -- clear the cccrs we will use
    let s ← for_count
      (fun i s => (p4_counters[VIRT_CTR s stag i]?).map (fun b => clear_cccr s b.cccr_address))
      s.num_counters 0 s
    -- clear cccrs outside our concern
    let s ← for_addr_lt NUM_UNUSED_CCCRS (addr_increment c)
      (fun i s => (p4_unused_cccr[i]?).map (clear_cccr s)) stag s
    -- clear all escrs (including those outside our concern)
    let s ← for_addr_lt MSR_P4_IQ_ESCR0 (addr_increment c) clear_escr (MSR_P4_BSU_ESCR0 + stag) s
    -- On older models clear also MSR_P4_IQ_ESCR0/1
    let s :=
      if c.x86_model < 0x3 then wrmsrl (wrmsrl s MSR_P4_IQ_ESCR0 0) MSR_P4_IQ_ESCR1 0 else s
    let s ← for_addr_le MSR_P4_SSU_ESCR0 (addr_increment c) clear_escr (MSR_P4_RAT_ESCR0 + stag) s
    let s ← for_addr_le MSR_P4_TC_ESCR1 (addr_increment c) clear_escr (MSR_P4_MS_ESCR0 + stag) s
    let s ← for_addr_le MSR_P4_CRU_ESCR3 (addr_increment c) clear_escr (MSR_P4_IX_ESCR0 + stag) s
    let s :=
      if s.num_counters = NUM_COUNTERS_NON_HT then
        wrmsrl (wrmsrl s MSR_P4_CRU_ESCR4 0) MSR_P4_CRU_ESCR5 0
      else if stag = 0 then wrmsrl s MSR_P4_CRU_ESCR4 0
      else wrmsrl s MSR_P4_CRU_ESCR5 0
    -- setup all counters
    for_count (setup_counter c cfg) s.num_counters 0 s

/-- The topology the driver is written for: on a two-sibling core
`num_counters` has been set to 4; otherwise it is 8 and the CPU is the only
member of its sibling mask, so its stagger is 0. -/
def topology_ok (c : Cpu) (s : State) : Prop :=
  (c.x86_num_siblings = 2 ∧ s.num_counters = NUM_COUNTERS_HT2) ∨
  (c.x86_num_siblings ≠ 2 ∧ s.num_counters = NUM_COUNTERS_NON_HT ∧ get_stagger c = 0)

/-- What `p4_fill_in_addresses` relies on when it is entered: unless the core
has two siblings, `num_counters` still has its initial value 8 and the CPU is
the only member of its sibling mask. -/
def fill_pre (c : Cpu) (s : State) : Prop :=
  c.x86_num_siblings ≠ 2 → s.num_counters = NUM_COUNTERS_NON_HT ∧ get_stagger c = 0

instance (c : Cpu) (s : State) : Decidable (topology_ok c s) := by
  unfold topology_ok
  infer_instance

instance (c : Cpu) (s : State) : Decidable (fill_pre c s) := by
  unfold fill_pre
  infer_instance

/-- The module state at load time, for given register contents: the static
initialisers of `num_counters` and `reset_value`, and empty histories. -/
def boot_state (msr : Nat → Nat) : State :=
  { num_counters := NUM_COUNTERS_NON_HT, reset_value := fun _ => 0, msr := msr,
    writes := [], log := [] }

/-- Address arrays before they are filled. -/
def blank_msrs : op_msrs :=
  { counters := fun _ => 0, controls := fun _ => 0 }

/-- The counter configuration of the scenario: counter `ctr` enabled with
event code 1, user = 1, kernel = 0, unit mask 0, count `0xFFFF0000`; every
other counter disabled. -/
def scenario_config (ctr : Nat) : Nat → op_counter_config :=
  fun i => if i = ctr then ⟨0xFFFF0000, 1, 1, 0, 1, 0⟩ else ⟨0, 0, 0, 0, 0, 0⟩

/-- A CPU without hyper-threading (one sibling, model 3). -/
def non_ht_cpu : Cpu := ⟨1, 3, 0, 0⟩

/-- The odd sibling of a hyper-threaded core (model 3). -/
def ht_odd_cpu : Cpu := ⟨2, 3, 1, 0⟩

/-- Register contents with the performance-monitoring bit of
`MSR_IA32_MISC_ENABLE` set and every other register zero. -/
def pmc_msr : Nat → Nat :=
  fun a => if a = MSR_IA32_MISC_ENABLE then 1 <<< 7 else 0

/-- The module state on a hyper-threaded core once `setup_num_counters` has
run. -/
def ht_state (msr : Nat → Nat) : State :=
  { boot_state msr with num_counters := NUM_COUNTERS_HT2 }

/-- The descriptor published for the topology. -/
def published_spec (c : Cpu) : op_x86_model_spec :=
  if c.x86_num_siblings = 2 then op_p4_ht2_spec else op_p4_spec

/-! ## Sampling controller -/

def CCCR_SET_ENABLE (cccr : Nat) : Nat := cccr ||| (1 <<< 12)
/-- The macro `cccr &= ~(1ULL<<12)` on a 64-bit value. -/
def CCCR_SET_DISABLE (cccr : Nat) : Nat := cccr &&& (2 ^ 64 - 1 - (1 <<< 12))

/-- The sequence `CCCR_READ(msr_content, i); f(msr_content); CCCR_WRITE(msr_content, i)`
on physical counter `i`; the table index may be out of range. -/
def modify_cccr (f : Nat → Nat) (i : Nat) (s : State) : Option State :=
  (p4_counters[i]?).map fun cb => wrmsrl s cb.cccr_address (f (rdmsrl s cb.cccr_address))

/-- The function `p4_start`. -/
def p4_start (c : Cpu) (s : State) : Option State :=
  let stag := get_stagger c
  for_count
    (fun i s =>
      if s.reset_value i = 0 then some s
      else modify_cccr CCCR_SET_ENABLE (VIRT_CTR s stag i) s)
    s.num_counters 0 s

/-- The function `p4_stop`. -/
def p4_stop (c : Cpu) (s : State) : Option State :=
  let stag := get_stagger c
  for_count (fun i s => modify_cccr CCCR_SET_DISABLE (VIRT_CTR s stag i) s) s.num_counters 0 s

/-! ## Overflow monitor -/

def CCCR_OVF_P (cccr : Nat) : Nat := cccr &&& (1 <<< 31)
/-- The macro `cccr &= ~(1ULL<<31)` on a 64-bit value. -/
def CCCR_CLEAR_OVF (cccr : Nat) : Nat := cccr &&& (2 ^ 64 - 1 - (1 <<< 31))
/-- The macro `!((ctr) & 0x80000000ULL)`, as the C truth value 0 or 1. -/
def CTR_OVERFLOW_P (ctr : Nat) : Nat := if ctr &&& 0x80000000 = 0 then 1 else 0

/-- Modelled from the spec: the mask bit of a local-vector-table entry,
`APIC_LVT_MASKED` of the header `asm/apicdef.h`, which is not part of the
source file. -/
def APIC_LVT_MASKED : Nat := 1 <<< 16

/-- The call `xenoprof_log_event(current, regs, eip, mode, i)` to the sample sink. -/
def xenoprof_log_event (s : State) (eip mode i : Nat) : State :=
  { s with samples := s.samples ++ [(eip, mode, i)] }

/-- Body of the loop of `p4_check_ctrs` for counter `i`; the loop state is the
module state together with the local `ovf`.  The two register reads are
recorded in `reads`. -/
def check_counter (c : Cpu) (eip mode i : Nat) (p : State × Nat) : Option (State × Nat) :=
  let s := p.1
  if s.reset_value i = 0 then some p
  else
    let real := VIRT_CTR s (get_stagger c) i
    (p4_counters[real]?).bind fun cb =>
      let msr_content := rdmsrl s cb.cccr_address
      let ctr := rdmsrl s cb.counter_address
      let s := { s with reads := s.reads ++ [cb.cccr_address, cb.counter_address] }
      if CCCR_OVF_P msr_content ≠ 0 ∨ CTR_OVERFLOW_P ctr ≠ 0 then
        let s := xenoprof_log_event s eip mode i
        (CTR_WRITE s (s.reset_value i) real).bind fun s =>
          let msr_content := CCCR_CLEAR_OVF msr_content
          let s := wrmsrl s cb.cccr_address msr_content
          (CTR_WRITE s (s.reset_value i) real).map fun s => (s, 1)
      else some (s, p.2)

/-- The function `p4_check_ctrs`; `eip` is `regs->eip` and `mode` the result of
`xenoprofile_get_mode(current, regs)`.  Returns the state and `ovf`. -/
def p4_check_ctrs (c : Cpu) (eip mode : Nat) (s : State) : Option (State × Nat) :=
  (for_count (check_counter c eip mode) s.num_counters 0 (s, 0)).map fun p =>
    -- P4 quirk: you have to re-unmask the apic vector
    ({ p.1 with lvtpc := p.1.lvtpc &&& (2 ^ 32 - 1 - APIC_LVT_MASKED) }, p.2)

/-! ## Relations between states used in the proofs -/

/-- State `s1` results from `s` by writes to control registers (CCCRs and ESCRs) and
log entries only. -/
def ctl_step (s s1 : State) : Prop :=
  s1.num_counters = s.num_counters ∧ s1.reset_value = s.reset_value ∧
  (∃ l, s1.log = s.log ++ l) ∧
  (∀ a, a < MSR_P4_BPU_CCCR0 → s1.msr a = s.msr a) ∧
  ∃ w, s1.writes = s.writes ++ w ∧ ∀ x ∈ w, MSR_P4_BPU_CCCR0 ≤ x.1

/-- The writes made between `s` and a later state `s1`. -/
def new_writes (s s1 : State) : List (Nat × Nat) :=
  s1.writes.drop s.writes.length

/-- Invariant of the last loop of `p4_setup_ctrs`, started in `s0`, before
iteration `i`. -/
structure setup_inv (c : Cpu) (cfg : Nat → op_counter_config) (s0 : State) (i : Nat)
    (st : State) : Prop where
  nc : st.num_counters = s0.num_counters
  wr : ∃ w, st.writes = s0.writes ++ w
  lg : ∃ l, st.log = s0.log ++ l
  cls : ∀ x ∈ new_writes s0 st, MSR_P4_BPU_CCCR0 ≤ x.1 ∨
    ∃ j cb, j < i ∧ (cfg j).enabled ≠ 0 ∧
      p4_counters[VIRT_CTR s0 (get_stagger c) j]? = some cb ∧
      x = (cb.counter_address, neg64 (cfg j).count)
  en : ∀ j cb, j < i → (cfg j).enabled ≠ 0 →
    p4_counters[VIRT_CTR s0 (get_stagger c) j]? = some cb →
    st.reset_value j = (cfg j).count ∧ st.msr cb.counter_address = neg64 (cfg j).count ∧
    (cb.counter_address, neg64 (cfg j).count) ∈ new_writes s0 st
  dis : ∀ j, j < i → (cfg j).enabled = 0 → st.reset_value j = 0
  sel : ∀ j ev b, j < i → (cfg j).enabled ≠ 0 → 1 ≤ (cfg j).event → (cfg j).event ≤ 39 →
    p4_events[(cfg j).event - 1]? = some ev →
    first_binding ev (1 <<< VIRT_CTR s0 (get_stagger c) j) = some b →
    ∃ old, (b.escr_address, escr_program (get_stagger c) (cfg j) ev old) ∈ new_writes s0 st
  nob : ∀ j ev, j < i → (cfg j).enabled ≠ 0 → 1 ≤ (cfg j).event → (cfg j).event ≤ 39 →
    p4_events[(cfg j).event - 1]? = some ev →
    first_binding ev (1 <<< VIRT_CTR s0 (get_stagger c) j) = none →
    Diag.no_binding (cfg j).event (get_stagger c) j ∈ st.log

/-- Invariant of a loop that applies `f` to the CCCR of every counter selected
by `sel`, started in `s`, before iteration `k`: only the CCCRs of the selected
counters below `k` have changed, by `f`; the reset values and `num_counters`
are as in `s`. -/
structure cccr_inv (c : Cpu) (sel : Nat → Prop) (f : Nat → Nat) (s : State) (k : Nat)
    (st : State) : Prop where
  nc : st.num_counters = s.num_counters
  rv : st.reset_value = s.reset_value
  done : ∀ j cb, j < k → sel j → p4_counters[VIRT_CTR s (get_stagger c) j]? = some cb →
    st.msr cb.cccr_address = f (s.msr cb.cccr_address)
  rest : ∀ a, (∀ j cb, j < k → sel j → p4_counters[VIRT_CTR s (get_stagger c) j]? = some cb →
    cb.cccr_address ≠ a) → st.msr a = s.msr a

/-- Counter `i` is due for service in state `s`: its reset value is nonzero and
the overflow test of `p4_check_ctrs` holds on the contents of its two
registers. -/
def due (c : Cpu) (s : State) (i : Nat) : Bool :=
  match p4_counters[VIRT_CTR s (get_stagger c) i]? with
  | some cb =>
    decide (s.reset_value i ≠ 0 ∧
      (CCCR_OVF_P (s.msr cb.cccr_address) ≠ 0 ∨ CTR_OVERFLOW_P (s.msr cb.counter_address) ≠ 0))
  | none => false

/-- The register writes of `p4_check_ctrs` for counter `i`, from the state `s`
on entry. -/
def service_writes (c : Cpu) (s : State) (i : Nat) : List (Nat × Nat) :=
  match p4_counters[VIRT_CTR s (get_stagger c) i]? with
  | some cb =>
    if due c s i then
      [(cb.counter_address, neg64 (s.reset_value i)),
        (cb.cccr_address, CCCR_CLEAR_OVF (s.msr cb.cccr_address)),
        (cb.counter_address, neg64 (s.reset_value i))]
    else []
  | none => []

/-- The samples `p4_check_ctrs` emits for counter `i`. -/
def service_samples (c : Cpu) (eip mode : Nat) (s : State) (i : Nat) : List (Nat × Nat × Nat) :=
  if due c s i then [(eip, mode, i)] else []

/-- The register reads of `p4_check_ctrs` for counter `i`. -/
def service_reads (c : Cpu) (s : State) (i : Nat) : List Nat :=
  match p4_counters[VIRT_CTR s (get_stagger c) i]? with
  | some cb => if s.reset_value i = 0 then [] else [cb.cccr_address, cb.counter_address]
  | none => []

/-- Invariant of the loop of `p4_check_ctrs`, started in `s`, before iteration
`k`; `p` is the loop state (module state and `ovf`). -/
structure check_inv (c : Cpu) (eip mode : Nat) (s : State) (k : Nat) (p : State × Nat) :
    Prop where
  nc : p.1.num_counters = s.num_counters
  rv : p.1.reset_value = s.reset_value
  lg : p.1.log = s.log
  lv : p.1.lvtpc = s.lvtpc
  wr : p.1.writes = s.writes ++ (List.range k).flatMap (service_writes c s)
  sm : p.1.samples = s.samples ++ (List.range k).flatMap (service_samples c eip mode s)
  rd : p.1.reads = s.reads ++ (List.range k).flatMap (service_reads c s)
  ovf : p.2 = if (List.range k).any (due c s) then 1 else 0
  todo : ∀ j cb, k ≤ j → p4_counters[VIRT_CTR s (get_stagger c) j]? = some cb →
    p.1.msr cb.cccr_address = s.msr cb.cccr_address ∧
    p.1.msr cb.counter_address = s.msr cb.counter_address

/-- A state in which counter 0 is already enabled: bit 12 of `BPU_CCCR0` is
set, every other register is zero and every reset value is 1. -/
def running_state : State :=
  { boot_state (fun a => if a = MSR_P4_BPU_CCCR0 then 1 <<< 12 else 0) with
    reset_value := fun _ => 1 }

/-- A state in which counter 0 has reset value 1, its CCCR is zero and its
counter register holds `0x80000000`: the overflow flag is clear, bit 31 of the
counter is set, and every higher bit of the counter is clear. -/
def quiet_state : State :=
  { boot_state (fun a => if a = MSR_P4_BPU_PERFCTR0 then 0x80000000 else 0) with
    reset_value := fun i => if i = 0 then 1 else 0 }

/-- The even sibling of a hyper-threaded core (model 3). -/
def ht_even_cpu : Cpu := ⟨2, 3, 0, 0⟩

/-- A counter configuration with a small count: counter `ctr` enabled with
event code 1, user = 1, kernel = 0, unit mask 0, count 100000; every other
counter disabled. -/
def small_count_config (ctr : Nat) : Nat → op_counter_config :=
  fun i => if i = ctr then ⟨100000, 1, 1, 0, 1, 0⟩ else ⟨0, 0, 0, 0, 0, 0⟩

/-- No register among the addresses `A` has bit 31, the overflow flag of a
CCCR, set. -/
def ovf_clear (A : Nat → Prop) (st : State) : Prop :=
  ∀ a, A a → (st.msr a).testBit 31 = false

/-- The CCCR addresses of the first `k` virtual counters of the logical CPU
`c` in state `s`. -/
def owned_cccr (c : Cpu) (s : State) (k : Nat) (a : Nat) : Prop :=
  ∃ j cb, j < k ∧ p4_counters[VIRT_CTR s (get_stagger c) j]? = some cb ∧ cb.cccr_address = a

/-! ## Theorems -/

theorem get_stagger_cases (c : Cpu) : get_stagger c = 0 ∨ get_stagger c = 1 := by
  unfold get_stagger
  split <;> simp

theorem overlay_nil (a : Nat → Nat) : overlay a [] = a := by
  funext j
  simp [overlay]

theorem set_at_overlay (a : Nat → Nat) (l : List Nat) (v : Nat) :
    set_at (overlay a l) l.length v = overlay a (l ++ [v]) := by
  funext j
  unfold set_at overlay
  rcases Nat.lt_trichotomy j l.length with h | h | h
  · have h1 : j ≠ l.length := by omega
    have h2 : j < (l ++ [v]).length := by simp; omega
    simp only [h1, if_false, h, h2, dite_true]
    exact (List.getElem_append_left h).symm
  · subst h
    simp
  · have h1 : j ≠ l.length := by omega
    have h2 : ¬ j < l.length := by omega
    have h3 : ¬ j < (l ++ [v]).length := by simp; omega
    simp only [h1, if_false, h2, h3, dite_false]

theorem overlay_frame (a : Nat → Nat) (l : List Nat) (j : Nat) (h : l.length ≤ j) :
    overlay a l j = a j := by
  have h2 : ¬ j < l.length := by omega
  simp [overlay, h2]

theorem entries_overlay (a : Nat → Nat) (l : List Nat) :
    entries (overlay a l) l.length = l := by
  apply List.ext_getElem
  · simp [entries]
  · intro i h1 h2
    simp [entries, overlay, h2]

/-- A loop whose body commutes with a change of representation commutes with
it as a whole. -/
theorem for_addr_map {σ τ : Type} (rep : τ → σ) (cond : Nat → Bool) (inc : Nat)
    (b1 : Nat → σ → Option σ) (b2 : Nat → τ → Option τ)
    (h : ∀ a t, b1 a (rep t) = (b2 a t).map rep) :
    ∀ fuel a t, for_addr cond inc b1 fuel a (rep t) = (for_addr cond inc b2 fuel a t).map rep := by
  intro fuel
  induction fuel with
  | zero =>
    intro a t
    simp only [for_addr]
    split <;> rfl
  | succ n ih =>
    intro a t
    simp only [for_addr]
    split
    · rw [h]
      cases b2 a t with
      | none => rfl
      | some t2 => exact ih _ _
    · rfl

theorem store_control_rep (a : Nat → Nat) (addr : Nat) (l : List Nat) :
    store_control addr (control_rep a l) = (append_control addr l).map (control_rep a) := by
  simp [store_control, control_rep, append_control, set_at_overlay]

theorem for_addr_le_rep (a : Nat → Nat) (last inc start : Nat) (l : List Nat) :
    for_addr_le last inc store_control start (control_rep a l) =
      (for_addr_le last inc append_control start l).map (control_rep a) :=
  for_addr_map (control_rep a) _ inc _ _ (store_control_rep a) _ _ _

theorem for_addr_lt_rep (a : Nat → Nat) (bound inc start : Nat) (l : List Nat) :
    for_addr_lt bound inc store_control start (control_rep a l) =
      (for_addr_lt bound inc append_control start l).map (control_rep a) :=
  for_addr_map (control_rep a) _ inc _ _ (store_control_rep a) _ _ _

theorem fill_counters_rep (a : Nat → Nat) (nc stag : Nat) : ∀ (k : Nat) (l : List Nat),
    for_count (fun i ctrs => (p4_counters[i + nc * stag]?).map
        (fun b => set_at ctrs i b.counter_address)) k l.length (overlay a l) =
      (for_count (fun i l => (p4_counters[i + nc * stag]?).map
        (fun b => l ++ [b.counter_address])) k l.length l).map (overlay a) := by
  intro k
  induction k with
  | zero => intro l; rfl
  | succ n ih =>
    intro l
    simp only [for_count]
    cases p4_counters[l.length + nc * stag]? with
    | none => rfl
    | some b =>
      simp only [Option.map_some', Option.some_bind, set_at_overlay]
      have := ih (l ++ [b.counter_address])
      simp only [List.length_append, List.length_singleton] at this
      exact this

theorem bind_map_rep {α β γ : Type} (x : Option α) (f : α → β) (g : β → Option γ) :
    (x.map f).bind g = x.bind (fun a => g (f a)) := by
  cases x <;> rfl

theorem map_bind_rep {α β γ : Type} (x : Option α) (f : β → γ) (g : α → Option β) :
    (x.bind g).map f = x.bind (fun a => (g a).map f) := by
  cases x <;> rfl

theorem map_eq_bind_some {α β : Type} (x : Option α) (f : α → β) :
    x.map f = x.bind (fun a => some (f a)) := by
  cases x <;> rfl

/-- The arrays filled by `p4_fill_in_addresses` are the caller's arrays with
`counter_list` and `control_list` laid over them, and the final index is the
length of the control list. -/
theorem p4_fill_in_addresses_eq (c : Cpu) (s : State) (msrs : op_msrs) :
    p4_fill_in_addresses c s msrs =
      (counter_list (setup_num_counters c s).num_counters (get_stagger c)).bind fun cl =>
        (control_list (addr_increment c) (get_stagger c) (decide (c.x86_model ≥ 3))
            (setup_num_counters c s).num_counters).map fun l =>
          (setup_num_counters c s,
            { counters := overlay msrs.counters cl, controls := overlay msrs.controls l },
            l.length) := by
  have h0 : ((0 : Nat), msrs.controls) = control_rep msrs.controls [] := by
    simp [control_rep, overlay_nil]
  have hc := fill_counters_rep msrs.counters (setup_num_counters c s).num_counters
    (get_stagger c) (setup_num_counters c s).num_counters []
  simp only [overlay_nil, List.length_nil] at hc
  unfold p4_fill_in_addresses counter_list control_list
  simp only [VIRT_CTR, Option.bind_eq_bind, Option.pure_def, hc, h0, bind_map_rep]
  cases for_count (fun i l => (p4_counters[i + (setup_num_counters c s).num_counters *
        get_stagger c]?).map (fun b => l ++ [b.counter_address]))
      (setup_num_counters c s).num_counters 0 [] with
  | none => rfl
  | some cl =>
    simp only [Option.some_bind, for_addr_le_rep, for_addr_lt_rep, bind_map_rep]
    simp only [map_bind_rep, apply_ite (Option.map _), decide_eq_true_eq]
    simp only [store_control_rep, bind_map_rep, append_control, Option.map_some',
      Option.some_bind, map_eq_bind_some]
    rfl

/-! ### The three address lists -/

theorem control_list_non_ht (newer : Bool) :
    control_list 1 0 newer 8 = some (
      List.range' 0x360 18 ++ List.range' 0x3a0 26 ++
      (if newer then [0x3a0, 0x3a1] else [0x3ba, 0x3bb]) ++
      [0x3bc, 0x3bd, 0x3be] ++ List.range' 0x3c0 6 ++ List.range' 0x3c8 6 ++ [0x3e1, 0x3e0]) := by
  cases newer <;> decide!

theorem control_list_ht0 (newer : Bool) :
    control_list 2 0 newer 4 = some (
      List.range' 0x360 9 2 ++ List.range' 0x3a0 13 2 ++
      (if newer then [0x3a0] else [0x3ba]) ++
      [0x3bc, 0x3be] ++ List.range' 0x3c0 3 2 ++ List.range' 0x3c8 3 2 ++ [0x3e0]) := by
  cases newer <;> decide!

theorem control_list_ht1 (newer : Bool) :
    control_list 2 1 newer 4 = some (
      List.range' 0x361 9 2 ++ List.range' 0x3a1 13 2 ++
      (if newer then [0x3a1] else [0x3bb]) ++
      [0x3bd] ++ List.range' 0x3c1 3 2 ++ List.range' 0x3c9 3 2 ++ [0x3e1, 0x3e1]) := by
  cases newer <;> decide!

theorem counter_list_non_ht :
    counter_list 8 0 = some [0x300, 0x304, 0x308, 0x310, 0x302, 0x306, 0x30a, 0x311] := by
  decide

theorem counter_list_ht0 : counter_list 4 0 = some [0x300, 0x304, 0x308, 0x310] := by
  decide

theorem counter_list_ht1 : counter_list 4 1 = some [0x302, 0x306, 0x30a, 0x311] := by
  decide

/-- Under `fill_pre` the call succeeds, and its result is one of three: the
non-hyper-threaded lists, or the lists of the even or of the odd sibling. -/
theorem fill_in_cases (c : Cpu) (s : State) (msrs : op_msrs) (h : fill_pre c s) :
    ∃ cl l,
      p4_fill_in_addresses c s msrs =
        some (setup_num_counters c s,
          { counters := overlay msrs.counters cl, controls := overlay msrs.controls l },
          l.length) ∧
      ((c.x86_num_siblings ≠ 2 ∧ get_stagger c = 0 ∧ counter_list 8 0 = some cl ∧
          control_list 1 0 (decide (c.x86_model ≥ 3)) 8 = some l) ∨
       (c.x86_num_siblings = 2 ∧ get_stagger c = 0 ∧ counter_list 4 0 = some cl ∧
          control_list 2 0 (decide (c.x86_model ≥ 3)) 4 = some l) ∨
       (c.x86_num_siblings = 2 ∧ get_stagger c = 1 ∧ counter_list 4 1 = some cl ∧
          control_list 2 1 (decide (c.x86_model ≥ 3)) 4 = some l)) := by
  rw [p4_fill_in_addresses_eq]
  by_cases hs : c.x86_num_siblings = 2
  · have hnc : (setup_num_counters c s).num_counters = 4 := by
      simp [setup_num_counters, hs, NUM_COUNTERS_HT2]
    have hinc : addr_increment c = 2 := by simp [addr_increment, hs]
    rw [hnc, hinc]
    rcases get_stagger_cases c with h0 | h1
    · rw [h0, counter_list_ht0, control_list_ht0]
      exact ⟨_, _, rfl, Or.inr (Or.inl ⟨hs, rfl, rfl, rfl⟩)⟩
    · rw [h1, counter_list_ht1, control_list_ht1]
      exact ⟨_, _, rfl, Or.inr (Or.inr ⟨hs, rfl, rfl, rfl⟩)⟩
  · obtain ⟨hn, h0⟩ := h hs
    have hnc : (setup_num_counters c s).num_counters = 8 := by
      simp [setup_num_counters, hs, hn, NUM_COUNTERS_NON_HT]
    have hinc : addr_increment c = 1 := by simp [addr_increment, hs]
    rw [hnc, hinc, h0, counter_list_non_ht, control_list_non_ht]
    exact ⟨_, _, rfl, Or.inl ⟨hs, rfl, rfl, rfl⟩⟩

/-- The result of `p4_fill_in_addresses` with the stored controls as a list. -/
theorem fill_in_list (c : Cpu) (s : State) (msrs : op_msrs) (h : fill_pre c s) :
    ∃ m l,
      p4_fill_in_addresses c s msrs = some (setup_num_counters c s, m, l.length) ∧
      entries m.controls l.length = l ∧
      (∀ j, l.length ≤ j → m.controls j = msrs.controls j) ∧
      ((c.x86_num_siblings ≠ 2 ∧ get_stagger c = 0 ∧
          control_list 1 0 (decide (c.x86_model ≥ 3)) 8 = some l) ∨
       (c.x86_num_siblings = 2 ∧ get_stagger c = 0 ∧
          control_list 2 0 (decide (c.x86_model ≥ 3)) 4 = some l) ∨
       (c.x86_num_siblings = 2 ∧ get_stagger c = 1 ∧
          control_list 2 1 (decide (c.x86_model ≥ 3)) 4 = some l)) := by
  obtain ⟨cl, l, heq, hc⟩ := fill_in_cases c s msrs h
  refine ⟨_, l, heq, entries_overlay _ _, fun j hj => overlay_frame _ _ _ hj, ?_⟩
  rcases hc with ⟨a, b, _, d⟩ | ⟨a, b, _, d⟩ | ⟨a, b, _, d⟩
  · exact Or.inl ⟨a, b, d⟩
  · exact Or.inr (Or.inl ⟨a, b, d⟩)
  · exact Or.inr (Or.inr ⟨a, b, d⟩)

theorem fill_pre_boot_non_ht (model : Nat) (msr : Nat → Nat) :
    fill_pre ⟨1, model, 0, 0⟩ (boot_state msr) := by
  intro _
  exact ⟨rfl, rfl⟩

theorem fill_pre_ht (model cpu first : Nat) (s : State) : fill_pre ⟨2, model, cpu, first⟩ s := by
  intro hne
  exact absurd rfl hne

/-! ## Address allocator: the claims -/

/-- C1: in each of the three topology cases (no hyper-threading with stagger 0,
hyper-threading with stagger 0 or 1) and for every model, the call succeeds
and the number of addresses `p4_fill_in_addresses` stores into
`msrs->controls` is the `num_controls` of the descriptor published for the
topology; the stores are at the indices below that number, the entries from
that index on are untouched. -/
theorem fill_in_count_eq_num_controls (c : Cpu) (s : State) (msrs : op_msrs)
    (h : fill_pre c s) :
    ∃ s1 m, p4_fill_in_addresses c s msrs = some (s1, m, (published_spec c).num_controls) ∧
      (∀ j, (published_spec c).num_controls ≤ j → m.controls j = msrs.controls j) ∧
      (c.x86_num_siblings ≠ 2 → (published_spec c) = op_p4_spec) ∧
      (c.x86_num_siblings = 2 → (published_spec c) = op_p4_ht2_spec) := by
  obtain ⟨m, l, heq, _, hfr, hc⟩ := fill_in_list c s msrs h
  have hlen : l.length = (published_spec c).num_controls := by
    rcases hc with ⟨a, _, d⟩ | ⟨a, _, d⟩ | ⟨a, _, d⟩
    · rw [control_list_non_ht] at d
      rw [← Option.some.inj d]
      simp only [published_spec, a, if_false]
      cases decide (c.x86_model ≥ 3) <;> rfl
    · rw [control_list_ht0] at d
      rw [← Option.some.inj d]
      simp only [published_spec, a, if_true]
      cases decide (c.x86_model ≥ 3) <;> rfl
    · rw [control_list_ht1] at d
      rw [← Option.some.inj d]
      simp only [published_spec, a, if_true]
      cases decide (c.x86_model ≥ 3) <;> rfl
  rw [hlen] at heq hfr
  refine ⟨_, m, heq, hfr, ?_, ?_⟩
  · intro hs
    simp [published_spec, hs]
  · intro hs
    simp [published_spec, hs]

theorem fill_in_count_eq_num_controls_witness :
    fill_pre ⟨2, 3, 1, 0⟩ (boot_state fun _ => 0) ∧
      ∃ s1 m, p4_fill_in_addresses ⟨2, 3, 1, 0⟩ (boot_state fun _ => 0) blank_msrs =
          some (s1, m, (published_spec ⟨2, 3, 1, 0⟩).num_controls) ∧
        (∀ j, (published_spec ⟨2, 3, 1, 0⟩).num_controls ≤ j →
          m.controls j = blank_msrs.controls j) ∧
        ((2 : Nat) ≠ 2 → published_spec ⟨2, 3, 1, 0⟩ = op_p4_spec) ∧
        ((2 : Nat) = 2 → published_spec ⟨2, 3, 1, 0⟩ = op_p4_ht2_spec) :=
  ⟨fill_pre_ht 3 1 0 _,
    fill_in_count_eq_num_controls ⟨2, 3, 1, 0⟩ (boot_state fun _ => 0) blank_msrs
      (fill_pre_ht 3 1 0 _)⟩

/-- C2, as stated, fails: without hyper-threading the control list does not
have 45 entries (it has 63), and the descriptor `op_p4_spec` does not declare
45 controls. -/
theorem fill_in_non_ht_not_45_controls :
    (¬ ∃ s1 m, p4_fill_in_addresses ⟨1, 3, 0, 0⟩ (boot_state fun _ => 0) blank_msrs =
        some (s1, m, 45)) ∧
      op_p4_spec.num_controls ≠ 45 := by
  refine ⟨?_, by decide⟩
  rintro ⟨s1, m, heq⟩
  obtain ⟨m2, l, heq2, _, _, hc⟩ :=
    fill_in_list ⟨1, 3, 0, 0⟩ (boot_state fun _ => 0) blank_msrs (fill_pre_boot_non_ht 3 _)
  rw [heq] at heq2
  have hlen : l.length = 45 := by
    have := Option.some.inj heq2
    simp only [Prod.mk.injEq] at this
    exact this.2.2.symm
  rcases hc with ⟨_, _, d⟩ | ⟨a, _, _⟩ | ⟨a, _, _⟩
  · rw [control_list_non_ht] at d
    rw [← Option.some.inj d] at hlen
    revert hlen
    decide
  · exact absurd a (by decide)
  · exact absurd a (by decide)

/-- C2, amended: the control list has exactly 63 entries without
hyper-threading (18 CCCR addresses followed by 45 ESCR addresses) and exactly
32 entries with hyper-threading (9 CCCR addresses followed by 23 ESCR
addresses), for either stagger and either model; 63 and 32 are the control
counts of the two published descriptors, which are 8-counter/63-control and
4-counter/32-control. -/
theorem fill_in_fixed_length (c : Cpu) (s : State) (msrs : op_msrs) (h : fill_pre c s) :
    ∃ s1 m n, p4_fill_in_addresses c s msrs = some (s1, m, n) ∧
      (c.x86_num_siblings ≠ 2 →
        n = 63 ∧ n = NUM_CCCRS_NON_HT + NUM_ESCRS_NON_HT ∧
        (∀ a ∈ (entries m.controls n).take 18, MSR_P4_BPU_CCCR0 ≤ a ∧ a ≤ MSR_P4_IQ_CCCR5) ∧
        ((entries m.controls n).drop 18).length = 45 ∧
        (∀ a ∈ (entries m.controls n).drop 18, MSR_P4_BSU_ESCR0 ≤ a ∧ a ≤ MSR_P4_CRU_ESCR5)) ∧
      (c.x86_num_siblings = 2 →
        n = 32 ∧ n = NUM_CCCRS_HT2 + NUM_ESCRS_HT2 ∧
        (∀ a ∈ (entries m.controls n).take 9, MSR_P4_BPU_CCCR0 ≤ a ∧ a ≤ MSR_P4_IQ_CCCR5) ∧
        ((entries m.controls n).drop 9).length = 23 ∧
        (∀ a ∈ (entries m.controls n).drop 9, MSR_P4_BSU_ESCR0 ≤ a ∧ a ≤ MSR_P4_CRU_ESCR5)) ∧
      op_p4_spec = { num_counters := 8, num_controls := 63 } ∧
      op_p4_ht2_spec = { num_counters := 4, num_controls := 32 } := by
  obtain ⟨m, l, heq, hent, _, hc⟩ := fill_in_list c s msrs h
  refine ⟨_, m, l.length, heq, ?_, ?_, by decide, by decide⟩
  · intro hs
    rw [hent]
    rcases hc with ⟨_, _, d⟩ | ⟨a, _, _⟩ | ⟨a, _, _⟩
    · rw [control_list_non_ht] at d
      rw [← Option.some.inj d]
      cases decide (c.x86_model ≥ 3) <;> decide
    · exact absurd a hs
    · exact absurd a hs
  · intro hs
    rw [hent]
    rcases hc with ⟨a, _, _⟩ | ⟨_, _, d⟩ | ⟨_, _, d⟩
    · exact absurd hs a
    · rw [control_list_ht0] at d
      rw [← Option.some.inj d]
      cases decide (c.x86_model ≥ 3) <;> decide
    · rw [control_list_ht1] at d
      rw [← Option.some.inj d]
      cases decide (c.x86_model ≥ 3) <;> decide

theorem fill_in_fixed_length_witness :
    fill_pre ⟨1, 2, 0, 0⟩ (boot_state fun _ => 0) ∧
      ∃ s1 m n, p4_fill_in_addresses ⟨1, 2, 0, 0⟩ (boot_state fun _ => 0) blank_msrs =
          some (s1, m, n) ∧
        ((1 : Nat) ≠ 2 →
          n = 63 ∧ n = NUM_CCCRS_NON_HT + NUM_ESCRS_NON_HT ∧
          (∀ a ∈ (entries m.controls n).take 18, MSR_P4_BPU_CCCR0 ≤ a ∧ a ≤ MSR_P4_IQ_CCCR5) ∧
          ((entries m.controls n).drop 18).length = 45 ∧
          (∀ a ∈ (entries m.controls n).drop 18,
            MSR_P4_BSU_ESCR0 ≤ a ∧ a ≤ MSR_P4_CRU_ESCR5)) ∧
        ((1 : Nat) = 2 →
          n = 32 ∧ n = NUM_CCCRS_HT2 + NUM_ESCRS_HT2 ∧
          (∀ a ∈ (entries m.controls n).take 9, MSR_P4_BPU_CCCR0 ≤ a ∧ a ≤ MSR_P4_IQ_CCCR5) ∧
          ((entries m.controls n).drop 9).length = 23 ∧
          (∀ a ∈ (entries m.controls n).drop 9,
            MSR_P4_BSU_ESCR0 ≤ a ∧ a ≤ MSR_P4_CRU_ESCR5)) ∧
        op_p4_spec = { num_counters := 8, num_controls := 63 } ∧
        op_p4_ht2_spec = { num_counters := 4, num_controls := 32 } :=
  ⟨fill_pre_boot_non_ht 2 _,
    fill_in_fixed_length ⟨1, 2, 0, 0⟩ (boot_state fun _ => 0) blank_msrs
      (fill_pre_boot_non_ht 2 _)⟩

/-- C3: the leftover registers `CRU_ESCR4` and `CRU_ESCR5` are the final
entries of the control list and occur nowhere before them.  Without
hyper-threading the list ends with the two of them, once each; with
hyper-threading and stagger 0 it ends with the single entry `CRU_ESCR4` and
`CRU_ESCR5` does not occur; with hyper-threading and stagger 1 it ends with
`CRU_ESCR5` twice and `CRU_ESCR4` does not occur. -/
theorem fill_in_leftover_escrs (c : Cpu) (s : State) (msrs : op_msrs) (h : fill_pre c s) :
    ∃ s1 m n front,
      p4_fill_in_addresses c s msrs = some (s1, m, n) ∧
      MSR_P4_CRU_ESCR4 ∉ front ∧ MSR_P4_CRU_ESCR5 ∉ front ∧
      (c.x86_num_siblings ≠ 2 →
        entries m.controls n = front ++ [MSR_P4_CRU_ESCR5, MSR_P4_CRU_ESCR4] ∧
        (entries m.controls n).count MSR_P4_CRU_ESCR4 = 1 ∧
        (entries m.controls n).count MSR_P4_CRU_ESCR5 = 1) ∧
      (c.x86_num_siblings = 2 → get_stagger c = 0 →
        entries m.controls n = front ++ [MSR_P4_CRU_ESCR4] ∧
        (entries m.controls n).count MSR_P4_CRU_ESCR4 = 1 ∧
        (entries m.controls n).count MSR_P4_CRU_ESCR5 = 0) ∧
      (c.x86_num_siblings = 2 → get_stagger c = 1 →
        entries m.controls n = front ++ [MSR_P4_CRU_ESCR5, MSR_P4_CRU_ESCR5] ∧
        (entries m.controls n).count MSR_P4_CRU_ESCR4 = 0 ∧
        (entries m.controls n).count MSR_P4_CRU_ESCR5 = 2) := by
  obtain ⟨m, l, heq, hent, _, hc⟩ := fill_in_list c s msrs h
  rcases hc with ⟨a, b, d⟩ | ⟨a, b, d⟩ | ⟨a, b, d⟩
  · rw [control_list_non_ht] at d
    refine ⟨_, m, l.length, l.take 61, heq, ?_, ?_, ?_, fun hs => absurd hs a,
      fun hs => absurd hs a⟩
    · rw [← Option.some.inj d]
      cases decide (c.x86_model ≥ 3) <;> decide
    · rw [← Option.some.inj d]
      cases decide (c.x86_model ≥ 3) <;> decide
    · intro _
      rw [hent, ← Option.some.inj d]
      cases decide (c.x86_model ≥ 3) <;> decide
  · rw [control_list_ht0] at d
    refine ⟨_, m, l.length, l.take 31, heq, ?_, ?_, fun hs => absurd a hs, ?_, ?_⟩
    · rw [← Option.some.inj d]
      cases decide (c.x86_model ≥ 3) <;> decide
    · rw [← Option.some.inj d]
      cases decide (c.x86_model ≥ 3) <;> decide
    · intro _ _
      rw [hent, ← Option.some.inj d]
      cases decide (c.x86_model ≥ 3) <;> decide
    · intro _ h1
      rw [b] at h1
      exact absurd h1 (by decide)
  · rw [control_list_ht1] at d
    refine ⟨_, m, l.length, l.take 30, heq, ?_, ?_, fun hs => absurd a hs, ?_, ?_⟩
    · rw [← Option.some.inj d]
      cases decide (c.x86_model ≥ 3) <;> decide
    · rw [← Option.some.inj d]
      cases decide (c.x86_model ≥ 3) <;> decide
    · intro _ h0
      rw [b] at h0
      exact absurd h0 (by decide)
    · intro _ _
      rw [hent, ← Option.some.inj d]
      cases decide (c.x86_model ≥ 3) <;> decide

theorem fill_in_leftover_escrs_witness :
    fill_pre ⟨2, 3, 0, 0⟩ (boot_state fun _ => 0) ∧
      ∃ s1 m n front,
        p4_fill_in_addresses ⟨2, 3, 0, 0⟩ (boot_state fun _ => 0) blank_msrs =
          some (s1, m, n) ∧
        MSR_P4_CRU_ESCR4 ∉ front ∧ MSR_P4_CRU_ESCR5 ∉ front ∧
        ((2 : Nat) ≠ 2 →
          entries m.controls n = front ++ [MSR_P4_CRU_ESCR5, MSR_P4_CRU_ESCR4] ∧
          (entries m.controls n).count MSR_P4_CRU_ESCR4 = 1 ∧
          (entries m.controls n).count MSR_P4_CRU_ESCR5 = 1) ∧
        ((2 : Nat) = 2 → get_stagger ⟨2, 3, 0, 0⟩ = 0 →
          entries m.controls n = front ++ [MSR_P4_CRU_ESCR4] ∧
          (entries m.controls n).count MSR_P4_CRU_ESCR4 = 1 ∧
          (entries m.controls n).count MSR_P4_CRU_ESCR5 = 0) ∧
        ((2 : Nat) = 2 → get_stagger ⟨2, 3, 0, 0⟩ = 1 →
          entries m.controls n = front ++ [MSR_P4_CRU_ESCR5, MSR_P4_CRU_ESCR5] ∧
          (entries m.controls n).count MSR_P4_CRU_ESCR4 = 0 ∧
          (entries m.controls n).count MSR_P4_CRU_ESCR5 = 2) :=
  ⟨fill_pre_ht 3 0 0 _,
    fill_in_leftover_escrs ⟨2, 3, 0, 0⟩ (boot_state fun _ => 0) blank_msrs
      (fill_pre_ht 3 0 0 _)⟩

/-- C4, as stated, fails: on a model below the threshold (here model 2,
without hyper-threading) the two entries that follow the 18 CCCR and 26 ESCR
addresses are not a second copy of `BSU_ESCR0`, `BSU_ESCR1`; the code lists
`IQ_ESCR0`, `IQ_ESCR1` there. -/
theorem fill_in_old_model_not_bsu :
    ¬ ∃ s1 m n, p4_fill_in_addresses ⟨1, 2, 0, 0⟩ (boot_state fun _ => 0) blank_msrs =
        some (s1, m, n) ∧
      ((entries m.controls n).drop 44).take 2 = [MSR_P4_BSU_ESCR0, MSR_P4_BSU_ESCR1] := by
  rintro ⟨s1, m, n, heq, hseg⟩
  obtain ⟨m2, l, heq2, hent, _, hc⟩ :=
    fill_in_list ⟨1, 2, 0, 0⟩ (boot_state fun _ => 0) blank_msrs (fill_pre_boot_non_ht 2 _)
  rw [heq] at heq2
  have hinj := Option.some.inj heq2
  simp only [Prod.mk.injEq] at hinj
  obtain ⟨_, hm, hn⟩ := hinj
  subst hm hn
  rw [hent] at hseg
  rcases hc with ⟨_, _, d⟩ | ⟨a, _, _⟩ | ⟨a, _, _⟩
  · rw [control_list_non_ht] at d
    rw [← Option.some.inj d] at hseg
    revert hseg
    decide
  · exact absurd a (by decide)
  · exact absurd a (by decide)

/-- C4, amended: the direction of the model test is the opposite of the
claim's.  When `x86_model >= 0x3`, the list positions after the CCCR block and
the `BSU_ESCR0 ..` block are filled by a second scan of `BSU_ESCR0 ..
BSU_ESCR1` from the stagger offset at the stride; when `x86_model < 0x3` the
scan of `IQ_ESCR0 .. IQ_ESCR1` is listed there.  The total length (63 without
hyper-threading, 32 with) does not depend on the model. -/
theorem fill_in_model_quirk (c : Cpu) (s : State) (msrs : op_msrs) (h : fill_pre c s) :
    ∃ s1 m n, p4_fill_in_addresses c s msrs = some (s1, m, n) ∧
      n = (if c.x86_num_siblings = 2 then 32 else 63) ∧
      (c.x86_num_siblings ≠ 2 →
        ((entries m.controls n).drop 44).take 2 =
          if c.x86_model ≥ 0x3 then [MSR_P4_BSU_ESCR0, MSR_P4_BSU_ESCR1]
          else [MSR_P4_IQ_ESCR0, MSR_P4_IQ_ESCR1]) ∧
      (c.x86_num_siblings = 2 →
        ((entries m.controls n).drop 22).take 1 =
          if c.x86_model ≥ 0x3 then [MSR_P4_BSU_ESCR0 + get_stagger c]
          else [MSR_P4_IQ_ESCR0 + get_stagger c]) := by
  obtain ⟨m, l, heq, hent, _, hc⟩ := fill_in_list c s msrs h
  refine ⟨_, m, l.length, heq, ?_⟩
  rw [hent]
  have hdec : ∀ (α : Type) (x y : α), (if c.x86_model ≥ 3 then x else y) =
      (if decide (c.x86_model ≥ 3) = true then x else y) := by
    intro α x y
    simp
  simp only [hdec]
  rcases hc with ⟨a, b, d⟩ | ⟨a, b, d⟩ | ⟨a, b, d⟩
  · rw [control_list_non_ht] at d
    rw [← Option.some.inj d, if_neg a]
    refine ⟨?_, fun _ => ?_, fun hs => absurd hs a⟩
    · cases decide (c.x86_model ≥ 3) <;> decide
    · cases decide (c.x86_model ≥ 3) <;> decide
  · rw [control_list_ht0] at d
    rw [← Option.some.inj d, if_pos a, b]
    refine ⟨?_, fun hs => absurd a hs, fun _ => ?_⟩
    · cases decide (c.x86_model ≥ 3) <;> decide
    · cases decide (c.x86_model ≥ 3) <;> decide
  · rw [control_list_ht1] at d
    rw [← Option.some.inj d, if_pos a, b]
    refine ⟨?_, fun hs => absurd a hs, fun _ => ?_⟩
    · cases decide (c.x86_model ≥ 3) <;> decide
    · cases decide (c.x86_model ≥ 3) <;> decide

theorem fill_in_model_quirk_witness :
    fill_pre ⟨2, 2, 1, 0⟩ (boot_state fun _ => 0) ∧
      ∃ s1 m n, p4_fill_in_addresses ⟨2, 2, 1, 0⟩ (boot_state fun _ => 0) blank_msrs =
          some (s1, m, n) ∧
        n = (if (2 : Nat) = 2 then 32 else 63) ∧
        ((2 : Nat) ≠ 2 →
          ((entries m.controls n).drop 44).take 2 =
            if (2 : Nat) ≥ 0x3 then [MSR_P4_BSU_ESCR0, MSR_P4_BSU_ESCR1]
            else [MSR_P4_IQ_ESCR0, MSR_P4_IQ_ESCR1]) ∧
        ((2 : Nat) = 2 →
          ((entries m.controls n).drop 22).take 1 =
            if (2 : Nat) ≥ 0x3 then [MSR_P4_BSU_ESCR0 + get_stagger ⟨2, 2, 1, 0⟩]
            else [MSR_P4_IQ_ESCR0 + get_stagger ⟨2, 2, 1, 0⟩]) :=
  ⟨fill_pre_ht 2 1 0 _,
    fill_in_model_quirk ⟨2, 2, 1, 0⟩ (boot_state fun _ => 0) blank_msrs (fill_pre_ht 2 1 0 _)⟩

/-! ## Bit fields of the programmed register values -/

theorem testBit_3f (i : Nat) : Nat.testBit 0x3f i = decide (i < 6) := by
  rw [show (0x3f : Nat) = 2 ^ 6 - 1 from rfl, Nat.testBit_two_pow_sub_one]

theorem testBit_ffff (i : Nat) : Nat.testBit 0xffff i = decide (i < 16) := by
  rw [show (0xffff : Nat) = 2 ^ 16 - 1 from rfl, Nat.testBit_two_pow_sub_one]

theorem testBit_07 (i : Nat) : Nat.testBit 0x07 i = decide (i < 3) := by
  rw [show (0x07 : Nat) = 2 ^ 3 - 1 from rfl, Nat.testBit_two_pow_sub_one]

theorem testBit_1 (i : Nat) : Nat.testBit 1 i = decide (i = 0) := by
  have h := Nat.testBit_two_pow_sub_one 1 i
  simpa using h

theorem testBit_escr_reserved (i : Nat) :
    Nat.testBit ESCR_RESERVED_BITS i = (decide (i = 31) || decide (i < 2)) := by
  rw [show ESCR_RESERVED_BITS = 2 ^ 31 ||| (2 ^ 2 - 1) from rfl, Nat.testBit_or,
    Nat.testBit_two_pow, Nat.testBit_two_pow_sub_one]
  simp [eq_comm]

theorem testBit_cccr_reserved (i : Nat) :
    Nat.testBit CCCR_RESERVED_BITS i =
      (decide (i < 12) || decide (i = 16) || decide (i = 17) || decide (i = 27) ||
        decide (i = 28) || decide (i = 29)) := by
  rw [show CCCR_RESERVED_BITS =
    (2 ^ 12 - 1) ||| 2 ^ 16 ||| 2 ^ 17 ||| 2 ^ 27 ||| 2 ^ 28 ||| 2 ^ 29 from rfl]
  simp only [Nat.testBit_or, Nat.testBit_two_pow, Nat.testBit_two_pow_sub_one]
  simp [eq_comm]

theorem testBit_required (i : Nat) :
    Nat.testBit 0x00030000 i = (decide (i = 16) || decide (i = 17)) := by
  rw [show (0x00030000 : Nat) = 2 ^ 16 ||| 2 ^ 17 from rfl]
  simp only [Nat.testBit_or, Nat.testBit_two_pow]
  simp [eq_comm]

/-- Bits 25-30 of a programmed ESCR value are the low six bits of the event
select code, whatever was read. -/
theorem escr_program_event_select (stag : Nat) (cf : op_counter_config)
    (ev : p4_event_binding) (old : Nat) :
    (escr_program stag cf ev old >>> 25) &&& 0x3f = ev.event_select &&& 0x3f := by
  unfold escr_program ESCR_CLEAR ESCR_SET_OS_0 ESCR_SET_USR_0 ESCR_SET_OS_1 ESCR_SET_USR_1
    ESCR_SET_EVENT_SELECT ESCR_SET_EVENT_MASK
  apply Nat.eq_of_testBit_eq
  intro i
  by_cases h : i < 6
  · split <;>
    · simp only [Nat.testBit_and, Nat.testBit_or, Nat.testBit_shiftLeft, Nat.testBit_shiftRight,
        testBit_3f, testBit_ffff, testBit_1, testBit_escr_reserved]
      simp (disch := omega) only [decide_eq_false, decide_eq_true, Nat.add_sub_cancel_left,
        Bool.and_false, Bool.false_and, Bool.or_false, Bool.false_or, Bool.and_true,
        Bool.true_and]
  · simp [testBit_3f, h]

/-- Bits 9-24 of a programmed ESCR value are the low sixteen bits of the unit
mask, whatever was read. -/
theorem escr_program_event_mask (stag : Nat) (cf : op_counter_config)
    (ev : p4_event_binding) (old : Nat) :
    (escr_program stag cf ev old >>> 9) &&& 0xffff = cf.unit_mask &&& 0xffff := by
  unfold escr_program ESCR_CLEAR ESCR_SET_OS_0 ESCR_SET_USR_0 ESCR_SET_OS_1 ESCR_SET_USR_1
    ESCR_SET_EVENT_SELECT ESCR_SET_EVENT_MASK
  apply Nat.eq_of_testBit_eq
  intro i
  by_cases h : i < 16
  · split <;>
    · simp only [Nat.testBit_and, Nat.testBit_or, Nat.testBit_shiftLeft, Nat.testBit_shiftRight,
        testBit_3f, testBit_ffff, testBit_1, testBit_escr_reserved]
      simp (disch := omega) only [decide_eq_false, decide_eq_true, Nat.add_sub_cancel_left,
        Bool.and_false, Bool.false_and, Bool.or_false, Bool.false_or, Bool.and_true,
        Bool.true_and]
  · simp [testBit_ffff, h]

/-- Bits 13-15 of a programmed CCCR value are the low three bits of the ESCR
select code, whatever was read. -/
theorem cccr_program_escr_select (stag : Nat) (ev : p4_event_binding) (old : Nat) :
    (cccr_program stag ev old >>> 13) &&& 0x07 = ev.escr_select &&& 0x07 := by
  unfold cccr_program CCCR_CLEAR CCCR_SET_REQUIRED_BITS CCCR_SET_ESCR_SELECT CCCR_SET_PMI_OVF_0
    CCCR_SET_PMI_OVF_1
  apply Nat.eq_of_testBit_eq
  intro i
  by_cases h : i < 3
  · split <;>
    · simp only [Nat.testBit_and, Nat.testBit_or, Nat.testBit_shiftLeft, Nat.testBit_shiftRight,
        testBit_07, testBit_1, testBit_cccr_reserved, testBit_required]
      simp (disch := omega) only [decide_eq_false, decide_eq_true, Nat.add_sub_cancel_left,
        Bool.and_false, Bool.false_and, Bool.or_false, Bool.false_or, Bool.and_true,
        Bool.true_and]
  · simp [testBit_07, h]

/-- A programmed CCCR value has the enable bit and the overflow flag clear and
the overflow-interrupt bit of the stagger set, whatever was read. -/
theorem cccr_program_flags (stag : Nat) (ev : p4_event_binding) (old : Nat) :
    (cccr_program stag ev old).testBit 12 = false ∧
    (cccr_program stag ev old).testBit 31 = false ∧
    (cccr_program stag ev old).testBit (if stag = 0 then 26 else 27) = true := by
  unfold cccr_program CCCR_CLEAR CCCR_SET_REQUIRED_BITS CCCR_SET_ESCR_SELECT CCCR_SET_PMI_OVF_0
    CCCR_SET_PMI_OVF_1
  by_cases hs : stag = 0
  · simp only [hs, if_true, Nat.testBit_and, Nat.testBit_or, Nat.testBit_shiftLeft, testBit_07,
      testBit_1, testBit_cccr_reserved, testBit_required]
    simp
  · simp only [hs, if_false, Nat.testBit_and, Nat.testBit_or, Nat.testBit_shiftLeft, testBit_07,
      testBit_1, testBit_cccr_reserved, testBit_required]
    simp

/-! ## Facts about the tables -/

theorem p4_events_length : p4_events.length = NUM_EVENTS := by
  decide

theorem p4_counters_length : p4_counters.length = NUM_COUNTERS_NON_HT := by
  decide

theorem p4_events_bindings_length : ∀ ev ∈ p4_events, ev.bindings.length = 2 := by
  decide

theorem p4_events_select_range :
    ∀ ev ∈ p4_events, ev.event_select &&& 0x3f = ev.event_select ∧
      ev.escr_select &&& 0x07 = ev.escr_select := by
  decide

theorem p4_events_escr_range :
    ∀ ev ∈ p4_events, ∀ b ∈ ev.bindings, b.virt_counter ≠ 0 →
      MSR_P4_BSU_ESCR0 ≤ b.escr_address ∧ b.escr_address ≤ MSR_P4_CRU_ESCR3 := by
  decide

theorem p4_counters_range :
    ∀ cb ∈ p4_counters, MSR_P4_BPU_PERFCTR0 ≤ cb.counter_address ∧
      cb.counter_address ≤ MSR_P4_IQ_PERFCTR5 ∧
      MSR_P4_BPU_CCCR0 ≤ cb.cccr_address ∧ cb.cccr_address ≤ MSR_P4_IQ_CCCR5 := by
  decide

/-! ## Event configurator -/

/-- Under `topology_ok` every virtual counter maps into the 8-entry table. -/
theorem virt_ctr_lt (c : Cpu) (s : State) (i : Nat) (ht : topology_ok c s)
    (hi : i < s.num_counters) : VIRT_CTR s (get_stagger c) i < 8 := by
  unfold VIRT_CTR
  rcases ht with ⟨_, hn⟩ | ⟨_, hn, h0⟩
  · rw [hn] at hi ⊢
    simp only [NUM_COUNTERS_HT2] at hi ⊢
    rcases get_stagger_cases c with h | h <;> rw [h] <;> omega
  · rw [hn] at hi ⊢
    rw [h0]
    simp only [NUM_COUNTERS_NON_HT] at hi ⊢
    omega

theorem p4_counters_lookup (n : Nat) (h : n < 8) : ∃ cb, p4_counters[n]? = some cb ∧
    cb ∈ p4_counters := by
  have hl : n < p4_counters.length := by
    rw [p4_counters_length]
    exact h
  exact ⟨p4_counters[n], List.getElem?_eq_getElem hl, List.getElem_mem hl⟩

theorem bind_loop_eq (cf : op_counter_config) (ev : p4_event_binding) (stag ctr cbit : Nat)
    (cb : p4_counter_binding) :
    ∀ (k i : Nat) (s : State), i + k = ev.bindings.length →
      p4_counters[VIRT_CTR s stag ctr]? = some cb →
      bind_loop cf ev stag ctr cbit k i s =
        match (ev.bindings.drop i).find? (fun b => decide (b.virt_counter &&& cbit ≠ 0)) with
        | none => some (printk s (Diag.no_binding cf.event stag ctr))
        | some b => some (program_binding stag cf ev b cb s) := by
  intro k
  induction k with
  | zero =>
    intro i s hi _
    have : ev.bindings.drop i = [] := List.drop_eq_nil_of_le (by omega)
    simp [bind_loop, this]
  | succ n ih =>
    intro i s hi hcb
    have hlt : i < ev.bindings.length := by omega
    have hd : ev.bindings.drop i = ev.bindings[i] :: ev.bindings.drop (i + 1) :=
      List.drop_eq_getElem_cons hlt
    have hget : ev.bindings[i]? = some ev.bindings[i] := List.getElem?_eq_getElem hlt
    simp only [bind_loop, hget, Option.some_bind, hd, List.find?_cons]
    change (if ev.bindings[i].virt_counter &&& cbit ≠ 0 then
        (p4_counters[VIRT_CTR s stag ctr]?).map fun cb =>
          program_binding stag cf ev ev.bindings[i] cb s
      else bind_loop cf ev stag ctr cbit n (i + 1) s) = _
    rw [hcb]
    by_cases hm : ev.bindings[i].virt_counter &&& cbit ≠ 0
    · rw [if_pos hm, decide_eq_true hm]
      rfl
    · rw [if_neg hm, decide_eq_false hm]
      exact ih (i + 1) s (by omega) hcb

theorem pmc_setup_one_eq (c : Cpu) (cfg : Nat → op_counter_config) (ctr : Nat) (s : State)
    (cb : p4_counter_binding)
    (hcb : p4_counters[VIRT_CTR s (get_stagger c) ctr]? = some cb) :
    pmc_setup_one_p4_counter c cfg ctr s =
      if (cfg ctr).event ≤ 0 ∨ (cfg ctr).event > NUM_EVENTS then
        some (printk s (Diag.event_out_of_range (cfg ctr).event))
      else
        (p4_events[(cfg ctr).event - 1]?).bind fun ev =>
          match first_binding ev (1 <<< VIRT_CTR s (get_stagger c) ctr) with
          | none => some (printk s (Diag.no_binding (cfg ctr).event (get_stagger c) ctr))
          | some b => some (program_binding (get_stagger c) (cfg ctr) ev b cb s) := by
  have hlt : VIRT_CTR s (get_stagger c) ctr < 8 := by
    have := (List.getElem?_eq_some_iff.mp hcb).1
    simpa [p4_counters] using this
  have h32 : ¬ VIRT_CTR s (get_stagger c) ctr ≥ 32 := by omega
  have hbit : (1 <<< VIRT_CTR s (get_stagger c) ctr) % 2 ^ 32 =
      1 <<< VIRT_CTR s (get_stagger c) ctr := by
    apply Nat.mod_eq_of_lt
    rw [Nat.one_shiftLeft]
    exact Nat.pow_lt_pow_right (by decide) (by omega)
  unfold pmc_setup_one_p4_counter
  simp only [h32, if_false, hbit]
  split
  · rfl
  · cases hev : p4_events[(cfg ctr).event - 1]? with
    | none => rfl
    | some ev =>
      have hmem : ev ∈ p4_events := List.getElem?_mem hev
      have hlen := p4_events_bindings_length ev hmem
      simp only [Option.some_bind]
      rw [bind_loop_eq (cfg ctr) ev (get_stagger c) ctr _ cb 2 0 s (by omega) hcb]
      simp [first_binding]

theorem event_lookup (e : Nat) (h1 : 1 ≤ e) (h2 : e ≤ 39) :
    ∃ ev, p4_events[e - 1]? = some ev ∧ ev ∈ p4_events := by
  have hl : e - 1 < p4_events.length := by
    rw [p4_events_length, NUM_EVENTS]
    omega
  exact ⟨p4_events[e - 1], List.getElem?_eq_getElem hl, List.getElem_mem hl⟩

theorem program_binding_writes (stag : Nat) (cf : op_counter_config) (ev : p4_event_binding)
    (b : escr_binding) (cb : p4_counter_binding) (s : State) :
    (program_binding stag cf ev b cb s).writes =
      s.writes ++ [(b.escr_address, escr_program stag cf ev (s.msr b.escr_address)),
        (cb.cccr_address, cccr_program stag ev
          (set_at s.msr b.escr_address (escr_program stag cf ev (s.msr b.escr_address))
            cb.cccr_address))] := by
  simp [program_binding, wrmsrl, rdmsrl]

/-- C5: the number of register writes of `pmc_setup_one_p4_counter` is decided
by its input.  If the event code is outside [1,39], or it is in range but no
candidate pair of `p4_events[code-1]` has the bit `1 << VIRT_CTR(stagger, ctr)`
in its sub-counter flag, nothing is written (and the matching diagnostic is
logged); otherwise nothing is logged and exactly two writes are made: one to
the ESCR of the first matching candidate pair, one to the CCCR of physical
counter `VIRT_CTR(stagger, ctr)`. -/
theorem configure_register_writes (c : Cpu) (cfg : Nat → op_counter_config) (ctr : Nat)
    (s : State) (ht : topology_ok c s) (hc : ctr < s.num_counters) :
    ∃ s1 cb, pmc_setup_one_p4_counter c cfg ctr s = some s1 ∧
      p4_counters[VIRT_CTR s (get_stagger c) ctr]? = some cb ∧
      ((cfg ctr).event < 1 ∨ 39 < (cfg ctr).event →
        s1.writes = s.writes ∧ s1.msr = s.msr ∧
        s1.log = s.log ++ [Diag.event_out_of_range (cfg ctr).event]) ∧
      (1 ≤ (cfg ctr).event ∧ (cfg ctr).event ≤ 39 →
        ∃ ev, p4_events[(cfg ctr).event - 1]? = some ev ∧
          ((∀ b ∈ ev.bindings,
              b.virt_counter &&& (1 <<< VIRT_CTR s (get_stagger c) ctr) = 0) →
            s1.writes = s.writes ∧ s1.msr = s.msr ∧
            s1.log = s.log ++ [Diag.no_binding (cfg ctr).event (get_stagger c) ctr]) ∧
          (∀ b, first_binding ev (1 <<< VIRT_CTR s (get_stagger c) ctr) = some b →
            s1.log = s.log ∧
            ∃ v1 v2, s1.writes = s.writes ++ [(b.escr_address, v1), (cb.cccr_address, v2)])) := by
  obtain ⟨cb, hcb, _⟩ := p4_counters_lookup _ (virt_ctr_lt c s ctr ht hc)
  rw [pmc_setup_one_eq c cfg ctr s cb hcb]
  by_cases hr : (cfg ctr).event ≤ 0 ∨ (cfg ctr).event > NUM_EVENTS
  · rw [if_pos hr]
    refine ⟨_, cb, rfl, hcb, fun _ => ⟨rfl, rfl, rfl⟩, fun h => ?_⟩
    simp only [NUM_EVENTS] at hr
    omega
  · rw [if_neg hr]
    simp only [NUM_EVENTS] at hr
    obtain ⟨ev, hev, _⟩ := event_lookup (cfg ctr).event (by omega) (by omega)
    rw [hev, Option.some_bind]
    cases hfb : first_binding ev (1 <<< VIRT_CTR s (get_stagger c) ctr) with
    | none =>
      refine ⟨_, cb, rfl, hcb, fun h => ?_, fun _ => ⟨ev, rfl, fun _ => ⟨rfl, rfl, rfl⟩, ?_⟩⟩
      · omega
      · intro b hb
        rw [hfb] at hb
        cases hb
    | some b0 =>
      refine ⟨_, cb, rfl, hcb, fun h => ?_, fun _ => ⟨ev, rfl, fun hall => ?_, ?_⟩⟩
      · omega
      · have hmem := List.mem_of_find?_eq_some hfb
        have hp := List.find?_some hfb
        simp only [decide_eq_true_eq] at hp
        exact absurd (hall b0 hmem) hp
      · intro b hb
        rw [hfb] at hb
        cases hb
        exact ⟨rfl, _, _, program_binding_writes _ _ _ _ _ _⟩


theorem topology_ok_boot_non_ht (model : Nat) (msr : Nat → Nat) :
    topology_ok ⟨1, model, 0, 0⟩ (boot_state msr) :=
  Or.inr ⟨by simp, rfl, rfl⟩

/-- A matching candidate pair is a real table entry, so its ESCR is not a CCCR. -/
theorem first_binding_escr_ne_cccr (ev : p4_event_binding) (bit : Nat) (b : escr_binding)
    (cb : p4_counter_binding) (hev : ev ∈ p4_events) (hcb : cb ∈ p4_counters)
    (hb : first_binding ev bit = some b) : cb.cccr_address ≠ b.escr_address := by
  have hmem := List.mem_of_find?_eq_some hb
  have hp := List.find?_some hb
  simp only [decide_eq_true_eq] at hp
  have hne : b.virt_counter ≠ 0 := by
    intro h0
    rw [h0, Nat.zero_and] at hp
    exact hp rfl
  have h1 := (p4_events_escr_range ev hev b hmem hne).1
  have h2 := (p4_counters_range cb hcb).2.2.2
  simp only [MSR_P4_BSU_ESCR0] at h1
  simp only [MSR_P4_IQ_CCCR5] at h2
  omega

/-- C6: when a candidate pair matches, the value written to its ESCR is, for
the value `old` read from that register, `(old & 0x80000003) | ((user & 1) <<
2) | ((kernel & 1) << 3) | ((event_select & 0x3f) << 25) | ((unit_mask &
0xffff) << 9)` for stagger 0, and the same with the user bit unshifted and the
kernel bit shifted by 1 for stagger 1.  Its bits 25-30 are the event-select
code of the event and its bits 9-24 the low 16 bits of the unit mask, for
every `old`. -/
theorem configure_escr_value (c : Cpu) (cfg : Nat → op_counter_config) (ctr : Nat)
    (s : State) (ev : p4_event_binding) (b : escr_binding)
    (ht : topology_ok c s) (hc : ctr < s.num_counters)
    (hr : 1 ≤ (cfg ctr).event ∧ (cfg ctr).event ≤ 39)
    (hev : p4_events[(cfg ctr).event - 1]? = some ev)
    (hb : first_binding ev (1 <<< VIRT_CTR s (get_stagger c) ctr) = some b) :
    ∃ s1 v rest, pmc_setup_one_p4_counter c cfg ctr s = some s1 ∧
      s1.writes = s.writes ++ (b.escr_address, v) :: rest ∧
      (get_stagger c = 0 →
        v = ((s.msr b.escr_address &&& 0x80000003) ||| (((cfg ctr).user &&& 1) <<< 2) |||
          (((cfg ctr).kernel &&& 1) <<< 3) ||| ((ev.event_select &&& 0x3f) <<< 25) |||
          (((cfg ctr).unit_mask &&& 0xffff) <<< 9))) ∧
      (get_stagger c = 1 →
        v = ((s.msr b.escr_address &&& 0x80000003) ||| ((cfg ctr).user &&& 1) |||
          (((cfg ctr).kernel &&& 1) <<< 1) ||| ((ev.event_select &&& 0x3f) <<< 25) |||
          (((cfg ctr).unit_mask &&& 0xffff) <<< 9))) ∧
      (v >>> 25) &&& 0x3f = ev.event_select ∧
      (v >>> 9) &&& 0xffff = (cfg ctr).unit_mask &&& 0xffff := by
  obtain ⟨cb, hcb, _⟩ := p4_counters_lookup _ (virt_ctr_lt c s ctr ht hc)
  have hnr : ¬ ((cfg ctr).event ≤ 0 ∨ (cfg ctr).event > NUM_EVENTS) := by
    simp only [NUM_EVENTS]
    omega
  rw [pmc_setup_one_eq c cfg ctr s cb hcb, if_neg hnr, hev, Option.some_bind, hb]
  refine ⟨_, _, _, rfl, program_binding_writes _ _ _ _ _ _, ?_, ?_, ?_, ?_⟩
  · intro h0
    simp [escr_program, h0, ESCR_CLEAR, ESCR_RESERVED_BITS, ESCR_SET_USR_0, ESCR_SET_OS_0,
      ESCR_SET_EVENT_SELECT, ESCR_SET_EVENT_MASK]
  · intro h1
    simp [escr_program, h1, ESCR_CLEAR, ESCR_RESERVED_BITS, ESCR_SET_USR_1, ESCR_SET_OS_1,
      ESCR_SET_EVENT_SELECT, ESCR_SET_EVENT_MASK]
  · rw [escr_program_event_select]
    exact (p4_events_select_range ev (List.getElem?_mem hev)).1
  · exact escr_program_event_mask _ _ _ _

/-- C7: when a candidate pair matches, the value written to the CCCR of
physical counter `VIRT_CTR(stagger, ctr)` is `(old & 0x38030FFF) | 0x00030000
| ((escr_select & 7) << 13) | (1 << 26` or `1 << 27)` for the value `old`
read from that register.  For every `old`, bits 13-15 are the ESCR select
code of the event, the enable bit 12 and the overflow flag 31 are clear, and
the overflow-interrupt bit of the stagger (26 or 27) is set. -/
theorem configure_cccr_value (c : Cpu) (cfg : Nat → op_counter_config) (ctr : Nat)
    (s : State) (ev : p4_event_binding) (b : escr_binding)
    (ht : topology_ok c s) (hc : ctr < s.num_counters)
    (hr : 1 ≤ (cfg ctr).event ∧ (cfg ctr).event ≤ 39)
    (hev : p4_events[(cfg ctr).event - 1]? = some ev)
    (hb : first_binding ev (1 <<< VIRT_CTR s (get_stagger c) ctr) = some b) :
    ∃ s1 cb v1 v, pmc_setup_one_p4_counter c cfg ctr s = some s1 ∧
      p4_counters[VIRT_CTR s (get_stagger c) ctr]? = some cb ∧
      s1.writes = s.writes ++ [(b.escr_address, v1), (cb.cccr_address, v)] ∧
      v = ((s.msr cb.cccr_address &&& 0x38030FFF) ||| 0x00030000 |||
        ((ev.escr_select &&& 7) <<< 13) |||
        (if get_stagger c = 0 then 1 <<< 26 else 1 <<< 27)) ∧
      (v >>> 13) &&& 7 = ev.escr_select ∧
      v.testBit 12 = false ∧
      v.testBit 31 = false ∧
      v.testBit (if get_stagger c = 0 then 26 else 27) = true := by
  obtain ⟨cb, hcb, hcbm⟩ := p4_counters_lookup _ (virt_ctr_lt c s ctr ht hc)
  have hnr : ¬ ((cfg ctr).event ≤ 0 ∨ (cfg ctr).event > NUM_EVENTS) := by
    simp only [NUM_EVENTS]
    omega
  have hevm := List.getElem?_mem hev
  have hne := first_binding_escr_ne_cccr ev _ b cb hevm hcbm hb
  rw [pmc_setup_one_eq c cfg ctr s cb hcb, if_neg hnr, hev, Option.some_bind, hb]
  have hold : set_at s.msr b.escr_address
      (escr_program (get_stagger c) (cfg ctr) ev (s.msr b.escr_address)) cb.cccr_address =
      s.msr cb.cccr_address := by
    simp [set_at, hne]
  have hw := program_binding_writes (get_stagger c) (cfg ctr) ev b cb s
  rw [hold] at hw
  refine ⟨_, cb, _, _, rfl, hcb, hw, ?_, ?_, cccr_program_flags _ _ _⟩
  · by_cases h0 : get_stagger c = 0
    · simp [cccr_program, h0, CCCR_CLEAR, CCCR_RESERVED_BITS, CCCR_SET_REQUIRED_BITS,
        CCCR_SET_ESCR_SELECT, CCCR_SET_PMI_OVF_0]
    · simp [cccr_program, h0, CCCR_CLEAR, CCCR_RESERVED_BITS, CCCR_SET_REQUIRED_BITS,
        CCCR_SET_ESCR_SELECT, CCCR_SET_PMI_OVF_1]
  · rw [cccr_program_escr_select]
    exact (p4_events_select_range ev hevm).2


theorem configure_register_writes_witness :
    topology_ok non_ht_cpu (boot_state pmc_msr) ∧ 3 < (boot_state pmc_msr).num_counters ∧
    ∃ s1 cb, pmc_setup_one_p4_counter non_ht_cpu (scenario_config 3) 3 (boot_state pmc_msr) =
        some s1 ∧
      p4_counters[VIRT_CTR (boot_state pmc_msr) (get_stagger non_ht_cpu) 3]? = some cb ∧
      ((scenario_config 3 3).event < 1 ∨ 39 < (scenario_config 3 3).event →
        s1.writes = (boot_state pmc_msr).writes ∧ s1.msr = (boot_state pmc_msr).msr ∧
        s1.log = (boot_state pmc_msr).log ++
          [Diag.event_out_of_range (scenario_config 3 3).event]) ∧
      (1 ≤ (scenario_config 3 3).event ∧ (scenario_config 3 3).event ≤ 39 →
        ∃ ev, p4_events[(scenario_config 3 3).event - 1]? = some ev ∧
          ((∀ b ∈ ev.bindings,
              b.virt_counter &&&
                (1 <<< VIRT_CTR (boot_state pmc_msr) (get_stagger non_ht_cpu) 3) = 0) →
            s1.writes = (boot_state pmc_msr).writes ∧ s1.msr = (boot_state pmc_msr).msr ∧
            s1.log = (boot_state pmc_msr).log ++
              [Diag.no_binding (scenario_config 3 3).event (get_stagger non_ht_cpu) 3]) ∧
          (∀ b, first_binding ev
              (1 <<< VIRT_CTR (boot_state pmc_msr) (get_stagger non_ht_cpu) 3) = some b →
            s1.log = (boot_state pmc_msr).log ∧
            ∃ v1 v2, s1.writes = (boot_state pmc_msr).writes ++
              [(b.escr_address, v1), (cb.cccr_address, v2)])) :=
  ⟨topology_ok_boot_non_ht 3 pmc_msr, by decide,
    configure_register_writes non_ht_cpu (scenario_config 3) 3 (boot_state pmc_msr)
      (topology_ok_boot_non_ht 3 pmc_msr) (by decide)⟩

theorem configure_escr_value_witness :
    topology_ok non_ht_cpu (boot_state pmc_msr) ∧ 3 < (boot_state pmc_msr).num_counters ∧
    (1 ≤ (scenario_config 3 3).event ∧ (scenario_config 3 3).event ≤ 39) ∧
    p4_events[(scenario_config 3 3).event - 1]? =
      some ⟨0x05, 0x06, [⟨CTR_IQ_4, MSR_P4_CRU_ESCR2⟩, ⟨CTR_IQ_5, MSR_P4_CRU_ESCR3⟩]⟩ ∧
    first_binding ⟨0x05, 0x06, [⟨CTR_IQ_4, MSR_P4_CRU_ESCR2⟩, ⟨CTR_IQ_5, MSR_P4_CRU_ESCR3⟩]⟩
      (1 <<< VIRT_CTR (boot_state pmc_msr) (get_stagger non_ht_cpu) 3) =
      some ⟨CTR_IQ_4, MSR_P4_CRU_ESCR2⟩ ∧
    ∃ s1 v rest, pmc_setup_one_p4_counter non_ht_cpu (scenario_config 3) 3 (boot_state pmc_msr) =
        some s1 ∧
      s1.writes = (boot_state pmc_msr).writes ++ (MSR_P4_CRU_ESCR2, v) :: rest ∧
      (get_stagger non_ht_cpu = 0 →
        v = (((boot_state pmc_msr).msr MSR_P4_CRU_ESCR2 &&& 0x80000003) |||
          (((scenario_config 3 3).user &&& 1) <<< 2) |||
          (((scenario_config 3 3).kernel &&& 1) <<< 3) ||| ((0x06 &&& 0x3f) <<< 25) |||
          (((scenario_config 3 3).unit_mask &&& 0xffff) <<< 9))) ∧
      (get_stagger non_ht_cpu = 1 →
        v = (((boot_state pmc_msr).msr MSR_P4_CRU_ESCR2 &&& 0x80000003) |||
          ((scenario_config 3 3).user &&& 1) |||
          (((scenario_config 3 3).kernel &&& 1) <<< 1) ||| ((0x06 &&& 0x3f) <<< 25) |||
          (((scenario_config 3 3).unit_mask &&& 0xffff) <<< 9))) ∧
      (v >>> 25) &&& 0x3f = 0x06 ∧
      (v >>> 9) &&& 0xffff = (scenario_config 3 3).unit_mask &&& 0xffff :=
  ⟨topology_ok_boot_non_ht 3 pmc_msr, by decide, by decide, by decide, by decide,
    configure_escr_value non_ht_cpu (scenario_config 3) 3 (boot_state pmc_msr)
      ⟨0x05, 0x06, [⟨CTR_IQ_4, MSR_P4_CRU_ESCR2⟩, ⟨CTR_IQ_5, MSR_P4_CRU_ESCR3⟩]⟩
      ⟨CTR_IQ_4, MSR_P4_CRU_ESCR2⟩
      (topology_ok_boot_non_ht 3 pmc_msr) (by decide) (by decide) (by decide) (by decide)⟩

theorem topology_ok_ht (model cpu first : Nat) (msr : Nat → Nat) :
    topology_ok ⟨2, model, cpu, first⟩ (ht_state msr) :=
  Or.inl ⟨rfl, rfl⟩

theorem configure_cccr_value_witness :
    topology_ok ht_odd_cpu (ht_state pmc_msr) ∧ 3 < (ht_state pmc_msr).num_counters ∧
    (1 ≤ (scenario_config 3 3).event ∧ (scenario_config 3 3).event ≤ 39) ∧
    p4_events[(scenario_config 3 3).event - 1]? =
      some ⟨0x05, 0x06, [⟨CTR_IQ_4, MSR_P4_CRU_ESCR2⟩, ⟨CTR_IQ_5, MSR_P4_CRU_ESCR3⟩]⟩ ∧
    first_binding ⟨0x05, 0x06, [⟨CTR_IQ_4, MSR_P4_CRU_ESCR2⟩, ⟨CTR_IQ_5, MSR_P4_CRU_ESCR3⟩]⟩
      (1 <<< VIRT_CTR (ht_state pmc_msr) (get_stagger ht_odd_cpu) 3) =
      some ⟨CTR_IQ_5, MSR_P4_CRU_ESCR3⟩ ∧
    ∃ s1 cb v1 v,
      pmc_setup_one_p4_counter ht_odd_cpu (scenario_config 3) 3 (ht_state pmc_msr) = some s1 ∧
      p4_counters[VIRT_CTR (ht_state pmc_msr) (get_stagger ht_odd_cpu) 3]? = some cb ∧
      s1.writes = (ht_state pmc_msr).writes ++ [(MSR_P4_CRU_ESCR3, v1), (cb.cccr_address, v)] ∧
      v = (((ht_state pmc_msr).msr cb.cccr_address &&& 0x38030FFF) ||| 0x00030000 |||
        ((0x05 &&& 7) <<< 13) |||
        (if get_stagger ht_odd_cpu = 0 then 1 <<< 26 else 1 <<< 27)) ∧
      (v >>> 13) &&& 7 = 0x05 ∧
      v.testBit 12 = false ∧
      v.testBit 31 = false ∧
      v.testBit (if get_stagger ht_odd_cpu = 0 then 26 else 27) = true :=
  ⟨topology_ok_ht 3 1 0 pmc_msr, by decide, by decide, by decide, by decide,
    configure_cccr_value ht_odd_cpu (scenario_config 3) 3 (ht_state pmc_msr)
      ⟨0x05, 0x06, [⟨CTR_IQ_4, MSR_P4_CRU_ESCR2⟩, ⟨CTR_IQ_5, MSR_P4_CRU_ESCR3⟩]⟩
      ⟨CTR_IQ_5, MSR_P4_CRU_ESCR3⟩
      (topology_ok_ht 3 1 0 pmc_msr) (by decide) (by decide) (by decide) (by decide)⟩

/-! ## Setup sequence -/

theorem ctl_step_refl (s : State) : ctl_step s s :=
  ⟨rfl, rfl, ⟨[], by simp⟩, fun _ _ => rfl, [], by simp, by simp⟩

theorem ctl_step_trans {s s1 s2 : State} (h1 : ctl_step s s1) (h2 : ctl_step s1 s2) :
    ctl_step s s2 := by
  obtain ⟨a1, b1, ⟨l1, c1⟩, d1, w1, e1, f1⟩ := h1
  obtain ⟨a2, b2, ⟨l2, c2⟩, d2, w2, e2, f2⟩ := h2
  refine ⟨a2.trans a1, b2.trans b1, ⟨l1 ++ l2, ?_⟩, fun a ha => (d2 a ha).trans (d1 a ha),
    w1 ++ w2, ?_, ?_⟩
  · rw [c2, c1, List.append_assoc]
  · rw [e2, e1, List.append_assoc]
  · intro x hx
    rcases List.mem_append.mp hx with h | h
    · exact f1 x h
    · exact f2 x h

theorem ctl_step_wrmsrl (s : State) (addr v : Nat) (h : MSR_P4_BPU_CCCR0 ≤ addr) :
    ctl_step s (wrmsrl s addr v) := by
  refine ⟨rfl, rfl, ⟨[], by simp [wrmsrl]⟩, fun a ha => ?_, [(addr, v)], rfl, ?_⟩
  · have hne : a ≠ addr := by omega
    simp [wrmsrl, set_at, hne]
  · intro x hx
    simp only [List.mem_singleton] at hx
    rw [hx]
    exact h

theorem for_count_inv {σ : Type} (P : Nat → σ → Prop) (body : Nat → σ → Option σ) :
    ∀ (k i0 : Nat) (st : σ),
      (∀ i st, i0 ≤ i → i < i0 + k → P i st → ∃ st1, body i st = some st1 ∧ P (i + 1) st1) →
      P i0 st → ∃ st1, for_count body k i0 st = some st1 ∧ P (i0 + k) st1 := by
  intro k
  induction k with
  | zero =>
    intro i0 st _ h
    exact ⟨st, rfl, h⟩
  | succ n ih =>
    intro i0 st hb h
    obtain ⟨st1, e1, p1⟩ := hb i0 st (Nat.le_refl _) (by omega) h
    obtain ⟨st2, e2, p2⟩ := ih (i0 + 1) st1
      (fun i st hi1 hi2 hp => hb i st (by omega) (by omega) hp) p1
    refine ⟨st2, ?_, ?_⟩
    · simp only [for_count, e1, Option.some_bind, e2]
    · have : i0 + (n + 1) = i0 + 1 + n := by omega
      rw [this]
      exact p2

theorem for_addr_inv {σ : Type} (P : σ → Prop) (cond : Nat → Bool) (inc bound a0 : Nat)
    (body : Nat → σ → Option σ) (hinc : 1 ≤ inc)
    (hcond : ∀ a, cond a = true → a < bound)
    (hbody : ∀ a st, a0 ≤ a → cond a = true → P st → ∃ st1, body a st = some st1 ∧ P st1) :
    ∀ (fuel a : Nat) (st : σ), a0 ≤ a → bound - a ≤ fuel → P st →
      ∃ st1, for_addr cond inc body fuel a st = some st1 ∧ P st1 := by
  intro fuel
  induction fuel with
  | zero =>
    intro a st _ hf hp
    have hc : cond a = false := by
      cases h : cond a with
      | false => rfl
      | true =>
        have := hcond a h
        omega
    exact ⟨st, by simp [for_addr, hc], hp⟩
  | succ n ih =>
    intro a st ha hf hp
    cases h : cond a with
    | false => exact ⟨st, by simp [for_addr, h], hp⟩
    | true =>
      obtain ⟨st1, e1, p1⟩ := hbody a st ha h hp
      have hlt := hcond a h
      obtain ⟨st2, e2, p2⟩ := ih (a + inc) st1 (by omega) (by omega) p1
      exact ⟨st2, by simp [for_addr, h, e1, e2], p2⟩

theorem for_addr_le_inv {σ : Type} (P : σ → Prop) (last inc a0 : Nat)
    (body : Nat → σ → Option σ) (hinc : 1 ≤ inc)
    (hbody : ∀ a st, a0 ≤ a → a ≤ last → P st → ∃ st1, body a st = some st1 ∧ P st1)
    (st : σ) (hp : P st) :
    ∃ st1, for_addr_le last inc body a0 st = some st1 ∧ P st1 :=
  for_addr_inv P _ inc (last + 1) a0 body hinc
    (fun a h => by simp only [decide_eq_true_eq] at h; omega)
    (fun a st h1 h2 hp => hbody a st h1 (by simp only [decide_eq_true_eq] at h2; exact h2) hp)
    _ a0 st (Nat.le_refl _) (Nat.le_refl _) hp

theorem for_addr_lt_inv {σ : Type} (P : σ → Prop) (bound inc a0 : Nat)
    (body : Nat → σ → Option σ) (hinc : 1 ≤ inc)
    (hbody : ∀ a st, a0 ≤ a → a < bound → P st → ∃ st1, body a st = some st1 ∧ P st1)
    (st : σ) (hp : P st) :
    ∃ st1, for_addr_lt bound inc body a0 st = some st1 ∧ P st1 :=
  for_addr_inv P _ inc bound a0 body hinc
    (fun a h => by simp only [decide_eq_true_eq] at h; exact h)
    (fun a st h1 h2 hp => hbody a st h1 (by simp only [decide_eq_true_eq] at h2; exact h2) hp)
    _ a0 st (Nat.le_refl _) (Nat.le_refl _) hp

theorem addr_increment_pos (c : Cpu) : 1 ≤ addr_increment c := by
  unfold addr_increment
  split <;> omega

theorem clear_escr_scan (c : Cpu) (s st : State) (last a0 : Nat) (h0 : MSR_P4_BPU_CCCR0 ≤ a0)
    (hp : ctl_step s st) :
    ∃ st1, for_addr_le last (addr_increment c) clear_escr a0 st = some st1 ∧ ctl_step s st1 :=
  for_addr_le_inv (ctl_step s) last _ a0 clear_escr (addr_increment_pos c)
    (fun a st h1 _ hp => ⟨_, rfl, ctl_step_trans hp (ctl_step_wrmsrl st a 0 (by omega))⟩) st hp


theorem p4_unused_cccr_range : ∀ a ∈ p4_unused_cccr, MSR_P4_BPU_CCCR0 ≤ a := by
  decide

theorem topology_ok_of_num_counters {c : Cpu} {s s1 : State} (ht : topology_ok c s)
    (h : s1.num_counters = s.num_counters) : topology_ok c s1 := by
  unfold topology_ok at ht ⊢
  rw [h]
  exact ht

/-- With the capability bit set, `p4_setup_ctrs` first reaches, through writes
to control registers only, a state from which it runs the loop over the
counters. -/
theorem p4_setup_ctrs_eq (c : Cpu) (cfg : Nat → op_counter_config) (s : State)
    (ht : topology_ok c s) (hpmc : MISC_PMC_ENABLED_P (s.msr MSR_IA32_MISC_ENABLE) ≠ 0) :
    ∃ s8, ctl_step s s8 ∧
      p4_setup_ctrs c cfg s = for_count (setup_counter c cfg) s.num_counters 0 s8 := by
  -- clear the cccrs we will use
  obtain ⟨s1, e1, p1⟩ := for_count_inv (fun _ st => ctl_step s st)
    (fun i st => (p4_counters[VIRT_CTR st (get_stagger c) i]?).map
      (fun b => clear_cccr st b.cccr_address)) s.num_counters 0 s
    (by
      intro i st _ hi hp
      have hi2 : i < st.num_counters := by rw [hp.1]; omega
      obtain ⟨cb, hcb, hm⟩ := p4_counters_lookup _
        (virt_ctr_lt c st i (topology_ok_of_num_counters ht hp.1) hi2)
      refine ⟨clear_cccr st cb.cccr_address, by simp only [hcb, Option.map_some'],
        ctl_step_trans hp (ctl_step_wrmsrl st _ _ ?_)⟩
      exact (p4_counters_range cb hm).2.2.1)
    (ctl_step_refl s)
  -- clear cccrs outside our concern
  obtain ⟨s2, e2, p2⟩ := for_addr_lt_inv (ctl_step s) NUM_UNUSED_CCCRS (addr_increment c)
    (get_stagger c) (fun i st => (p4_unused_cccr[i]?).map (clear_cccr st))
    (addr_increment_pos c)
    (by
      intro i st _ hi hp
      have hl : i < p4_unused_cccr.length := hi
      refine ⟨clear_cccr st p4_unused_cccr[i],
        by simp only [List.getElem?_eq_getElem hl, Option.map_some'],
        ctl_step_trans hp (ctl_step_wrmsrl st _ _ ?_)⟩
      exact p4_unused_cccr_range _ (List.getElem_mem hl))
    s1 p1
  -- clear all escrs
  obtain ⟨s3, e3, p3⟩ := for_addr_lt_inv (ctl_step s) MSR_P4_IQ_ESCR0 (addr_increment c)
    (MSR_P4_BSU_ESCR0 + get_stagger c) clear_escr (addr_increment_pos c)
    (by
      intro a st h1 _ hp
      refine ⟨_, rfl, ctl_step_trans hp (ctl_step_wrmsrl st a 0 ?_)⟩
      simp only [MSR_P4_BSU_ESCR0, MSR_P4_BPU_CCCR0] at h1 ⊢
      omega)
    s2 p2
  have p4 : ctl_step s (if c.x86_model < 0x3 then
      wrmsrl (wrmsrl s3 MSR_P4_IQ_ESCR0 0) MSR_P4_IQ_ESCR1 0 else s3) := by
    split
    · exact ctl_step_trans (ctl_step_trans p3 (ctl_step_wrmsrl _ _ _ (by decide)))
        (ctl_step_wrmsrl _ _ _ (by decide))
    · exact p3
  obtain ⟨s5, e5, p5⟩ := clear_escr_scan c s _ MSR_P4_SSU_ESCR0
    (MSR_P4_RAT_ESCR0 + get_stagger c) (by simp only [MSR_P4_RAT_ESCR0, MSR_P4_BPU_CCCR0]; omega) p4
  obtain ⟨s6, e6, p6⟩ := clear_escr_scan c s s5 MSR_P4_TC_ESCR1
    (MSR_P4_MS_ESCR0 + get_stagger c) (by simp only [MSR_P4_MS_ESCR0, MSR_P4_BPU_CCCR0]; omega) p5
  obtain ⟨s7, e7, p7⟩ := clear_escr_scan c s s6 MSR_P4_CRU_ESCR3
    (MSR_P4_IX_ESCR0 + get_stagger c) (by simp only [MSR_P4_IX_ESCR0, MSR_P4_BPU_CCCR0]; omega) p6
  have p8 : ctl_step s (if s7.num_counters = NUM_COUNTERS_NON_HT then
        wrmsrl (wrmsrl s7 MSR_P4_CRU_ESCR4 0) MSR_P4_CRU_ESCR5 0
      else if get_stagger c = 0 then wrmsrl s7 MSR_P4_CRU_ESCR4 0
      else wrmsrl s7 MSR_P4_CRU_ESCR5 0) := by
    split
    · exact ctl_step_trans (ctl_step_trans p7 (ctl_step_wrmsrl _ _ _ (by decide)))
        (ctl_step_wrmsrl _ _ _ (by decide))
    · split
      · exact ctl_step_trans p7 (ctl_step_wrmsrl _ _ _ (by decide))
      · exact ctl_step_trans p7 (ctl_step_wrmsrl _ _ _ (by decide))
  refine ⟨_, p8, ?_⟩
  unfold p4_setup_ctrs
  simp only [rdmsrl, hpmc, if_false, Option.bind_eq_bind, e1, Option.some_bind, e2, e3, e5, e6, e7]
  rw [p8.1]


theorem ctl_step_printk (s : State) (d : Diag) : ctl_step s (printk s d) :=
  ⟨rfl, rfl, ⟨[d], rfl⟩, fun _ _ => rfl, [], by simp [printk], by simp⟩

theorem new_writes_eq (s s1 : State) (w : List (Nat × Nat)) (h : s1.writes = s.writes ++ w) :
    new_writes s s1 = w := by
  simp [new_writes, h]

theorem first_binding_escr_range (ev : p4_event_binding) (bit : Nat) (b : escr_binding)
    (hev : ev ∈ p4_events) (hb : first_binding ev bit = some b) :
    MSR_P4_BSU_ESCR0 ≤ b.escr_address := by
  have hmem := List.mem_of_find?_eq_some hb
  have hp := List.find?_some hb
  simp only [decide_eq_true_eq] at hp
  have hne : b.virt_counter ≠ 0 := by
    intro h0
    rw [h0, Nat.zero_and] at hp
    exact hp rfl
  exact (p4_events_escr_range ev hev b hmem hne).1

/-- The configurator succeeds under `topology_ok`, writes control registers
only, writes the ESCR of the first matching pair if there is one, and logs the
missing binding if there is none. -/
theorem pmc_setup_one_step (c : Cpu) (cfg : Nat → op_counter_config) (ctr : Nat) (s : State)
    (ht : topology_ok c s) (hc : ctr < s.num_counters) :
    ∃ s1, pmc_setup_one_p4_counter c cfg ctr s = some s1 ∧ ctl_step s s1 ∧
      (∀ ev b, 1 ≤ (cfg ctr).event → (cfg ctr).event ≤ 39 →
        p4_events[(cfg ctr).event - 1]? = some ev →
        first_binding ev (1 <<< VIRT_CTR s (get_stagger c) ctr) = some b →
        (b.escr_address, escr_program (get_stagger c) (cfg ctr) ev (s.msr b.escr_address)) ∈
          new_writes s s1) ∧
      (∀ ev, 1 ≤ (cfg ctr).event → (cfg ctr).event ≤ 39 →
        p4_events[(cfg ctr).event - 1]? = some ev →
        first_binding ev (1 <<< VIRT_CTR s (get_stagger c) ctr) = none →
        Diag.no_binding (cfg ctr).event (get_stagger c) ctr ∈ s1.log) := by
  obtain ⟨cb, hcb, hcbm⟩ := p4_counters_lookup _ (virt_ctr_lt c s ctr ht hc)
  rw [pmc_setup_one_eq c cfg ctr s cb hcb]
  by_cases hr : (cfg ctr).event ≤ 0 ∨ (cfg ctr).event > NUM_EVENTS
  · rw [if_pos hr]
    simp only [NUM_EVENTS] at hr
    exact ⟨_, rfl, ctl_step_printk _ _, fun _ _ h1 h2 => by omega, fun _ h1 h2 => by omega⟩
  · rw [if_neg hr]
    simp only [NUM_EVENTS] at hr
    obtain ⟨ev, hev, hevm⟩ := event_lookup (cfg ctr).event (by omega) (by omega)
    rw [hev, Option.some_bind]
    cases hfb : first_binding ev (1 <<< VIRT_CTR s (get_stagger c) ctr) with
    | none =>
      refine ⟨_, rfl, ctl_step_printk _ _, ?_, ?_⟩
      · intro ev2 b _ _ h3 h4
        cases h3
        rw [hfb] at h4
        cases h4
      · intro ev2 _ _ h3 _
        simp [printk]
    | some b0 =>
      have hw := program_binding_writes (get_stagger c) (cfg ctr) ev b0 cb s
      refine ⟨_, rfl, ?_, ?_, ?_⟩
      · exact ctl_step_trans
          (ctl_step_wrmsrl s _ _ (by
            have := first_binding_escr_range ev _ b0 hevm hfb
            simp only [MSR_P4_BSU_ESCR0, MSR_P4_BPU_CCCR0] at this ⊢
            omega))
          (ctl_step_wrmsrl _ _ _ (p4_counters_range cb hcbm).2.2.1)
      · intro ev2 b _ _ h3 h4
        cases h3
        rw [hfb] at h4
        cases h4
        rw [new_writes_eq _ _ _ hw]
        simp
      · intro ev2 _ _ h3 h4
        cases h3
        rw [hfb] at h4
        cases h4


theorem counter_address_inj_aux : ∀ m < 8, ∀ n < 8,
    (p4_counters[m]?).map (fun b => b.counter_address) =
      (p4_counters[n]?).map (fun b => b.counter_address) → m = n := by
  decide

theorem counter_address_inj (m n : Nat) (cbm cbn : p4_counter_binding)
    (hm : p4_counters[m]? = some cbm) (hn : p4_counters[n]? = some cbn)
    (h : cbm.counter_address = cbn.counter_address) : m = n := by
  have hm8 : m < 8 := by
    have := (List.getElem?_eq_some_iff.mp hm).1
    simpa [p4_counters] using this
  have hn8 : n < 8 := by
    have := (List.getElem?_eq_some_iff.mp hn).1
    simpa [p4_counters] using this
  apply counter_address_inj_aux m hm8 n hn8
  rw [hm, hn]
  simp [h]

theorem counter_address_lt (n : Nat) (cb : p4_counter_binding) (h : p4_counters[n]? = some cb) :
    cb.counter_address < MSR_P4_BPU_CCCR0 := by
  have := (p4_counters_range cb (List.getElem?_mem h)).2.1
  simp only [MSR_P4_IQ_PERFCTR5, MSR_P4_BPU_CCCR0] at this ⊢
  omega

theorem VIRT_CTR_congr {s s1 : State} (h : s1.num_counters = s.num_counters) (stag i : Nat) :
    VIRT_CTR s1 stag i = VIRT_CTR s stag i := by
  simp [VIRT_CTR, h]

theorem new_writes_trans (s0 st st1 : State) (w w1 : List (Nat × Nat))
    (h : st.writes = s0.writes ++ w) (h1 : st1.writes = st.writes ++ w1) :
    new_writes s0 st1 = new_writes s0 st ++ w1 := by
  rw [new_writes_eq s0 st w h, new_writes_eq s0 st1 (w ++ w1) (by rw [h1, h, List.append_assoc])]

theorem setup_inv_init (c : Cpu) (cfg : Nat → op_counter_config) (s0 : State) :
    setup_inv c cfg s0 0 s0 where
  nc := rfl
  wr := ⟨[], by simp⟩
  lg := ⟨[], by simp⟩
  cls := by simp [new_writes]
  en := fun j _ h => absurd h (Nat.not_lt_zero j)
  dis := fun j h => absurd h (Nat.not_lt_zero j)
  sel := fun j _ _ h => absurd h (Nat.not_lt_zero j)
  nob := fun j _ h => absurd h (Nat.not_lt_zero j)

theorem setup_counter_step (c : Cpu) (cfg : Nat → op_counter_config) (s0 : State) (i : Nat)
    (st : State) (ht : topology_ok c s0) (hi : i < s0.num_counters)
    (hinv : setup_inv c cfg s0 i st) :
    ∃ st1, setup_counter c cfg i st = some st1 ∧ setup_inv c cfg s0 (i + 1) st1 := by
  obtain ⟨w, hw⟩ := hinv.wr
  obtain ⟨l, hl⟩ := hinv.lg
  unfold setup_counter
  by_cases hen : (cfg i).enabled ≠ 0
  · rw [if_pos hen]
    have htr : topology_ok c { st with reset_value := set_at st.reset_value i (cfg i).count } :=
      topology_ok_of_num_counters ht hinv.nc
    obtain ⟨sm, esm, hstep, hsel, hnob⟩ := pmc_setup_one_step c cfg i
      { st with reset_value := set_at st.reset_value i (cfg i).count } htr
      (by show i < st.num_counters; rw [hinv.nc]; exact hi)
    obtain ⟨hnc, hrv, ⟨l1, hl1⟩, hlow, w1, hw1, hcl1⟩ := hstep
    have hncm : sm.num_counters = s0.num_counters := hnc.trans hinv.nc
    obtain ⟨cb, hcb, hcbm⟩ := p4_counters_lookup _ (virt_ctr_lt c s0 i ht hi)
    have hcb2 : p4_counters[VIRT_CTR sm (get_stagger c) i]? = some cb := by
      rw [VIRT_CTR_congr hncm]
      exact hcb
    have hw1' : sm.writes = st.writes ++ w1 := hw1
    have hnw : new_writes s0 (wrmsrl sm cb.counter_address (neg64 (cfg i).count)) =
        new_writes s0 st ++ (w1 ++ [(cb.counter_address, neg64 (cfg i).count)]) :=
      new_writes_trans s0 st _ w _ hw (by simp [wrmsrl, hw1'])
    refine ⟨wrmsrl sm cb.counter_address (neg64 (cfg i).count), ?_, ?_⟩
    · simp only [esm, Option.some_bind, CTR_WRITE, hcb2, Option.map_some']
    · refine ⟨hncm, ⟨w ++ (w1 ++ [(cb.counter_address, neg64 (cfg i).count)]), ?_⟩,
        ⟨l ++ l1, ?_⟩, ?_, ?_, ?_, ?_, ?_⟩
      · simp [wrmsrl, hw1', hw]
      · show sm.log = _
        rw [hl1]
        show st.log ++ l1 = _
        rw [hl, List.append_assoc]
      · intro x hx
        rw [hnw] at hx
        rcases List.mem_append.mp hx with h | h
        · rcases hinv.cls x h with h | ⟨j, cbj, hj, h2, h3, h4⟩
          · exact Or.inl h
          · exact Or.inr ⟨j, cbj, by omega, h2, h3, h4⟩
        · rcases List.mem_append.mp h with h | h
          · exact Or.inl (hcl1 x h)
          · simp only [List.mem_singleton] at h
            exact Or.inr ⟨i, cb, by omega, hen, hcb, h⟩
      · intro j cbj hj henj hcbj
        by_cases hji : j = i
        · subst hji
          have : cbj = cb := Option.some.inj (hcbj.symm.trans hcb)
          subst this
          refine ⟨?_, ?_, ?_⟩
          · show sm.reset_value j = _
            rw [hrv]
            simp [set_at]
          · simp [wrmsrl, set_at]
          · rw [hnw]
            simp
        · have hjlt : j < i := by omega
          obtain ⟨r1, r2, r3⟩ := hinv.en j cbj hjlt henj hcbj
          refine ⟨?_, ?_, ?_⟩
          · show sm.reset_value j = _
            rw [hrv]
            simp only [set_at, hji, if_false]
            exact r1
          · have hne : cbj.counter_address ≠ cb.counter_address := by
              intro heq
              have := counter_address_inj _ _ _ _ hcbj hcb heq
              simp only [VIRT_CTR] at this
              omega
            show set_at sm.msr cb.counter_address _ cbj.counter_address = _
            simp only [set_at, hne, if_false]
            rw [hlow _ (counter_address_lt _ _ hcbj)]
            exact r2
          · rw [hnw]
            exact List.mem_append_left _ r3
      · intro j hj hdis
        have hji : j ≠ i := by
          intro h
          subst h
          exact hen hdis
        show sm.reset_value j = 0
        rw [hrv]
        simp only [set_at, hji, if_false]
        exact hinv.dis j (by omega) hdis
      · intro j ev b hj henj h1 h2 hev hb
        by_cases hji : j = i
        · subst hji
          have hb2 : first_binding ev (1 <<< VIRT_CTR
              { st with reset_value := set_at st.reset_value j (cfg j).count }
              (get_stagger c) j) = some b := by
            have e : VIRT_CTR { st with reset_value := set_at st.reset_value j (cfg j).count }
                (get_stagger c) j = VIRT_CTR s0 (get_stagger c) j := by
              simp [VIRT_CTR, hinv.nc]
            rw [e]
            exact hb
          have := hsel ev b h1 h2 hev hb2
          rw [new_writes_eq _ sm w1 hw1] at this
          refine ⟨st.msr b.escr_address, ?_⟩
          rw [hnw]
          exact List.mem_append_right _ (List.mem_append_left _ this)
        · obtain ⟨old, hold⟩ := hinv.sel j ev b (by omega) henj h1 h2 hev hb
          refine ⟨old, ?_⟩
          rw [hnw]
          exact List.mem_append_left _ hold
      · intro j ev hj henj h1 h2 hev hb
        show _ ∈ sm.log
        by_cases hji : j = i
        · subst hji
          have hb2 : first_binding ev (1 <<< VIRT_CTR
              { st with reset_value := set_at st.reset_value j (cfg j).count }
              (get_stagger c) j) = none := by
            have e : VIRT_CTR { st with reset_value := set_at st.reset_value j (cfg j).count }
                (get_stagger c) j = VIRT_CTR s0 (get_stagger c) j := by
              simp [VIRT_CTR, hinv.nc]
            rw [e]
            exact hb
          exact hnob ev h1 h2 hev hb2
        · rw [hl1]
          exact List.mem_append_left _ (hinv.nob j ev (by omega) henj h1 h2 hev hb)
  · rw [if_neg hen]
    have hdis : (cfg i).enabled = 0 := by
      by_contra h
      exact hen h
    refine ⟨_, rfl, hinv.nc, ⟨w, hw⟩, ⟨l, hl⟩, ?_, ?_, ?_, ?_, ?_⟩
    · intro x hx
      rcases hinv.cls x hx with h | ⟨j, cbj, hj, h2, h3, h4⟩
      · exact Or.inl h
      · exact Or.inr ⟨j, cbj, by omega, h2, h3, h4⟩
    · intro j cbj hj henj hcbj
      have hji : j ≠ i := by
        intro h
        subst h
        exact henj hdis
      obtain ⟨r1, r2, r3⟩ := hinv.en j cbj (by omega) henj hcbj
      refine ⟨?_, r2, r3⟩
      show set_at st.reset_value i 0 j = _
      simp only [set_at, hji, if_false]
      exact r1
    · intro j hj hd
      show set_at st.reset_value i 0 j = 0
      by_cases hji : j = i
      · simp [set_at, hji]
      · simp only [set_at, hji, if_false]
        exact hinv.dis j (by omega) hd
    · intro j ev b hj henj
      have hji : j ≠ i := by
        intro h
        subst h
        exact henj hdis
      exact hinv.sel j ev b (by omega) henj
    · intro j ev hj henj
      have hji : j ≠ i := by
        intro h
        subst h
        exact henj hdis
      exact hinv.nob j ev (by omega) henj

theorem misc_pmc_enabled_testBit (x i : Nat) :
    (MISC_PMC_ENABLED_P x).testBit i = (x.testBit i && decide (i = 7)) := by
  unfold MISC_PMC_ENABLED_P
  rw [Nat.testBit_and, Nat.one_shiftLeft, Nat.testBit_two_pow]
  simp [eq_comm]

theorem misc_pmc_enabled_eq_zero (x : Nat) :
    MISC_PMC_ENABLED_P x = 0 ↔ x.testBit 7 = false := by
  constructor
  · intro h
    have := misc_pmc_enabled_testBit x 7
    rw [h] at this
    simpa using this.symm
  · intro h
    apply Nat.eq_of_testBit_eq
    intro i
    rw [misc_pmc_enabled_testBit]
    by_cases hi : i = 7
    · subst hi
      simp [h]
    · simp [hi]

theorem neg64_eq (x : Nat) (h : x < 2 ^ 64) : neg64 x = (2 ^ 64 - x) % 2 ^ 64 := by
  unfold neg64
  rw [Nat.mod_eq_of_lt h]

/-- C10: if bit 7 of `MSR_IA32_MISC_ENABLE` is clear when `p4_setup_ctrs` is
called, the call logs that the PMC is not available and does nothing else: no
register is written, the registers and the reset-value table are unchanged,
for every counter configuration and every topology. -/
theorem setup_ctrs_without_pmc (c : Cpu) (cfg : Nat → op_counter_config) (s : State)
    (h : (s.msr MSR_IA32_MISC_ENABLE).testBit 7 = false) :
    ∃ s1, p4_setup_ctrs c cfg s = some s1 ∧
      s1.log = s.log ++ [Diag.pmc_not_available] ∧
      s1.writes = s.writes ∧ s1.msr = s.msr ∧ s1.reset_value = s.reset_value ∧
      s1.num_counters = s.num_counters := by
  have h0 : MISC_PMC_ENABLED_P (rdmsrl s MSR_IA32_MISC_ENABLE) = 0 :=
    (misc_pmc_enabled_eq_zero _).mpr h
  refine ⟨printk s Diag.pmc_not_available, ?_, rfl, rfl, rfl, rfl, rfl⟩
  unfold p4_setup_ctrs
  simp only [h0, if_true]

theorem setup_ctrs_without_pmc_witness :
    ((scenario_config 0 0).count = 0xFFFF0000 ∧
      ((boot_state fun _ => 0).msr MSR_IA32_MISC_ENABLE).testBit 7 = false) ∧
    ∃ s1, p4_setup_ctrs non_ht_cpu (scenario_config 0) (boot_state fun _ => 0) = some s1 ∧
      s1.log = (boot_state fun _ => 0).log ++ [Diag.pmc_not_available] ∧
      s1.writes = (boot_state fun _ => 0).writes ∧ s1.msr = (boot_state fun _ => 0).msr ∧
      s1.reset_value = (boot_state fun _ => 0).reset_value ∧
      s1.num_counters = (boot_state fun _ => 0).num_counters :=
  ⟨⟨by decide, by decide⟩,
    setup_ctrs_without_pmc non_ht_cpu (scenario_config 0) (boot_state fun _ => 0) (by decide)⟩

/-- With the capability bit set and under `topology_ok`, `p4_setup_ctrs`
succeeds: it first writes control registers only, reaching a state `s8`, and
then runs the loop over all counters, whose invariant holds at the end. -/
theorem p4_setup_ctrs_spec (c : Cpu) (cfg : Nat → op_counter_config) (s : State)
    (ht : topology_ok c s) (hpmc : (s.msr MSR_IA32_MISC_ENABLE).testBit 7 = true) :
    ∃ s8 s1, ctl_step s s8 ∧ p4_setup_ctrs c cfg s = some s1 ∧
      setup_inv c cfg s8 s.num_counters s1 := by
  have hp : MISC_PMC_ENABLED_P (s.msr MSR_IA32_MISC_ENABLE) ≠ 0 := by
    intro h0
    rw [(misc_pmc_enabled_eq_zero _).mp h0] at hpmc
    cases hpmc
  obtain ⟨s8, h8, heq⟩ := p4_setup_ctrs_eq c cfg s ht hp
  have ht8 : topology_ok c s8 := topology_ok_of_num_counters ht h8.1
  obtain ⟨s1, e1, hinv⟩ := for_count_inv (setup_inv c cfg s8) (setup_counter c cfg)
    s.num_counters 0 s8
    (fun i st _ hi hinv => setup_counter_step c cfg s8 i st ht8 (by rw [h8.1]; omega) hinv)
    (setup_inv_init c cfg s8)
  rw [Nat.zero_add] at hinv
  exact ⟨s8, s1, h8, heq.trans e1, hinv⟩

/-- C9: after `p4_setup_ctrs` has run with the capability bit set, for every
virtual counter `i < num_counters`: if its configuration is enabled,
`reset_value[i]` is the configured count and the counter register of physical
counter `VIRT_CTR(stagger, i)` holds `(2^64 - count) mod 2^64`; if it is
disabled, `reset_value[i]` is 0 and no write of the call goes to its counter
register. -/
theorem setup_ctrs_reset_and_preload (c : Cpu) (cfg : Nat → op_counter_config) (s : State)
    (ht : topology_ok c s) (hpmc : (s.msr MSR_IA32_MISC_ENABLE).testBit 7 = true)
    (hcnt : ∀ i, (cfg i).count < 2 ^ 64) :
    ∃ s1 w, p4_setup_ctrs c cfg s = some s1 ∧ s1.writes = s.writes ++ w ∧
      ∀ i, i < s.num_counters →
        ∃ cb, p4_counters[VIRT_CTR s (get_stagger c) i]? = some cb ∧
          ((cfg i).enabled ≠ 0 →
            s1.reset_value i = (cfg i).count ∧
            s1.msr cb.counter_address = (2 ^ 64 - (cfg i).count) % 2 ^ 64) ∧
          ((cfg i).enabled = 0 →
            s1.reset_value i = 0 ∧ ∀ x ∈ w, x.1 ≠ cb.counter_address) := by
  obtain ⟨s8, s1, h8, heq, hinv⟩ := p4_setup_ctrs_spec c cfg s ht hpmc
  obtain ⟨hnc8, _, _, _, w8, hw8, hcl8⟩ := h8
  obtain ⟨w, hw⟩ := hinv.wr
  have hnw := new_writes_eq s8 s1 w hw
  refine ⟨s1, w8 ++ w, heq, by rw [hw, hw8, List.append_assoc], ?_⟩
  intro i hi
  obtain ⟨cb, hcb, _⟩ := p4_counters_lookup _ (virt_ctr_lt c s i ht hi)
  have hcb8 : p4_counters[VIRT_CTR s8 (get_stagger c) i]? = some cb := by
    rw [VIRT_CTR_congr hnc8]
    exact hcb
  refine ⟨cb, hcb, ?_, ?_⟩
  · intro hen
    obtain ⟨r1, r2, _⟩ := hinv.en i cb hi hen hcb8
    exact ⟨r1, by rw [r2, neg64_eq _ (hcnt i)]⟩
  · intro hdis
    refine ⟨hinv.dis i hi hdis, ?_⟩
    intro x hx heq
    have hlt := counter_address_lt _ _ hcb
    rcases List.mem_append.mp hx with h | h
    · have := hcl8 x h
      omega
    · rw [← hnw] at h
      rcases hinv.cls x h with h | ⟨j, cbj, hj, henj, hcbj, hxj⟩
      · omega
      · have hji : VIRT_CTR s8 (get_stagger c) j = VIRT_CTR s8 (get_stagger c) i := by
          apply counter_address_inj _ _ _ _ hcbj hcb8
          rw [← heq, hxj]
        simp only [VIRT_CTR] at hji
        have : j = i := by omega
        subst this
        exact henj hdis


theorem setup_ctrs_reset_and_preload_witness :
    (topology_ok ht_odd_cpu (ht_state pmc_msr) ∧
      ((ht_state pmc_msr).msr MSR_IA32_MISC_ENABLE).testBit 7 = true ∧
      ∀ i, (scenario_config 3 i).count < 2 ^ 64) ∧
    ∃ s1 w, p4_setup_ctrs ht_odd_cpu (scenario_config 3) (ht_state pmc_msr) = some s1 ∧
      s1.writes = (ht_state pmc_msr).writes ++ w ∧
      ∀ i, i < (ht_state pmc_msr).num_counters →
        ∃ cb, p4_counters[VIRT_CTR (ht_state pmc_msr) (get_stagger ht_odd_cpu) i]? = some cb ∧
          ((scenario_config 3 i).enabled ≠ 0 →
            s1.reset_value i = (scenario_config 3 i).count ∧
            s1.msr cb.counter_address = (2 ^ 64 - (scenario_config 3 i).count) % 2 ^ 64) ∧
          ((scenario_config 3 i).enabled = 0 →
            s1.reset_value i = 0 ∧ ∀ x ∈ w, x.1 ≠ cb.counter_address) :=
  have hc : ∀ i, (scenario_config 3 i).count < 2 ^ 64 := by
    intro i
    unfold scenario_config
    split <;> decide
  ⟨⟨topology_ok_ht 3 1 0 pmc_msr, by decide, hc⟩,
    setup_ctrs_reset_and_preload ht_odd_cpu (scenario_config 3) (ht_state pmc_msr)
      (topology_ok_ht 3 1 0 pmc_msr) (by decide) hc⟩

theorem escr_program_user_bit (cf : op_counter_config) (ev : p4_event_binding) (old : Nat) :
    (escr_program 0 cf ev old).testBit 2 = cf.user.testBit 0 := by
  unfold escr_program ESCR_CLEAR ESCR_SET_OS_0 ESCR_SET_USR_0 ESCR_SET_EVENT_SELECT
    ESCR_SET_EVENT_MASK
  simp only [if_true, Nat.testBit_and, Nat.testBit_or, Nat.testBit_shiftLeft, testBit_3f,
    testBit_ffff, testBit_1, testBit_escr_reserved]
  simp

/-- C8, as stated, fails: with virtual counter 0 configured as in the scenario
(no hyper-threading, all registers zero except the capability bit, the other
counters disabled), the setup sequence logs that event 1 has no binding for
counter 0, writes only zeros to ESCRs, and never writes `CRU_ESCR2`, the ESCR
of the first candidate pair of event 1, with event select `0x06`. -/
theorem scenario_counter_0_no_binding :
    ∃ s1, p4_setup_ctrs non_ht_cpu (scenario_config 0) (boot_state pmc_msr) = some s1 ∧
      Diag.no_binding 1 0 0 ∈ s1.log ∧
      (∀ x ∈ s1.writes, MSR_P4_BSU_ESCR0 ≤ x.1 → x.2 = 0) ∧
      ¬ ∃ v, (MSR_P4_CRU_ESCR2, v) ∈ s1.writes ∧ (v >>> 25) &&& 0x3f = 0x06 := by
  obtain ⟨s1, hs1⟩ : ∃ s1, p4_setup_ctrs non_ht_cpu (scenario_config 0) (boot_state pmc_msr) =
      some s1 := Option.isSome_iff_exists.mp (by decide!)
  have hlog : (p4_setup_ctrs non_ht_cpu (scenario_config 0) (boot_state pmc_msr)).map
      (fun s => decide (Diag.no_binding 1 0 0 ∈ s.log)) = some true := by decide!
  have hwr : (p4_setup_ctrs non_ht_cpu (scenario_config 0) (boot_state pmc_msr)).map
      (fun s => s.writes.all fun x => decide (MSR_P4_BSU_ESCR0 ≤ x.1 → x.2 = 0)) = some true := by
    decide!
  rw [hs1] at hlog hwr
  simp only [Option.map_some', Option.some.injEq, decide_eq_true_eq, List.all_eq_true] at hlog hwr
  refine ⟨s1, hs1, hlog, fun x hx => hwr x hx, ?_⟩
  rintro ⟨v, hv, hsel⟩
  have hle : MSR_P4_BSU_ESCR0 ≤ MSR_P4_CRU_ESCR2 := by decide
  have h0 : v = 0 := hwr (MSR_P4_CRU_ESCR2, v) hv hle
  rw [h0] at hsel
  exact absurd hsel (by decide)


/-- C8, amended: without hyper-threading (8 counters, stagger 0), the two
candidate pairs of event 1 belong to physical counters `IQ_4` and `IQ_5`.
If virtual counter 3 is configured with event 1, user = 1, kernel = 0, unit
mask 0, count `0xFFFF0000`, the setup sequence selects the first candidate
pair, writes its ESCR (`CRU_ESCR2`) with event select `0x06` in bits 25-30 and
the user bit 2 set, and preloads the counter register of virtual counter 3
with `2^64 - 0xFFFF0000`.  If virtual counter 0 is configured so, no candidate
pair matches: the missing binding is logged, and the counter register of
virtual counter 0 is still preloaded with `2^64 - 0xFFFF0000`. -/
theorem scenario_setup (c : Cpu) (cfg : Nat → op_counter_config) (s : State)
    (hs : c.x86_num_siblings ≠ 2) (h0 : get_stagger c = 0)
    (hn : s.num_counters = NUM_COUNTERS_NON_HT)
    (hpmc : (s.msr MSR_IA32_MISC_ENABLE).testBit 7 = true) :
    ∃ s1 w, p4_setup_ctrs c cfg s = some s1 ∧ s1.writes = s.writes ++ w ∧
      (cfg 3 = ⟨0xFFFF0000, 1, 1, 0, 1, 0⟩ →
        (∃ ev b, p4_events[1 - 1]? = some ev ∧ ev.bindings[0]? = some b ∧
          first_binding ev (1 <<< VIRT_CTR s (get_stagger c) 3) = some b ∧
          b.escr_address = MSR_P4_CRU_ESCR2 ∧
          ∃ v, (b.escr_address, v) ∈ w ∧ (v >>> 25) &&& 0x3f = 0x06 ∧ v.testBit 2 = true) ∧
        (MSR_P4_IQ_PERFCTR4, 2 ^ 64 - 0xFFFF0000) ∈ w ∧
        s1.msr MSR_P4_IQ_PERFCTR4 = 2 ^ 64 - 0xFFFF0000 ∧
        s1.reset_value 3 = 0xFFFF0000) ∧
      (cfg 0 = ⟨0xFFFF0000, 1, 1, 0, 1, 0⟩ →
        Diag.no_binding 1 0 0 ∈ s1.log ∧
        (MSR_P4_BPU_PERFCTR0, 2 ^ 64 - 0xFFFF0000) ∈ w ∧
        s1.msr MSR_P4_BPU_PERFCTR0 = 2 ^ 64 - 0xFFFF0000 ∧
        s1.reset_value 0 = 0xFFFF0000) := by
  have ht : topology_ok c s := Or.inr ⟨hs, hn, h0⟩
  obtain ⟨s8, s1, h8, heq, hinv⟩ := p4_setup_ctrs_spec c cfg s ht hpmc
  obtain ⟨hnc8, _, _, _, w8, hw8, _⟩ := h8
  obtain ⟨w, hw⟩ := hinv.wr
  have hnw := new_writes_eq s8 s1 w hw
  have hv : ∀ i, VIRT_CTR s8 (get_stagger c) i = i := by
    intro i
    simp [VIRT_CTR, h0]
  have hvs : ∀ i, VIRT_CTR s (get_stagger c) i = i := by
    intro i
    simp [VIRT_CTR, h0]
  have hneg : neg64 0xFFFF0000 = 2 ^ 64 - 0xFFFF0000 := by decide
  rw [hn] at hinv
  refine ⟨s1, w8 ++ w, heq, by rw [hw, hw8, List.append_assoc], ?_, ?_⟩
  · intro h3
    have hen : (cfg 3).enabled ≠ 0 := by rw [h3]; decide
    have hcb : p4_counters[VIRT_CTR s8 (get_stagger c) 3]? =
        some ⟨CTR_IQ_4, MSR_P4_IQ_PERFCTR4, MSR_P4_IQ_CCCR4⟩ := by rw [hv]; rfl
    obtain ⟨r1, r2, r3⟩ := hinv.en 3 _ (by decide) hen hcb
    rw [h3] at r1 r2 r3
    rw [hnw] at r3
    obtain ⟨old, hold⟩ := hinv.sel 3
      ⟨0x05, 0x06, [⟨CTR_IQ_4, MSR_P4_CRU_ESCR2⟩, ⟨CTR_IQ_5, MSR_P4_CRU_ESCR3⟩]⟩
      ⟨CTR_IQ_4, MSR_P4_CRU_ESCR2⟩ (by decide) hen (by simp [h3]) (by simp [h3])
      (by rw [h3]; rfl) (by rw [hv]; decide)
    rw [hnw, h0, h3] at hold
    refine ⟨⟨_, _, rfl, rfl, by rw [hvs]; decide, rfl, _, List.mem_append_right _ hold, ?_, ?_⟩,
      List.mem_append_right _ (hneg ▸ r3), by rw [← hneg]; exact r2, r1⟩
    · rw [escr_program_event_select]
      rfl
    · rw [escr_program_user_bit]
      rfl
  · intro hc0
    have hen : (cfg 0).enabled ≠ 0 := by rw [hc0]; decide
    have hcb : p4_counters[VIRT_CTR s8 (get_stagger c) 0]? =
        some ⟨CTR_BPU_0, MSR_P4_BPU_PERFCTR0, MSR_P4_BPU_CCCR0⟩ := by rw [hv]; rfl
    obtain ⟨r1, r2, r3⟩ := hinv.en 0 _ (by decide) hen hcb
    rw [hc0] at r1 r2 r3
    rw [hnw] at r3
    have hlog := hinv.nob 0
      ⟨0x05, 0x06, [⟨CTR_IQ_4, MSR_P4_CRU_ESCR2⟩, ⟨CTR_IQ_5, MSR_P4_CRU_ESCR3⟩]⟩
      (by decide) hen (by simp [hc0]) (by simp [hc0])
      (by rw [hc0]; rfl) (by rw [hv]; decide)
    rw [h0, hc0] at hlog
    exact ⟨hlog, List.mem_append_right _ (hneg ▸ r3), by rw [← hneg]; exact r2, r1⟩

theorem scenario_setup_witness :
    (non_ht_cpu.x86_num_siblings ≠ 2 ∧ get_stagger non_ht_cpu = 0 ∧
      (boot_state pmc_msr).num_counters = NUM_COUNTERS_NON_HT ∧
      ((boot_state pmc_msr).msr MSR_IA32_MISC_ENABLE).testBit 7 = true) ∧
    ∃ s1 w, p4_setup_ctrs non_ht_cpu (fun _ => ⟨0xFFFF0000, 1, 1, 0, 1, 0⟩)
        (boot_state pmc_msr) = some s1 ∧
      s1.writes = (boot_state pmc_msr).writes ++ w ∧
      ((⟨0xFFFF0000, 1, 1, 0, 1, 0⟩ : op_counter_config) = ⟨0xFFFF0000, 1, 1, 0, 1, 0⟩ →
        (∃ ev b, p4_events[1 - 1]? = some ev ∧ ev.bindings[0]? = some b ∧
          first_binding ev
            (1 <<< VIRT_CTR (boot_state pmc_msr) (get_stagger non_ht_cpu) 3) = some b ∧
          b.escr_address = MSR_P4_CRU_ESCR2 ∧
          ∃ v, (b.escr_address, v) ∈ w ∧ (v >>> 25) &&& 0x3f = 0x06 ∧ v.testBit 2 = true) ∧
        (MSR_P4_IQ_PERFCTR4, 2 ^ 64 - 0xFFFF0000) ∈ w ∧
        s1.msr MSR_P4_IQ_PERFCTR4 = 2 ^ 64 - 0xFFFF0000 ∧
        s1.reset_value 3 = 0xFFFF0000) ∧
      ((⟨0xFFFF0000, 1, 1, 0, 1, 0⟩ : op_counter_config) = ⟨0xFFFF0000, 1, 1, 0, 1, 0⟩ →
        Diag.no_binding 1 0 0 ∈ s1.log ∧
        (MSR_P4_BPU_PERFCTR0, 2 ^ 64 - 0xFFFF0000) ∈ w ∧
        s1.msr MSR_P4_BPU_PERFCTR0 = 2 ^ 64 - 0xFFFF0000 ∧
        s1.reset_value 0 = 0xFFFF0000) :=
  ⟨⟨by decide, by decide, rfl, by decide⟩,
    scenario_setup non_ht_cpu (fun _ => ⟨0xFFFF0000, 1, 1, 0, 1, 0⟩) (boot_state pmc_msr)
      (by decide) (by decide) rfl (by decide)⟩

/-! ## Sampling controller -/

theorem cccr_address_inj_aux : ∀ m < 8, ∀ n < 8,
    (p4_counters[m]?).map (fun b => b.cccr_address) =
      (p4_counters[n]?).map (fun b => b.cccr_address) → m = n := by
  decide

theorem lookup_lt {n : Nat} {cb : p4_counter_binding} (h : p4_counters[n]? = some cb) :
    n < 8 := by
  have := (List.getElem?_eq_some_iff.mp h).1
  simpa [p4_counters] using this

theorem cccr_address_inj (m n : Nat) (cbm cbn : p4_counter_binding)
    (hm : p4_counters[m]? = some cbm) (hn : p4_counters[n]? = some cbn)
    (h : cbm.cccr_address = cbn.cccr_address) : m = n := by
  apply cccr_address_inj_aux m (lookup_lt hm) n (lookup_lt hn)
  rw [hm, hn]
  simp [h]

theorem virt_ctr_inj (s : State) (stag i j : Nat)
    (h : VIRT_CTR s stag i = VIRT_CTR s stag j) : i = j := by
  simp only [VIRT_CTR] at h
  omega

theorem cccr_inv_init (c : Cpu) (sel : Nat → Prop) (f : Nat → Nat) (s : State) :
    cccr_inv c sel f s 0 s where
  nc := rfl
  rv := rfl
  done := fun j _ h => absurd h (Nat.not_lt_zero j)
  rest := fun _ _ => rfl

theorem cccr_inv_skip (c : Cpu) (sel : Nat → Prop) (f : Nat → Nat) (s st : State) (k : Nat)
    (hinv : cccr_inv c sel f s k st) (hk : ¬ sel k) : cccr_inv c sel f s (k + 1) st where
  nc := hinv.nc
  rv := hinv.rv
  done := by
    intro j cb hj hs hcb
    have hjk : j ≠ k := by
      intro h
      subst h
      exact hk hs
    exact hinv.done j cb (by omega) hs hcb
  rest := by
    intro a h
    exact hinv.rest a (fun j cb hj hs hcb => h j cb (by omega) hs hcb)

theorem cccr_inv_step (c : Cpu) (sel : Nat → Prop) (f : Nat → Nat) (s st : State) (k : Nat)
    (ht : topology_ok c s) (hk : k < s.num_counters) (hinv : cccr_inv c sel f s k st)
    (hs : sel k) :
    ∃ st1, modify_cccr f (VIRT_CTR st (get_stagger c) k) st = some st1 ∧
      cccr_inv c sel f s (k + 1) st1 := by
  obtain ⟨cb, hcb, _⟩ := p4_counters_lookup _ (virt_ctr_lt c s k ht hk)
  have hcb2 : p4_counters[VIRT_CTR st (get_stagger c) k]? = some cb := by
    rw [VIRT_CTR_congr hinv.nc]
    exact hcb
  have hold : st.msr cb.cccr_address = s.msr cb.cccr_address := by
    apply hinv.rest
    intro j cbj hj _ hcbj heq
    have := virt_ctr_inj s _ _ _ (cccr_address_inj _ _ _ _ hcbj hcb heq)
    omega
  refine ⟨wrmsrl st cb.cccr_address (f (st.msr cb.cccr_address)), ?_, ?_⟩
  · simp only [modify_cccr, hcb2, Option.map_some', rdmsrl]
  · refine ⟨hinv.nc, hinv.rv, ?_, ?_⟩
    · intro j cbj hj hsj hcbj
      by_cases hjk : j = k
      · subst hjk
        have : cbj = cb := Option.some.inj (hcbj.symm.trans hcb)
        subst this
        simp [wrmsrl, set_at, hold]
      · have hne : cbj.cccr_address ≠ cb.cccr_address := by
          intro heq
          exact hjk (virt_ctr_inj s _ _ _ (cccr_address_inj _ _ _ _ hcbj hcb heq))
        show set_at st.msr cb.cccr_address _ cbj.cccr_address = _
        simp only [set_at, hne, if_false]
        exact hinv.done j cbj (by omega) hsj hcbj
    · intro a h
      have hne : a ≠ cb.cccr_address := fun heq => h k cb (by omega) hs hcb heq.symm
      show set_at st.msr cb.cccr_address _ a = _
      simp only [set_at, hne, if_false]
      exact hinv.rest a (fun j cbj hj hsj hcbj => h j cbj (by omega) hsj hcbj)

/-- The result of `p4_start`. -/
theorem p4_start_spec (c : Cpu) (s : State) (ht : topology_ok c s) :
    ∃ s1, p4_start c s = some s1 ∧
      cccr_inv c (fun j => s.reset_value j ≠ 0) CCCR_SET_ENABLE s s.num_counters s1 := by
  obtain ⟨s1, e1, h1⟩ := for_count_inv
    (cccr_inv c (fun j => s.reset_value j ≠ 0) CCCR_SET_ENABLE s)
    (fun i s => if s.reset_value i = 0 then some s
      else modify_cccr CCCR_SET_ENABLE (VIRT_CTR s (get_stagger c) i) s)
    s.num_counters 0 s
    (by
      intro i st _ hi hinv
      by_cases h0 : st.reset_value i = 0
      · refine ⟨st, by simp only [h0, if_true], cccr_inv_skip c _ _ s st i hinv ?_⟩
        rw [← hinv.rv]
        exact fun h => h h0
      · obtain ⟨st1, e, h⟩ := cccr_inv_step c _ CCCR_SET_ENABLE s st i ht (by omega) hinv
          (by rw [← hinv.rv]; exact h0)
        exact ⟨st1, by simp only [h0, if_false, e], h⟩)
    (cccr_inv_init c _ _ s)
  rw [Nat.zero_add] at h1
  exact ⟨s1, e1, h1⟩

/-- The result of `p4_stop`. -/
theorem p4_stop_spec (c : Cpu) (s : State) (ht : topology_ok c s) :
    ∃ s1, p4_stop c s = some s1 ∧
      cccr_inv c (fun _ => True) CCCR_SET_DISABLE s s.num_counters s1 := by
  obtain ⟨s1, e1, h1⟩ := for_count_inv
    (cccr_inv c (fun _ => True) CCCR_SET_DISABLE s)
    (fun i s => modify_cccr CCCR_SET_DISABLE (VIRT_CTR s (get_stagger c) i) s)
    s.num_counters 0 s
    (by
      intro i st _ hi hinv
      exact cccr_inv_step c _ CCCR_SET_DISABLE s st i ht (by omega) hinv trivial)
    (cccr_inv_init c _ _ s)
  rw [Nat.zero_add] at h1
  exact ⟨s1, e1, h1⟩

/-! ## Overflow monitor -/

theorem check_inv_init (c : Cpu) (eip mode : Nat) (s : State) :
    check_inv c eip mode s 0 (s, 0) where
  nc := rfl
  rv := rfl
  lg := rfl
  lv := rfl
  wr := by simp
  sm := by simp
  rd := by simp
  ovf := by simp
  todo := fun _ _ _ _ => ⟨rfl, rfl⟩

theorem counter_ne_cccr (m n : Nat) (cbm cbn : p4_counter_binding)
    (hm : p4_counters[m]? = some cbm) (hn : p4_counters[n]? = some cbn) :
    cbm.counter_address ≠ cbn.cccr_address := by
  have h1 := counter_address_lt m cbm hm
  have h2 := (p4_counters_range cbn (List.getElem?_mem hn)).2.2.1
  omega

theorem range_succ_flatMap {β : Type} (g : Nat → List β) (k : Nat) :
    (List.range (k + 1)).flatMap g = (List.range k).flatMap g ++ g k := by
  rw [List.range_succ, List.flatMap_append]
  simp

theorem range_succ_any (g : Nat → Bool) (k : Nat) :
    (List.range (k + 1)).any g = ((List.range k).any g || g k) := by
  rw [List.range_succ, List.any_append]
  simp

theorem check_counter_step (c : Cpu) (eip mode : Nat) (s : State) (k : Nat) (p : State × Nat)
    (ht : topology_ok c s) (hk : k < s.num_counters) (hinv : check_inv c eip mode s k p) :
    ∃ p1, check_counter c eip mode k p = some p1 ∧ check_inv c eip mode s (k + 1) p1 := by
  obtain ⟨cb, hcb, _⟩ := p4_counters_lookup _ (virt_ctr_lt c s k ht hk)
  have hv : VIRT_CTR p.1 (get_stagger c) k = VIRT_CTR s (get_stagger c) k :=
    VIRT_CTR_congr hinv.nc _ _
  obtain ⟨hcc, hct⟩ := hinv.todo k cb (Nat.le_refl _) hcb
  have hrv : p.1.reset_value k = s.reset_value k := by rw [hinv.rv]
  unfold check_counter
  by_cases h0 : s.reset_value k = 0
  · -- continue
    have hdue : due c s k = false := by simp [due, hcb, h0]
    refine ⟨p, by simp only [hrv, h0, if_true], hinv.nc, hinv.rv, hinv.lg, hinv.lv, ?_, ?_, ?_, ?_,
      fun j cbj hj hcbj => hinv.todo j cbj (by omega) hcbj⟩
    · rw [range_succ_flatMap, hinv.wr]
      simp [service_writes, hcb, hdue]
    · rw [range_succ_flatMap, hinv.sm]
      simp [service_samples, hdue]
    · rw [range_succ_flatMap, hinv.rd]
      simp [service_reads, hcb, h0]
    · rw [range_succ_any, hdue, Bool.or_false]
      exact hinv.ovf
  · simp only [hrv, h0, if_false, hv, hcb, Option.some_bind, rdmsrl, hcc, hct]
    by_cases hov : CCCR_OVF_P (s.msr cb.cccr_address) ≠ 0 ∨
        CTR_OVERFLOW_P (s.msr cb.counter_address) ≠ 0
    · have hdue : due c s k = true := by simp [due, hcb, h0, hov]
      rw [if_pos hov]
      simp only [CTR_WRITE, hcb, Option.map_some', Option.some_bind]
      refine ⟨_, rfl, hinv.nc, hinv.rv, hinv.lg, hinv.lv, ?_, ?_, ?_, ?_, ?_⟩
      · rw [range_succ_flatMap]
        simp only [service_writes, hcb, hdue, if_true]
        simp [wrmsrl, xenoprof_log_event, hinv.wr, hrv]
      · rw [range_succ_flatMap]
        simp only [service_samples, hdue, if_true]
        simp [wrmsrl, xenoprof_log_event, hinv.sm]
      · rw [range_succ_flatMap]
        simp only [service_reads, hcb, h0, if_false]
        simp [wrmsrl, xenoprof_log_event, hinv.rd]
      · rw [range_succ_any, hdue, Bool.or_true]
        rfl
      · intro j cbj hj hcbj
        have hjk : VIRT_CTR s (get_stagger c) j ≠ VIRT_CTR s (get_stagger c) k := by
          intro h
          have := virt_ctr_inj s _ _ _ h
          omega
        have h1 : cbj.cccr_address ≠ cb.cccr_address :=
          fun h => hjk (cccr_address_inj _ _ _ _ hcbj hcb h)
        have h2 : cbj.counter_address ≠ cb.counter_address :=
          fun h => hjk (counter_address_inj _ _ _ _ hcbj hcb h)
        have h3 : cbj.cccr_address ≠ cb.counter_address :=
          fun h => counter_ne_cccr _ _ _ _ hcb hcbj h.symm
        have h4 : cbj.counter_address ≠ cb.cccr_address := counter_ne_cccr _ _ _ _ hcbj hcb
        obtain ⟨r1, r2⟩ := hinv.todo j cbj (by omega) hcbj
        constructor
        · simp only [wrmsrl, xenoprof_log_event, set_at, h1, h3, if_false]
          exact r1
        · simp only [wrmsrl, xenoprof_log_event, set_at, h2, h4, if_false]
          exact r2
    · have hdue : due c s k = false := by simp [due, hcb, h0, hov]
      rw [if_neg hov]
      refine ⟨_, rfl, hinv.nc, hinv.rv, hinv.lg, hinv.lv, ?_, ?_, ?_, ?_,
        fun j cbj hj hcbj => hinv.todo j cbj (by omega) hcbj⟩
      · rw [range_succ_flatMap, hinv.wr]
        simp [service_writes, hcb, hdue]
      · rw [range_succ_flatMap, hinv.sm]
        simp [service_samples, hdue]
      · show p.1.reads ++ _ = _
        rw [range_succ_flatMap, hinv.rd]
        simp [service_reads, hcb, h0]
      · rw [range_succ_any, hdue, Bool.or_false]
        exact hinv.ovf

theorem testBit_and_two_pow (x n i : Nat) :
    (x &&& 2 ^ n).testBit i = (x.testBit i && decide (i = n)) := by
  rw [Nat.testBit_and, Nat.testBit_two_pow]
  simp [eq_comm]

theorem and_two_pow_eq_zero (x n : Nat) : x &&& 2 ^ n = 0 ↔ x.testBit n = false := by
  constructor
  · intro h
    have := testBit_and_two_pow x n n
    rw [h] at this
    simpa using this.symm
  · intro h
    apply Nat.eq_of_testBit_eq
    intro i
    rw [testBit_and_two_pow]
    by_cases hi : i = n
    · subst hi
      simp [h]
    · simp [hi]

theorem cccr_ovf_p_ne_zero (x : Nat) : CCCR_OVF_P x ≠ 0 ↔ x.testBit 31 = true := by
  unfold CCCR_OVF_P
  rw [Nat.one_shiftLeft, Ne, and_two_pow_eq_zero]
  simp

theorem ctr_overflow_p_ne_zero (x : Nat) : CTR_OVERFLOW_P x ≠ 0 ↔ x.testBit 31 = false := by
  unfold CTR_OVERFLOW_P
  have hz := and_two_pow_eq_zero x 31
  rw [show (2 : Nat) ^ 31 = 0x80000000 from rfl] at hz
  by_cases h : x &&& 0x80000000 = 0
  · rw [if_pos h]
    exact ⟨fun _ => hz.mp h, fun _ => by decide⟩
  · rw [if_neg h]
    exact ⟨fun h2 => absurd rfl h2, fun h2 => absurd (hz.mpr h2) h⟩

theorem testBit_set_enable (x i : Nat) :
    (CCCR_SET_ENABLE x).testBit i = (x.testBit i || decide (i = 12)) := by
  unfold CCCR_SET_ENABLE
  rw [Nat.testBit_or, Nat.one_shiftLeft, Nat.testBit_two_pow]
  simp [eq_comm]

theorem testBit_set_disable (x i : Nat) :
    (CCCR_SET_DISABLE x).testBit i = (x.testBit i && decide (i < 64) && decide (i ≠ 12)) := by
  unfold CCCR_SET_DISABLE
  rw [show (2 : Nat) ^ 64 - 1 - (1 <<< 12) = (2 ^ 64 - 1) ^^^ 2 ^ 12 from by decide,
    Nat.testBit_and, Nat.testBit_xor, Nat.testBit_two_pow_sub_one, Nat.testBit_two_pow]
  by_cases h1 : i < 64 <;> by_cases h2 : i = 12 <;> simp [h1, h2, eq_comm]

theorem testBit_clear_ovf (x i : Nat) :
    (CCCR_CLEAR_OVF x).testBit i = (x.testBit i && decide (i < 64) && decide (i ≠ 31)) := by
  unfold CCCR_CLEAR_OVF
  rw [show (2 : Nat) ^ 64 - 1 - (1 <<< 31) = (2 ^ 64 - 1) ^^^ 2 ^ 31 from by decide,
    Nat.testBit_and, Nat.testBit_xor, Nat.testBit_two_pow_sub_one, Nat.testBit_two_pow]
  by_cases h1 : i < 64 <;> by_cases h2 : i = 31 <;> simp [h1, h2, eq_comm]

theorem set_disable_idem (x : Nat) : CCCR_SET_DISABLE (CCCR_SET_DISABLE x) = CCCR_SET_DISABLE x := by
  apply Nat.eq_of_testBit_eq
  intro i
  rw [testBit_set_disable, testBit_set_disable]
  cases x.testBit i <;> cases decide (i < 64) <;> cases decide (i ≠ 12) <;> rfl

/-- The result of `p4_check_ctrs`: the histories grow by the contributions of
the counters in order, `ovf` tells whether some counter was due, and the LVTPC
entry is unmasked. -/
theorem p4_check_ctrs_spec (c : Cpu) (eip mode : Nat) (s : State) (ht : topology_ok c s) :
    ∃ s1 ovf, p4_check_ctrs c eip mode s = some (s1, ovf) ∧
      s1.num_counters = s.num_counters ∧ s1.reset_value = s.reset_value ∧
      s1.writes = s.writes ++ (List.range s.num_counters).flatMap (service_writes c s) ∧
      s1.samples = s.samples ++
        (List.range s.num_counters).flatMap (service_samples c eip mode s) ∧
      s1.reads = s.reads ++ (List.range s.num_counters).flatMap (service_reads c s) ∧
      ovf = (if (List.range s.num_counters).any (due c s) then 1 else 0) ∧
      s1.lvtpc = s.lvtpc &&& (2 ^ 32 - 1 - APIC_LVT_MASKED) := by
  obtain ⟨p, e, h⟩ := for_count_inv (check_inv c eip mode s) (check_counter c eip mode)
    s.num_counters 0 (s, 0)
    (fun i p _ hi hinv => check_counter_step c eip mode s i p ht (by omega) hinv)
    (check_inv_init c eip mode s)
  rw [Nat.zero_add] at h
  refine ⟨{ p.1 with lvtpc := p.1.lvtpc &&& (2 ^ 32 - 1 - APIC_LVT_MASKED) }, p.2,
    by simp only [p4_check_ctrs, e, Option.map_some'], h.nc, h.rv, h.wr, h.sm, h.rd, h.ovf, ?_⟩
  show p.1.lvtpc &&& _ = _
  rw [h.lv]

/-- Filtering a concatenation over `0 .. n-1` to which only index `i` contributes. -/
theorem filter_flatMap_range {β : Type} (g : Nat → List β) (q : β → Bool) (i : Nat) :
    ∀ n, i < n → (∀ j, j < n → j ≠ i → (g j).filter q = []) →
      ((List.range n).flatMap g).filter q = (g i).filter q := by
  intro n
  induction n with
  | zero => intro h; omega
  | succ m ih =>
    intro hi hq
    rw [range_succ_flatMap, List.filter_append]
    by_cases him : i = m
    · subst him
      have : ((List.range i).flatMap g).filter q = [] := by
        rw [List.filter_eq_nil_iff]
        intro x hx
        obtain ⟨j, hj, hxj⟩ := List.mem_flatMap.mp hx
        have hjlt := List.mem_range.mp hj
        have := hq j (by omega) (by omega)
        rw [List.filter_eq_nil_iff] at this
        exact this x hxj
      rw [this, List.nil_append]
    · rw [ih (by omega) (fun j hj hji => hq j (by omega) hji), hq m (by omega) (Ne.symm him),
        List.append_nil]

theorem due_iff (c : Cpu) (s : State) (i : Nat) (cb : p4_counter_binding)
    (hcb : p4_counters[VIRT_CTR s (get_stagger c) i]? = some cb) :
    due c s i = true ↔ s.reset_value i ≠ 0 ∧
      ((s.msr cb.cccr_address).testBit 31 = true ∨
        (s.msr cb.counter_address).testBit 31 = false) := by
  simp only [due, hcb, decide_eq_true_eq, cccr_ovf_p_ne_zero, ctr_overflow_p_ne_zero]

theorem service_writes_addr (c : Cpu) (s : State) (j : Nat) (x : Nat × Nat)
    (hx : x ∈ service_writes c s j) :
    ∃ cbj, p4_counters[VIRT_CTR s (get_stagger c) j]? = some cbj ∧
      (x.1 = cbj.counter_address ∨ x.1 = cbj.cccr_address) := by
  unfold service_writes at hx
  cases hcb : p4_counters[VIRT_CTR s (get_stagger c) j]? with
  | none => simp [hcb] at hx
  | some cbj =>
    simp only [hcb] at hx
    split at hx
    · simp only [List.mem_cons, List.mem_singleton, List.not_mem_nil, or_false] at hx
      rcases hx with h | h | h <;> rw [h] <;> simp
    · simp at hx

theorem service_reads_addr (c : Cpu) (s : State) (j : Nat) (a : Nat)
    (ha : a ∈ service_reads c s j) :
    ∃ cbj, p4_counters[VIRT_CTR s (get_stagger c) j]? = some cbj ∧
      (a = cbj.counter_address ∨ a = cbj.cccr_address) := by
  unfold service_reads at ha
  cases hcb : p4_counters[VIRT_CTR s (get_stagger c) j]? with
  | none => simp [hcb] at ha
  | some cbj =>
    simp only [hcb] at ha
    split at ha
    · simp at ha
    · simp only [List.mem_cons, List.mem_singleton, List.not_mem_nil, or_false] at ha
      rcases ha with h | h <;> rw [h] <;> simp

/-- Two different virtual counters share no register. -/
theorem registers_disjoint (c : Cpu) (s : State) (i j : Nat) (cb cbj : p4_counter_binding)
    (hcb : p4_counters[VIRT_CTR s (get_stagger c) i]? = some cb)
    (hcbj : p4_counters[VIRT_CTR s (get_stagger c) j]? = some cbj) (hji : j ≠ i) (a : Nat)
    (ha : a = cbj.counter_address ∨ a = cbj.cccr_address) :
    ¬ (a = cb.counter_address ∨ a = cb.cccr_address) := by
  have hv : VIRT_CTR s (get_stagger c) j ≠ VIRT_CTR s (get_stagger c) i :=
    fun h => hji (virt_ctr_inj s _ _ _ h)
  have h1 : cbj.cccr_address ≠ cb.cccr_address :=
    fun h => hv (cccr_address_inj _ _ _ _ hcbj hcb h)
  have h2 : cbj.counter_address ≠ cb.counter_address :=
    fun h => hv (counter_address_inj _ _ _ _ hcbj hcb h)
  have h3 : cbj.cccr_address ≠ cb.counter_address :=
    fun h => counter_ne_cccr _ _ _ _ hcb hcbj h.symm
  have h4 : cbj.counter_address ≠ cb.cccr_address := counter_ne_cccr _ _ _ _ hcbj hcb
  rcases ha with h | h <;> rw [h] <;> simp [h1, h2, h3, h4]

/-- What `p4_check_ctrs` does, counter by counter: the writes and reads of the
call that touch the registers of counter `i`, and the samples that carry the
index `i`, are exactly the contribution of counter `i`. -/
theorem p4_check_ctrs_per_counter (c : Cpu) (eip mode : Nat) (s : State)
    (ht : topology_ok c s) :
    ∃ s1 ovf, p4_check_ctrs c eip mode s = some (s1, ovf) ∧
      ovf = (if (List.range s.num_counters).any (due c s) then 1 else 0) ∧
      ∀ i cb, i < s.num_counters → p4_counters[VIRT_CTR s (get_stagger c) i]? = some cb →
        (new_writes s s1).filter
            (fun x => decide (x.1 = cb.counter_address ∨ x.1 = cb.cccr_address)) =
          service_writes c s i ∧
        (s1.samples.drop s.samples.length).filter (fun x => decide (x.2.2 = i)) =
          service_samples c eip mode s i ∧
        (s1.reads.drop s.reads.length).filter
            (fun a => decide (a = cb.counter_address ∨ a = cb.cccr_address)) =
          service_reads c s i := by
  obtain ⟨s1, ovf, e, _, _, hw, hs, hr, hovf, _⟩ := p4_check_ctrs_spec c eip mode s ht
  refine ⟨s1, ovf, e, hovf, ?_⟩
  intro i cb hi hcb
  rw [new_writes_eq s s1 _ hw, hs, hr, List.drop_left, List.drop_left]
  refine ⟨?_, ?_, ?_⟩
  · rw [filter_flatMap_range _ _ i _ hi]
    · rw [List.filter_eq_self]
      intro x hx
      obtain ⟨cbx, hcbx, hx2⟩ := service_writes_addr c s i x hx
      cases Option.some.inj (hcbx.symm.trans hcb)
      simpa using hx2
    · intro j _ hji
      rw [List.filter_eq_nil_iff]
      intro x hx
      obtain ⟨cbj, hcbj, hx2⟩ := service_writes_addr c s j x hx
      simpa using registers_disjoint c s i j cb cbj hcb hcbj hji x.1 hx2
  · rw [filter_flatMap_range _ _ i _ hi]
    · rw [List.filter_eq_self]
      intro x hx
      unfold service_samples at hx
      split at hx
      · simp only [List.mem_singleton] at hx
        rw [hx]
        simp
      · simp at hx
    · intro j _ hji
      rw [List.filter_eq_nil_iff]
      intro x hx
      unfold service_samples at hx
      split at hx
      · simp only [List.mem_singleton] at hx
        rw [hx]
        simpa using hji
      · simp at hx
  · rw [filter_flatMap_range _ _ i _ hi]
    · rw [List.filter_eq_self]
      intro a ha
      obtain ⟨cbx, hcbx, ha2⟩ := service_reads_addr c s i a ha
      cases Option.some.inj (hcbx.symm.trans hcb)
      simpa using ha2
    · intro j _ hji
      rw [List.filter_eq_nil_iff]
      intro a ha
      obtain ⟨cbj, hcbj, ha2⟩ := service_reads_addr c s j a ha
      simpa using registers_disjoint c s i j cb cbj hcb hcbj hji a ha2

/-! ## Claims about the overflow monitor and the sampling controller -/

/-- C11, as stated, fails: without hyper-threading, with virtual counter 0
enabled for event 1 (which has no candidate pair for counter 0) and count
`0xFFFF0000`, the setup sequence logs the missing binding and yet leaves
`reset_value[0]` at the configured count, not at zero, and a following
`p4_start` sets bit 12 of `BPU_CCCR0`, the control register of counter 0. -/
theorem setup_error_leaves_reset_value :
    ∃ s1 s2, p4_setup_ctrs non_ht_cpu (scenario_config 0) (boot_state pmc_msr) = some s1 ∧
      p4_start non_ht_cpu s1 = some s2 ∧
      ((scenario_config 0 0).enabled ≠ 0 ∧ (scenario_config 0 0).count ≠ 0) ∧
      (∃ ev, p4_events[(scenario_config 0 0).event - 1]? = some ev ∧
        first_binding ev (1 <<< VIRT_CTR (boot_state pmc_msr) (get_stagger non_ht_cpu) 0) = none) ∧
      Diag.no_binding 1 0 0 ∈ s1.log ∧
      s1.reset_value 0 = 0xFFFF0000 ∧
      (s2.msr MSR_P4_BPU_CCCR0).testBit 12 = true := by
  obtain ⟨s1, hs1⟩ : ∃ s1, p4_setup_ctrs non_ht_cpu (scenario_config 0) (boot_state pmc_msr) =
      some s1 := Option.isSome_iff_exists.mp (by decide!)
  obtain ⟨s2, hs2⟩ : ∃ s2, (p4_setup_ctrs non_ht_cpu (scenario_config 0)
      (boot_state pmc_msr)).bind (p4_start non_ht_cpu) = some s2 :=
    Option.isSome_iff_exists.mp (by decide!)
  have hlog : (p4_setup_ctrs non_ht_cpu (scenario_config 0) (boot_state pmc_msr)).map
      (fun s => decide (Diag.no_binding 1 0 0 ∈ s.log)) = some true := by decide!
  have hrv : (p4_setup_ctrs non_ht_cpu (scenario_config 0) (boot_state pmc_msr)).map
      (fun s => s.reset_value 0) = some 0xFFFF0000 := by decide!
  have hbit : ((p4_setup_ctrs non_ht_cpu (scenario_config 0) (boot_state pmc_msr)).bind
      (p4_start non_ht_cpu)).map (fun s => (s.msr MSR_P4_BPU_CCCR0).testBit 12) =
      some true := by decide!
  rw [hs2] at hbit
  rw [hs1] at hs2 hlog hrv
  simp only [Option.map_some', Option.some.injEq, decide_eq_true_eq] at hlog hrv hbit
  exact ⟨s1, s2, hs1, hs2, by decide, ⟨_, rfl, by decide⟩, hlog, hrv, hbit⟩

/-- C11, amended: a counter affected by a configuration error is not left
disabled. For every enabled counter configuration with nonzero count (in
particular one whose event code has no candidate pair matching the counter, in
which case the diagnostic is logged), after the setup sequence the stored
reset value of that counter is the configured count, hence nonzero; a
following `p4_start` sets bit 12 of its control register, and a following
`p4_check_ctrs` reads its control register and its counter register. -/
theorem setup_error_counter_stays_enabled (c : Cpu) (cfg : Nat → op_counter_config)
    (s : State) (eip mode i : Nat) (ht : topology_ok c s)
    (hpmc : (s.msr MSR_IA32_MISC_ENABLE).testBit 7 = true) (hi : i < s.num_counters)
    (hen : (cfg i).enabled ≠ 0) (hcnt : (cfg i).count ≠ 0) :
    ∃ cb s1 s2 s3 ovf, p4_counters[VIRT_CTR s (get_stagger c) i]? = some cb ∧
      p4_setup_ctrs c cfg s = some s1 ∧
      (∀ ev, 1 ≤ (cfg i).event → (cfg i).event ≤ 39 →
        p4_events[(cfg i).event - 1]? = some ev →
        first_binding ev (1 <<< VIRT_CTR s (get_stagger c) i) = none →
        Diag.no_binding (cfg i).event (get_stagger c) i ∈ s1.log) ∧
      s1.reset_value i = (cfg i).count ∧ s1.reset_value i ≠ 0 ∧
      p4_start c s1 = some s2 ∧
      (s2.msr cb.cccr_address).testBit 12 = true ∧
      p4_check_ctrs c eip mode s2 = some (s3, ovf) ∧
      (s3.reads.drop s2.reads.length).filter
        (fun a => decide (a = cb.counter_address ∨ a = cb.cccr_address)) =
        [cb.cccr_address, cb.counter_address] := by
  obtain ⟨s8, s1, h8, heq, hinv⟩ := p4_setup_ctrs_spec c cfg s ht hpmc
  have hnc8 : s8.num_counters = s.num_counters := h8.1
  have hnc1 : s1.num_counters = s.num_counters := hinv.nc.trans hnc8
  obtain ⟨cb, hcb, _⟩ := p4_counters_lookup _ (virt_ctr_lt c s i ht hi)
  have hcb8 : p4_counters[VIRT_CTR s8 (get_stagger c) i]? = some cb := by
    rw [VIRT_CTR_congr hnc8]
    exact hcb
  have hcb1 : p4_counters[VIRT_CTR s1 (get_stagger c) i]? = some cb := by
    rw [VIRT_CTR_congr hnc1]
    exact hcb
  obtain ⟨hrv, _, _⟩ := hinv.en i cb hi hen hcb8
  have hrv1 : s1.reset_value i ≠ 0 := by
    rw [hrv]
    exact hcnt
  have ht1 : topology_ok c s1 := topology_ok_of_num_counters ht hnc1
  obtain ⟨s2, e2, h2⟩ := p4_start_spec c s1 ht1
  have hi1 : i < s1.num_counters := by
    rw [hnc1]
    exact hi
  have hbit : (s2.msr cb.cccr_address).testBit 12 = true := by
    rw [h2.done i cb hi1 hrv1 hcb1, testBit_set_enable]
    simp
  have ht2 : topology_ok c s2 := topology_ok_of_num_counters ht1 h2.nc
  obtain ⟨s3, ovf, e3, _, h3⟩ := p4_check_ctrs_per_counter c eip mode s2 ht2
  have hcb2 : p4_counters[VIRT_CTR s2 (get_stagger c) i]? = some cb := by
    rw [VIRT_CTR_congr h2.nc]
    exact hcb1
  have hi2 : i < s2.num_counters := by
    rw [h2.nc]
    exact hi1
  have hrv2 : s2.reset_value i ≠ 0 := by
    rw [h2.rv]
    exact hrv1
  obtain ⟨_, _, hr⟩ := h3 i cb hi2 hcb2
  refine ⟨cb, s1, s2, s3, ovf, hcb, heq, ?_, hrv, hrv1, e2, hbit, e3, ?_⟩
  · intro ev h1 h39 hev hfb
    rw [← VIRT_CTR_congr hnc8] at hfb
    exact hinv.nob i ev hi hen h1 h39 hev hfb
  · rw [hr]
    simp [service_reads, hcb2, hrv2]

theorem setup_error_counter_stays_enabled_witness :
    (topology_ok non_ht_cpu (boot_state pmc_msr) ∧
      ((boot_state pmc_msr).msr MSR_IA32_MISC_ENABLE).testBit 7 = true ∧
      0 < (boot_state pmc_msr).num_counters ∧
      (scenario_config 0 0).enabled ≠ 0 ∧ (scenario_config 0 0).count ≠ 0) ∧
    ∃ cb s1 s2 s3 ovf,
      p4_counters[VIRT_CTR (boot_state pmc_msr) (get_stagger non_ht_cpu) 0]? = some cb ∧
      p4_setup_ctrs non_ht_cpu (scenario_config 0) (boot_state pmc_msr) = some s1 ∧
      (∀ ev, 1 ≤ (scenario_config 0 0).event → (scenario_config 0 0).event ≤ 39 →
        p4_events[(scenario_config 0 0).event - 1]? = some ev →
        first_binding ev (1 <<< VIRT_CTR (boot_state pmc_msr) (get_stagger non_ht_cpu) 0) = none →
        Diag.no_binding (scenario_config 0 0).event (get_stagger non_ht_cpu) 0 ∈ s1.log) ∧
      s1.reset_value 0 = (scenario_config 0 0).count ∧ s1.reset_value 0 ≠ 0 ∧
      p4_start non_ht_cpu s1 = some s2 ∧
      (s2.msr cb.cccr_address).testBit 12 = true ∧
      p4_check_ctrs non_ht_cpu 0 0 s2 = some (s3, ovf) ∧
      (s3.reads.drop s2.reads.length).filter
        (fun a => decide (a = cb.counter_address ∨ a = cb.cccr_address)) =
        [cb.cccr_address, cb.counter_address] :=
  ⟨⟨topology_ok_boot_non_ht 3 pmc_msr, by decide, by decide, by decide, by decide⟩,
    setup_error_counter_stays_enabled non_ht_cpu (scenario_config 0) (boot_state pmc_msr) 0 0 0
      (topology_ok_boot_non_ht 3 pmc_msr) (by decide) (by decide) (by decide) (by decide)⟩

/-- C12, as stated, fails: `CTR_OVERFLOW_P` tests bit 31 of the value read,
not its top bit. With reset value 1 for counter 0, the overflow flag of
`BPU_CCCR0` clear and `BPU_PERFCTR0` holding `0x80000000` (top bit of the
64-bit value clear), `p4_check_ctrs` emits no sample, writes no register and
returns 0. -/
theorem check_ctrs_ignores_top_bit :
    ∃ s1 ovf, p4_check_ctrs non_ht_cpu 0 0 quiet_state = some (s1, ovf) ∧
      quiet_state.reset_value 0 ≠ 0 ∧
      (quiet_state.msr MSR_P4_BPU_PERFCTR0).testBit 63 = false ∧
      s1.samples = [] ∧ s1.writes = [] ∧ ovf = 0 := by
  obtain ⟨p, hp⟩ : ∃ p, p4_check_ctrs non_ht_cpu 0 0 quiet_state = some p :=
    Option.isSome_iff_exists.mp (by decide!)
  have h : (p4_check_ctrs non_ht_cpu 0 0 quiet_state).map
      (fun p => (p.1.samples, p.1.writes, p.2)) = some ([], [], 0) := by decide!
  rw [hp] at h
  simp only [Option.map_some', Option.some.injEq, Prod.mk.injEq] at h
  exact ⟨p.1, p.2, hp, by decide, by decide, h.1, h.2.1, h.2.2⟩

/-- C12, amended: in `p4_check_ctrs`, for every virtual counter `i` with
nonzero reset value: if bit 31 (the overflow flag) of its control register is
set or bit 31 of the value read from its counter register is clear, the
samples emitted for index `i` are exactly one, `(eip, mode, i)`, and the
writes to the two registers of the pair are exactly three, in this order: the
negated reset value to the counter register, the value read from the control
register with bit 31 cleared and the other 63 bits kept, and the negated
reset value to the counter register again. If neither condition holds, no
sample is emitted for `i` and neither register is written. The registers of a
counter with zero reset value are neither read nor written. -/
theorem check_ctrs_service (c : Cpu) (eip mode : Nat) (s : State) (ht : topology_ok c s) :
    ∃ s1 ovf, p4_check_ctrs c eip mode s = some (s1, ovf) ∧
      ∀ i cb, i < s.num_counters → p4_counters[VIRT_CTR s (get_stagger c) i]? = some cb →
        (s.reset_value i ≠ 0 →
          ((s.msr cb.cccr_address).testBit 31 = true ∨
            (s.msr cb.counter_address).testBit 31 = false) →
          (s1.samples.drop s.samples.length).filter (fun x => decide (x.2.2 = i)) =
            [(eip, mode, i)] ∧
          (∃ v, (new_writes s s1).filter
                (fun x => decide (x.1 = cb.counter_address ∨ x.1 = cb.cccr_address)) =
              [(cb.counter_address, neg64 (s.reset_value i)), (cb.cccr_address, v),
                (cb.counter_address, neg64 (s.reset_value i))] ∧
            v.testBit 31 = false ∧
            ∀ j, j ≠ 31 → j < 64 → v.testBit j = (s.msr cb.cccr_address).testBit j)) ∧
        (s.reset_value i ≠ 0 →
          ¬ ((s.msr cb.cccr_address).testBit 31 = true ∨
            (s.msr cb.counter_address).testBit 31 = false) →
          (s1.samples.drop s.samples.length).filter (fun x => decide (x.2.2 = i)) = [] ∧
          (new_writes s s1).filter
            (fun x => decide (x.1 = cb.counter_address ∨ x.1 = cb.cccr_address)) = []) ∧
        (s.reset_value i = 0 →
          (s1.samples.drop s.samples.length).filter (fun x => decide (x.2.2 = i)) = [] ∧
          (new_writes s s1).filter
            (fun x => decide (x.1 = cb.counter_address ∨ x.1 = cb.cccr_address)) = [] ∧
          (s1.reads.drop s.reads.length).filter
            (fun a => decide (a = cb.counter_address ∨ a = cb.cccr_address)) = []) := by
  obtain ⟨s1, ovf, e, _, h⟩ := p4_check_ctrs_per_counter c eip mode s ht
  refine ⟨s1, ovf, e, ?_⟩
  intro i cb hi hcb
  obtain ⟨hw, hs, hr⟩ := h i cb hi hcb
  rw [hw, hs, hr]
  have hd := due_iff c s i cb hcb
  refine ⟨?_, ?_, ?_⟩
  · intro h0 hov
    have hdue : due c s i = true := hd.mpr ⟨h0, hov⟩
    refine ⟨by simp [service_samples, hdue], CCCR_CLEAR_OVF (s.msr cb.cccr_address),
      by simp [service_writes, hcb, hdue], ?_, ?_⟩
    · rw [testBit_clear_ovf]
      simp
    · intro j hj hj64
      rw [testBit_clear_ovf]
      simp [hj, hj64]
  · intro h0 hov
    have hdue : due c s i = false := by
      cases h : due c s i with
      | false => rfl
      | true => exact absurd (hd.mp h).2 hov
    exact ⟨by simp [service_samples, hdue], by simp [service_writes, hcb, hdue]⟩
  · intro h0
    have hdue : due c s i = false := by
      cases h : due c s i with
      | false => rfl
      | true => exact absurd h0 (hd.mp h).1
    exact ⟨by simp [service_samples, hdue], by simp [service_writes, hcb, hdue],
      by simp [service_reads, hcb, h0]⟩

theorem check_ctrs_service_witness :
    topology_ok non_ht_cpu running_state ∧
    ∃ s1 ovf, p4_check_ctrs non_ht_cpu 7 1 running_state = some (s1, ovf) ∧
      ∀ i cb, i < running_state.num_counters →
        p4_counters[VIRT_CTR running_state (get_stagger non_ht_cpu) i]? = some cb →
        (running_state.reset_value i ≠ 0 →
          ((running_state.msr cb.cccr_address).testBit 31 = true ∨
            (running_state.msr cb.counter_address).testBit 31 = false) →
          (s1.samples.drop running_state.samples.length).filter
              (fun x => decide (x.2.2 = i)) = [(7, 1, i)] ∧
          (∃ v, (new_writes running_state s1).filter
                (fun x => decide (x.1 = cb.counter_address ∨ x.1 = cb.cccr_address)) =
              [(cb.counter_address, neg64 (running_state.reset_value i)), (cb.cccr_address, v),
                (cb.counter_address, neg64 (running_state.reset_value i))] ∧
            v.testBit 31 = false ∧
            ∀ j, j ≠ 31 → j < 64 → v.testBit j = (running_state.msr cb.cccr_address).testBit j)) ∧
        (running_state.reset_value i ≠ 0 →
          ¬ ((running_state.msr cb.cccr_address).testBit 31 = true ∨
            (running_state.msr cb.counter_address).testBit 31 = false) →
          (s1.samples.drop running_state.samples.length).filter
              (fun x => decide (x.2.2 = i)) = [] ∧
          (new_writes running_state s1).filter
            (fun x => decide (x.1 = cb.counter_address ∨ x.1 = cb.cccr_address)) = []) ∧
        (running_state.reset_value i = 0 →
          (s1.samples.drop running_state.samples.length).filter
              (fun x => decide (x.2.2 = i)) = [] ∧
          (new_writes running_state s1).filter
            (fun x => decide (x.1 = cb.counter_address ∨ x.1 = cb.cccr_address)) = [] ∧
          (s1.reads.drop running_state.reads.length).filter
            (fun a => decide (a = cb.counter_address ∨ a = cb.cccr_address)) = []) :=
  ⟨Or.inr ⟨by decide, rfl, rfl⟩,
    check_ctrs_service non_ht_cpu 7 1 running_state (Or.inr ⟨by decide, rfl, rfl⟩)⟩

/-- C13: `p4_check_ctrs` returns 0 or 1, and it returns nonzero if and only if
some virtual counter `i < num_counters` has a nonzero reset value and its
overflow test (`CCCR_OVF_P` of its control register or `CTR_OVERFLOW_P` of its
counter register) holds; so it returns 0 when no reset value is nonzero or no
test holds. The test of every counter is decided by the register contents on
entry: a sample for counter `i` is emitted exactly when its own test holds
there, whatever was done for the other counters. -/
theorem check_ctrs_result (c : Cpu) (eip mode : Nat) (s : State) (ht : topology_ok c s) :
    ∃ s1 ovf, p4_check_ctrs c eip mode s = some (s1, ovf) ∧
      (ovf = 0 ∨ ovf = 1) ∧
      (ovf ≠ 0 ↔ ∃ i cb, i < s.num_counters ∧
        p4_counters[VIRT_CTR s (get_stagger c) i]? = some cb ∧ s.reset_value i ≠ 0 ∧
        (CCCR_OVF_P (s.msr cb.cccr_address) ≠ 0 ∨
          CTR_OVERFLOW_P (s.msr cb.counter_address) ≠ 0)) ∧
      ((∀ i, i < s.num_counters → s.reset_value i = 0) → ovf = 0) ∧
      ∀ i cb, i < s.num_counters → p4_counters[VIRT_CTR s (get_stagger c) i]? = some cb →
        ((eip, mode, i) ∈ s1.samples.drop s.samples.length ↔
          s.reset_value i ≠ 0 ∧
          (CCCR_OVF_P (s.msr cb.cccr_address) ≠ 0 ∨
            CTR_OVERFLOW_P (s.msr cb.counter_address) ≠ 0)) := by
  obtain ⟨s1, ovf, e, hovf, h⟩ := p4_check_ctrs_per_counter c eip mode s ht
  have hdue : ∀ i cb, p4_counters[VIRT_CTR s (get_stagger c) i]? = some cb →
      (due c s i = true ↔ s.reset_value i ≠ 0 ∧
        (CCCR_OVF_P (s.msr cb.cccr_address) ≠ 0 ∨
          CTR_OVERFLOW_P (s.msr cb.counter_address) ≠ 0)) := by
    intro i cb hcb
    simp only [due, hcb, decide_eq_true_eq]
  have hiff : ovf ≠ 0 ↔ ∃ i cb, i < s.num_counters ∧
      p4_counters[VIRT_CTR s (get_stagger c) i]? = some cb ∧ s.reset_value i ≠ 0 ∧
      (CCCR_OVF_P (s.msr cb.cccr_address) ≠ 0 ∨
        CTR_OVERFLOW_P (s.msr cb.counter_address) ≠ 0) := by
    rw [hovf]
    constructor
    · intro hne
      have hany : (List.range s.num_counters).any (due c s) = true := by
        by_contra hc
        simp only [hc] at hne
        exact hne rfl
      obtain ⟨i, hi, hd⟩ := List.any_eq_true.mp hany
      have hilt := List.mem_range.mp hi
      obtain ⟨cb, hcb, _⟩ := p4_counters_lookup _ (virt_ctr_lt c s i ht hilt)
      exact ⟨i, cb, hilt, hcb, (hdue i cb hcb).mp hd⟩
    · rintro ⟨i, cb, hi, hcb, hc⟩
      have hany : (List.range s.num_counters).any (due c s) = true :=
        List.any_eq_true.mpr ⟨i, List.mem_range.mpr hi, (hdue i cb hcb).mpr hc⟩
      simp [hany]
  refine ⟨s1, ovf, e, ?_, hiff, ?_, ?_⟩
  · rw [hovf]
    split <;> simp
  · intro hall
    by_contra hne
    obtain ⟨i, cb, hi, _, hrv, _⟩ := hiff.mp hne
    exact hrv (hall i hi)
  · intro i cb hi hcb
    obtain ⟨_, hs, _⟩ := h i cb hi hcb
    rw [← hdue i cb hcb]
    constructor
    · intro hmem
      have : (eip, mode, i) ∈ (s1.samples.drop s.samples.length).filter
          (fun x => decide (x.2.2 = i)) := List.mem_filter.mpr ⟨hmem, by simp⟩
      rw [hs] at this
      unfold service_samples at this
      split at this
      · assumption
      · simp at this
    · intro hd
      have : (eip, mode, i) ∈ service_samples c eip mode s i := by
        simp [service_samples, hd]
      rw [← hs] at this
      exact (List.mem_filter.mp this).1

theorem check_ctrs_result_witness :
    topology_ok non_ht_cpu quiet_state ∧
    ∃ s1 ovf, p4_check_ctrs non_ht_cpu 7 1 quiet_state = some (s1, ovf) ∧
      (ovf = 0 ∨ ovf = 1) ∧
      (ovf ≠ 0 ↔ ∃ i cb, i < quiet_state.num_counters ∧
        p4_counters[VIRT_CTR quiet_state (get_stagger non_ht_cpu) i]? = some cb ∧
        quiet_state.reset_value i ≠ 0 ∧
        (CCCR_OVF_P (quiet_state.msr cb.cccr_address) ≠ 0 ∨
          CTR_OVERFLOW_P (quiet_state.msr cb.counter_address) ≠ 0)) ∧
      ((∀ i, i < quiet_state.num_counters → quiet_state.reset_value i = 0) → ovf = 0) ∧
      ∀ i cb, i < quiet_state.num_counters →
        p4_counters[VIRT_CTR quiet_state (get_stagger non_ht_cpu) i]? = some cb →
        ((7, 1, i) ∈ s1.samples.drop quiet_state.samples.length ↔
          quiet_state.reset_value i ≠ 0 ∧
          (CCCR_OVF_P (quiet_state.msr cb.cccr_address) ≠ 0 ∨
            CTR_OVERFLOW_P (quiet_state.msr cb.counter_address) ≠ 0)) :=
  ⟨Or.inr ⟨by decide, rfl, rfl⟩,
    check_ctrs_result non_ht_cpu 7 1 quiet_state (Or.inr ⟨by decide, rfl, rfl⟩)⟩

/-- C14: `p4_start` succeeds and changes registers only as follows: for every
virtual counter `i < num_counters` with nonzero reset value, the control
register of physical counter `VIRT_CTR(stagger, i)` becomes its old content
with bit 12 set, every other bit unchanged; the control register of a counter
with zero reset value is unchanged, and so is every register that is not the
control register of one of the counters `VIRT_CTR(stagger, i)`. The reset
values and `num_counters` are unchanged. -/
theorem p4_start_sets_enable_only (c : Cpu) (s : State) (ht : topology_ok c s) :
    ∃ s1, p4_start c s = some s1 ∧
      (∀ i cb, i < s.num_counters → p4_counters[VIRT_CTR s (get_stagger c) i]? = some cb →
        s.reset_value i ≠ 0 →
        s1.msr cb.cccr_address = s.msr cb.cccr_address ||| (1 <<< 12) ∧
        (s1.msr cb.cccr_address).testBit 12 = true ∧
        ∀ j, j ≠ 12 → (s1.msr cb.cccr_address).testBit j = (s.msr cb.cccr_address).testBit j) ∧
      (∀ i cb, i < s.num_counters → p4_counters[VIRT_CTR s (get_stagger c) i]? = some cb →
        s.reset_value i = 0 → s1.msr cb.cccr_address = s.msr cb.cccr_address) ∧
      (∀ a, (∀ i cb, i < s.num_counters →
          p4_counters[VIRT_CTR s (get_stagger c) i]? = some cb → cb.cccr_address ≠ a) →
        s1.msr a = s.msr a) ∧
      s1.reset_value = s.reset_value ∧ s1.num_counters = s.num_counters := by
  obtain ⟨s1, e1, hinv⟩ := p4_start_spec c s ht
  refine ⟨s1, e1, ?_, ?_, ?_, hinv.rv, hinv.nc⟩
  · intro i cb hi hcb hrv
    have h := hinv.done i cb hi hrv hcb
    refine ⟨h, ?_, ?_⟩
    · rw [h, testBit_set_enable]
      simp
    · intro j hj
      rw [h, testBit_set_enable]
      simp [hj]
  · intro i cb hi hcb hrv
    apply hinv.rest
    intro j cbj hj hsel hcbj heq
    have := virt_ctr_inj s _ _ _ (cccr_address_inj _ _ _ _ hcbj hcb heq)
    subst this
    exact hsel hrv
  · intro a h
    apply hinv.rest
    intro j cbj hj _ hcbj
    exact h j cbj hj hcbj

theorem p4_start_sets_enable_only_witness :
    topology_ok non_ht_cpu quiet_state ∧
    ∃ s1, p4_start non_ht_cpu quiet_state = some s1 ∧
      (∀ i cb, i < quiet_state.num_counters →
        p4_counters[VIRT_CTR quiet_state (get_stagger non_ht_cpu) i]? = some cb →
        quiet_state.reset_value i ≠ 0 →
        s1.msr cb.cccr_address = quiet_state.msr cb.cccr_address ||| (1 <<< 12) ∧
        (s1.msr cb.cccr_address).testBit 12 = true ∧
        ∀ j, j ≠ 12 →
          (s1.msr cb.cccr_address).testBit j = (quiet_state.msr cb.cccr_address).testBit j) ∧
      (∀ i cb, i < quiet_state.num_counters →
        p4_counters[VIRT_CTR quiet_state (get_stagger non_ht_cpu) i]? = some cb →
        quiet_state.reset_value i = 0 →
        s1.msr cb.cccr_address = quiet_state.msr cb.cccr_address) ∧
      (∀ a, (∀ i cb, i < quiet_state.num_counters →
          p4_counters[VIRT_CTR quiet_state (get_stagger non_ht_cpu) i]? = some cb →
          cb.cccr_address ≠ a) →
        s1.msr a = quiet_state.msr a) ∧
      s1.reset_value = quiet_state.reset_value ∧
      s1.num_counters = quiet_state.num_counters :=
  ⟨Or.inr ⟨by decide, rfl, rfl⟩,
    p4_start_sets_enable_only non_ht_cpu quiet_state (Or.inr ⟨by decide, rfl, rfl⟩)⟩

/-- C15: `p4_stop` is idempotent. For every register state, reset-value table
and topology, a first call succeeds and a second call succeeds and leaves
every register as the first call left it. After the first call the control
register of every owned virtual counter has bit 12 clear, whatever its reset
value, and its other bits (of the 64) are as before; every register that is
not such a control register is unchanged. -/
theorem p4_stop_idempotent (c : Cpu) (s : State) (ht : topology_ok c s) :
    ∃ s1 s2, p4_stop c s = some s1 ∧ p4_stop c s1 = some s2 ∧ s2.msr = s1.msr ∧
      (∀ i cb, i < s.num_counters → p4_counters[VIRT_CTR s (get_stagger c) i]? = some cb →
        (s1.msr cb.cccr_address).testBit 12 = false ∧
        ∀ j, j ≠ 12 → j < 64 →
          (s1.msr cb.cccr_address).testBit j = (s.msr cb.cccr_address).testBit j) ∧
      (∀ a, (∀ i cb, i < s.num_counters →
          p4_counters[VIRT_CTR s (get_stagger c) i]? = some cb → cb.cccr_address ≠ a) →
        s1.msr a = s.msr a) := by
  obtain ⟨s1, e1, h1⟩ := p4_stop_spec c s ht
  have ht1 : topology_ok c s1 := topology_ok_of_num_counters ht h1.nc
  obtain ⟨s2, e2, h2⟩ := p4_stop_spec c s1 ht1
  rw [h1.nc] at h2
  have hv : ∀ j, VIRT_CTR s1 (get_stagger c) j = VIRT_CTR s (get_stagger c) j :=
    fun j => VIRT_CTR_congr h1.nc _ _
  refine ⟨s1, s2, e1, e2, ?_, ?_, ?_⟩
  · funext a
    by_cases ha : ∃ j cb, j < s.num_counters ∧
        p4_counters[VIRT_CTR s (get_stagger c) j]? = some cb ∧ cb.cccr_address = a
    · obtain ⟨j, cb, hj, hcb, heq⟩ := ha
      subst heq
      rw [h2.done j cb hj trivial (by rw [hv]; exact hcb), h1.done j cb hj trivial hcb,
        set_disable_idem]
    · apply h2.rest
      intro j cb hj _ hcb heq
      rw [hv] at hcb
      exact ha ⟨j, cb, hj, hcb, heq⟩
  · intro i cb hi hcb
    rw [h1.done i cb hi trivial hcb]
    refine ⟨?_, ?_⟩
    · rw [testBit_set_disable]
      simp
    · intro j hj hj64
      rw [testBit_set_disable]
      simp [hj, hj64]
  · intro a h
    apply h1.rest
    intro j cbj hj _ hcbj
    exact h j cbj hj hcbj

theorem p4_stop_idempotent_witness :
    topology_ok ht_odd_cpu (ht_state pmc_msr) ∧
    ∃ s1 s2, p4_stop ht_odd_cpu (ht_state pmc_msr) = some s1 ∧
      p4_stop ht_odd_cpu s1 = some s2 ∧ s2.msr = s1.msr ∧
      (∀ i cb, i < (ht_state pmc_msr).num_counters →
        p4_counters[VIRT_CTR (ht_state pmc_msr) (get_stagger ht_odd_cpu) i]? = some cb →
        (s1.msr cb.cccr_address).testBit 12 = false ∧
        ∀ j, j ≠ 12 → j < 64 →
          (s1.msr cb.cccr_address).testBit j =
            ((ht_state pmc_msr).msr cb.cccr_address).testBit j) ∧
      (∀ a, (∀ i cb, i < (ht_state pmc_msr).num_counters →
          p4_counters[VIRT_CTR (ht_state pmc_msr) (get_stagger ht_odd_cpu) i]? = some cb →
          cb.cccr_address ≠ a) →
        s1.msr a = (ht_state pmc_msr).msr a) :=
  ⟨topology_ok_ht 3 1 0 pmc_msr,
    p4_stop_idempotent ht_odd_cpu (ht_state pmc_msr) (topology_ok_ht 3 1 0 pmc_msr)⟩

/-- C16, as stated, fails: `p4_stop` clears bit 12 whatever it was before
`p4_start`. With every reset value 1 and bit 12 of `BPU_CCCR0` already set,
`p4_start` followed by `p4_stop` leaves that bit clear. -/
theorem start_stop_clears_set_enable_bit :
    ∃ s1 s2, p4_start non_ht_cpu running_state = some s1 ∧ p4_stop non_ht_cpu s1 = some s2 ∧
      running_state.reset_value 0 ≠ 0 ∧
      (running_state.msr MSR_P4_BPU_CCCR0).testBit 12 = true ∧
      (s2.msr MSR_P4_BPU_CCCR0).testBit 12 = false := by
  obtain ⟨s1, hs1⟩ : ∃ s1, p4_start non_ht_cpu running_state = some s1 :=
    Option.isSome_iff_exists.mp (by decide!)
  obtain ⟨s2, hs2⟩ : ∃ s2, (p4_start non_ht_cpu running_state).bind (p4_stop non_ht_cpu) =
      some s2 := Option.isSome_iff_exists.mp (by decide!)
  have hbit : ((p4_start non_ht_cpu running_state).bind (p4_stop non_ht_cpu)).map
      (fun s => (s.msr MSR_P4_BPU_CCCR0).testBit 12) = some false := by decide!
  rw [hs2] at hbit
  rw [hs1] at hs2
  exact ⟨s1, s2, hs1, hs2, by decide, by decide, Option.some.inj hbit⟩

/-- C16, amended: for every register state and reset-value table, running
`p4_start` and then `p4_stop` leaves the enable bit (bit 12) of every owned
virtual counter clear, in particular of those with nonzero reset value; it is
thereby restored to its value before `p4_start` whenever it was clear
then. -/
theorem start_then_stop_enable_bit (c : Cpu) (s : State) (ht : topology_ok c s) :
    ∃ s1 s2, p4_start c s = some s1 ∧ p4_stop c s1 = some s2 ∧
      ∀ i cb, i < s.num_counters → p4_counters[VIRT_CTR s (get_stagger c) i]? = some cb →
        (s2.msr cb.cccr_address).testBit 12 = false ∧
        ((s.msr cb.cccr_address).testBit 12 = false →
          (s2.msr cb.cccr_address).testBit 12 = (s.msr cb.cccr_address).testBit 12) := by
  obtain ⟨s1, e1, h1⟩ := p4_start_spec c s ht
  have ht1 : topology_ok c s1 := topology_ok_of_num_counters ht h1.nc
  obtain ⟨s2, e2, h2⟩ := p4_stop_spec c s1 ht1
  rw [h1.nc] at h2
  refine ⟨s1, s2, e1, e2, ?_⟩
  intro i cb hi hcb
  have hcb1 : p4_counters[VIRT_CTR s1 (get_stagger c) i]? = some cb := by
    rw [VIRT_CTR_congr h1.nc]
    exact hcb
  have hb : (s2.msr cb.cccr_address).testBit 12 = false := by
    rw [h2.done i cb hi trivial hcb1, testBit_set_disable]
    simp
  exact ⟨hb, fun h0 => by rw [hb, h0]⟩

theorem start_then_stop_enable_bit_witness :
    topology_ok non_ht_cpu running_state ∧
    ∃ s1 s2, p4_start non_ht_cpu running_state = some s1 ∧ p4_stop non_ht_cpu s1 = some s2 ∧
      ∀ i cb, i < running_state.num_counters →
        p4_counters[VIRT_CTR running_state (get_stagger non_ht_cpu) i]? = some cb →
        (s2.msr cb.cccr_address).testBit 12 = false ∧
        ((running_state.msr cb.cccr_address).testBit 12 = false →
          (s2.msr cb.cccr_address).testBit 12 =
            (running_state.msr cb.cccr_address).testBit 12) :=
  ⟨Or.inr ⟨by decide, rfl, rfl⟩,
    start_then_stop_enable_bit non_ht_cpu running_state (Or.inr ⟨by decide, rfl, rfl⟩)⟩

/-! ## Claims about the partition between siblings -/

/-- On a two-sibling core every candidate pair that matches a counter of the
even sibling names an ESCR of the even control list and none of the odd one. -/
theorem escr_partition_ht0 (newer : Bool) : ∀ ctr < 4, ∀ ev ∈ p4_events,
    (first_binding ev (1 <<< (ctr + 4 * 0))).all (fun b =>
      decide (b.escr_address ∈ List.range' 0x360 9 2 ++ List.range' 0x3a0 13 2 ++
        (if newer then [0x3a0] else [0x3ba]) ++
        [0x3bc, 0x3be] ++ List.range' 0x3c0 3 2 ++ List.range' 0x3c8 3 2 ++ [0x3e0]) &&
      decide (b.escr_address ∉ List.range' 0x361 9 2 ++ List.range' 0x3a1 13 2 ++
        (if newer then [0x3a1] else [0x3bb]) ++
        [0x3bd] ++ List.range' 0x3c1 3 2 ++ List.range' 0x3c9 3 2 ++ [0x3e1, 0x3e1])) = true := by
  cases newer <;> decide!

theorem escr_partition_ht1 (newer : Bool) : ∀ ctr < 4, ∀ ev ∈ p4_events,
    (first_binding ev (1 <<< (ctr + 4 * 1))).all (fun b =>
      decide (b.escr_address ∈ List.range' 0x361 9 2 ++ List.range' 0x3a1 13 2 ++
        (if newer then [0x3a1] else [0x3bb]) ++
        [0x3bd] ++ List.range' 0x3c1 3 2 ++ List.range' 0x3c9 3 2 ++ [0x3e1, 0x3e1]) &&
      decide (b.escr_address ∉ List.range' 0x360 9 2 ++ List.range' 0x3a0 13 2 ++
        (if newer then [0x3a0] else [0x3ba]) ++
        [0x3bc, 0x3be] ++ List.range' 0x3c0 3 2 ++ List.range' 0x3c8 3 2 ++ [0x3e0])) = true := by
  cases newer <;> decide!

/-- The control list of a sibling of a two-sibling core, from its stagger. -/
theorem fill_in_list_ht (c : Cpu) (s : State) (msrs : op_msrs) (hht : c.x86_num_siblings = 2) :
    ∃ m l, p4_fill_in_addresses c s msrs = some (setup_num_counters c s, m, l.length) ∧
      entries m.controls l.length = l ∧
      (get_stagger c = 0 → l = List.range' 0x360 9 2 ++ List.range' 0x3a0 13 2 ++
        (if decide (c.x86_model ≥ 3) then [0x3a0] else [0x3ba]) ++
        [0x3bc, 0x3be] ++ List.range' 0x3c0 3 2 ++ List.range' 0x3c8 3 2 ++ [0x3e0]) ∧
      (get_stagger c = 1 → l = List.range' 0x361 9 2 ++ List.range' 0x3a1 13 2 ++
        (if decide (c.x86_model ≥ 3) then [0x3a1] else [0x3bb]) ++
        [0x3bd] ++ List.range' 0x3c1 3 2 ++ List.range' 0x3c9 3 2 ++ [0x3e1, 0x3e1]) := by
  obtain ⟨m, l, heq, hent, _, hc⟩ := fill_in_list c s msrs (fun h => absurd hht h)
  refine ⟨m, l, heq, hent, ?_, ?_⟩
  · intro h0
    rcases hc with ⟨h, _⟩ | ⟨_, _, hl⟩ | ⟨_, h1, _⟩
    · exact absurd hht h
    · rw [control_list_ht0] at hl
      exact (Option.some.inj hl).symm
    · omega
  · intro h1
    rcases hc with ⟨h, _⟩ | ⟨_, h0, _⟩ | ⟨_, _, hl⟩
    · exact absurd hht h
    · omega
    · rw [control_list_ht1] at hl
      exact (Option.some.inj hl).symm

/-- C17: on a two-sibling core, for either stagger, every virtual counter
`ctr < 4` and every event code in [1,39] that has a candidate pair matching
the counter, `pmc_setup_one_p4_counter` writes exactly two registers, the ESCR
of the first matching pair and the CCCR of the counter; that ESCR address is
an entry of the control list `p4_fill_in_addresses` fills for the calling
logical CPU and is not an entry of the list it fills for the sibling (same
core and model, the other stagger). -/
theorem configure_escr_in_own_partition (c sib : Cpu) (cfg : Nat → op_counter_config)
    (ctr : Nat) (s s0 t0 : State) (msrs tmsrs : op_msrs) (ev : p4_event_binding)
    (b : escr_binding)
    (hht : c.x86_num_siblings = 2) (hnc : s.num_counters = NUM_COUNTERS_HT2)
    (hsib : sib.x86_num_siblings = 2 ∧ sib.x86_model = c.x86_model ∧
      get_stagger sib = 1 - get_stagger c)
    (hc : ctr < 4) (hev : 1 ≤ (cfg ctr).event ∧ (cfg ctr).event ≤ 39)
    (hlook : p4_events[(cfg ctr).event - 1]? = some ev)
    (hfb : first_binding ev (1 <<< VIRT_CTR s (get_stagger c) ctr) = some b) :
    ∃ s1 cb v w m l tm tl,
      pmc_setup_one_p4_counter c cfg ctr s = some s1 ∧
      p4_counters[VIRT_CTR s (get_stagger c) ctr]? = some cb ∧
      s1.writes = s.writes ++ [(b.escr_address, v), (cb.cccr_address, w)] ∧
      p4_fill_in_addresses c s0 msrs = some (setup_num_counters c s0, m, l.length) ∧
      entries m.controls l.length = l ∧
      p4_fill_in_addresses sib t0 tmsrs = some (setup_num_counters sib t0, tm, tl.length) ∧
      entries tm.controls tl.length = tl ∧
      b.escr_address ∈ l ∧ b.escr_address ∉ tl := by
  have ht : topology_ok c s := Or.inl ⟨hht, hnc⟩
  have hcs : ctr < s.num_counters := by
    rw [hnc]
    exact hc
  obtain ⟨cb, hcb, _⟩ := p4_counters_lookup _ (virt_ctr_lt c s ctr ht hcs)
  have hrange : ¬ ((cfg ctr).event ≤ 0 ∨ (cfg ctr).event > NUM_EVENTS) := by
    simp only [NUM_EVENTS]
    omega
  have hs1 : pmc_setup_one_p4_counter c cfg ctr s =
      some (program_binding (get_stagger c) (cfg ctr) ev b cb s) := by
    rw [pmc_setup_one_eq c cfg ctr s cb hcb, if_neg hrange, hlook, Option.some_bind, hfb]
  obtain ⟨m, l, hfill, hent, hl0, hl1⟩ := fill_in_list_ht c s0 msrs hht
  obtain ⟨tm, tl, htfill, htent, htl0, htl1⟩ := fill_in_list_ht sib t0 tmsrs hsib.1
  have hmem : ev ∈ p4_events := by
    obtain ⟨h, e⟩ := List.getElem?_eq_some_iff.mp hlook
    rw [← e]
    exact List.getElem_mem h
  refine ⟨_, cb, _, _, m, l, tm, tl, hs1, hcb, program_binding_writes _ _ _ _ _ _, hfill, hent,
    htfill, htent, ?_⟩
  have hv : VIRT_CTR s (get_stagger c) ctr = ctr + 4 * get_stagger c := by
    simp [VIRT_CTR, hnc, NUM_COUNTERS_HT2]
  rw [hv] at hfb
  rcases get_stagger_cases c with h0 | h1
  · have hts : get_stagger sib = 1 := by
      rw [hsib.2.2, h0]
    rw [hl0 h0, htl1 hts, hsib.2.1]
    rw [h0] at hfb
    have h := escr_partition_ht0 (decide (c.x86_model ≥ 3)) ctr hc ev hmem
    rw [hfb] at h
    simpa using h
  · have hts : get_stagger sib = 0 := by
      rw [hsib.2.2, h1]
    rw [hl1 h1, htl0 hts, hsib.2.1]
    rw [h1] at hfb
    have h := escr_partition_ht1 (decide (c.x86_model ≥ 3)) ctr hc ev hmem
    rw [hfb] at h
    simpa using h

theorem configure_escr_in_own_partition_witness :
    (ht_odd_cpu.x86_num_siblings = 2 ∧ (ht_state pmc_msr).num_counters = NUM_COUNTERS_HT2 ∧
      (ht_even_cpu.x86_num_siblings = 2 ∧ ht_even_cpu.x86_model = ht_odd_cpu.x86_model ∧
        get_stagger ht_even_cpu = 1 - get_stagger ht_odd_cpu) ∧
      3 < 4 ∧ (1 ≤ (scenario_config 3 3).event ∧ (scenario_config 3 3).event ≤ 39) ∧
      p4_events[(scenario_config 3 3).event - 1]? =
        some ⟨0x05, 0x06, [⟨CTR_IQ_4, MSR_P4_CRU_ESCR2⟩, ⟨CTR_IQ_5, MSR_P4_CRU_ESCR3⟩]⟩ ∧
      first_binding ⟨0x05, 0x06, [⟨CTR_IQ_4, MSR_P4_CRU_ESCR2⟩, ⟨CTR_IQ_5, MSR_P4_CRU_ESCR3⟩]⟩
        (1 <<< VIRT_CTR (ht_state pmc_msr) (get_stagger ht_odd_cpu) 3) =
        some ⟨CTR_IQ_5, MSR_P4_CRU_ESCR3⟩) ∧
    ∃ s1 cb v w m l tm tl,
      pmc_setup_one_p4_counter ht_odd_cpu (scenario_config 3) 3 (ht_state pmc_msr) = some s1 ∧
      p4_counters[VIRT_CTR (ht_state pmc_msr) (get_stagger ht_odd_cpu) 3]? = some cb ∧
      s1.writes = (ht_state pmc_msr).writes ++ [(MSR_P4_CRU_ESCR3, v), (cb.cccr_address, w)] ∧
      p4_fill_in_addresses ht_odd_cpu (boot_state pmc_msr) blank_msrs =
        some (setup_num_counters ht_odd_cpu (boot_state pmc_msr), m, l.length) ∧
      entries m.controls l.length = l ∧
      p4_fill_in_addresses ht_even_cpu (boot_state pmc_msr) blank_msrs =
        some (setup_num_counters ht_even_cpu (boot_state pmc_msr), tm, tl.length) ∧
      entries tm.controls tl.length = tl ∧
      MSR_P4_CRU_ESCR3 ∈ l ∧ MSR_P4_CRU_ESCR3 ∉ tl :=
  ⟨⟨rfl, rfl, ⟨rfl, rfl, by decide⟩, by decide, by decide, by decide, by decide⟩,
    configure_escr_in_own_partition ht_odd_cpu ht_even_cpu (scenario_config 3) 3
      (ht_state pmc_msr) (boot_state pmc_msr) (boot_state pmc_msr) blank_msrs blank_msrs
      ⟨0x05, 0x06, [⟨CTR_IQ_4, MSR_P4_CRU_ESCR2⟩, ⟨CTR_IQ_5, MSR_P4_CRU_ESCR3⟩]⟩
      ⟨CTR_IQ_5, MSR_P4_CRU_ESCR3⟩
      rfl rfl ⟨rfl, rfl, by decide⟩ (by decide) (by decide) (by decide) (by decide)⟩

theorem topology_ok_fill_pre {c : Cpu} {s : State} (ht : topology_ok c s) : fill_pre c s := by
  intro hne
  rcases ht with ⟨h, _⟩ | ⟨_, hn, h0⟩
  · exact absurd h hne
  · exact ⟨hn, h0⟩

/-- C18: when `num_counters` agrees with the topology (4 on a two-sibling
core, where the stagger is 0 or 1; 8 otherwise, where the stagger is 0), for
every `i < num_counters` the index `VIRT_CTR(stagger, i) = i + num_counters *
stagger` is below 8, the length of `p4_counters`, so the lookup succeeds; and
`p4_fill_in_addresses`, `pmc_setup_one_p4_counter` (for every counter below
`num_counters`), `p4_setup_ctrs`, `p4_start`, `p4_stop` and `p4_check_ctrs`
all return a result, which they do only if no table lookup is out of
bounds. -/
theorem virt_ctr_in_catalog (c : Cpu) (cfg : Nat → op_counter_config) (s : State)
    (msrs : op_msrs) (eip mode : Nat) (ht : topology_ok c s) :
    ((s.num_counters = 8 ∧ get_stagger c = 0) ∨
      (s.num_counters = 4 ∧ (get_stagger c = 0 ∨ get_stagger c = 1))) ∧
    p4_counters.length = 8 ∧
    (∀ i, i < s.num_counters →
      VIRT_CTR s (get_stagger c) i = i + s.num_counters * get_stagger c ∧
      VIRT_CTR s (get_stagger c) i < 8 ∧
      ∃ cb, p4_counters[VIRT_CTR s (get_stagger c) i]? = some cb) ∧
    (∃ r, p4_fill_in_addresses c s msrs = some r) ∧
    (∀ ctr, ctr < s.num_counters → ∃ s1, pmc_setup_one_p4_counter c cfg ctr s = some s1) ∧
    (∃ s1, p4_setup_ctrs c cfg s = some s1) ∧
    (∃ s1, p4_start c s = some s1) ∧
    (∃ s1, p4_stop c s = some s1) ∧
    (∃ r, p4_check_ctrs c eip mode s = some r) := by
  refine ⟨?_, by decide, ?_, ?_, ?_, ?_, ?_, ?_, ?_⟩
  · rcases ht with ⟨_, hn⟩ | ⟨_, hn, h0⟩
    · exact Or.inr ⟨hn, get_stagger_cases c⟩
    · exact Or.inl ⟨hn, h0⟩
  · intro i hi
    have hlt := virt_ctr_lt c s i ht hi
    obtain ⟨cb, hcb, _⟩ := p4_counters_lookup _ hlt
    exact ⟨rfl, hlt, cb, hcb⟩
  · obtain ⟨cl, l, heq, _⟩ := fill_in_cases c s msrs (topology_ok_fill_pre ht)
    exact ⟨_, heq⟩
  · intro ctr hc
    obtain ⟨s1, h, _⟩ := pmc_setup_one_step c cfg ctr s ht hc
    exact ⟨s1, h⟩
  · by_cases hpmc : (s.msr MSR_IA32_MISC_ENABLE).testBit 7 = true
    · obtain ⟨_, s1, _, h, _⟩ := p4_setup_ctrs_spec c cfg s ht hpmc
      exact ⟨s1, h⟩
    · have h0 : MISC_PMC_ENABLED_P (rdmsrl s MSR_IA32_MISC_ENABLE) = 0 :=
        (misc_pmc_enabled_eq_zero _).mpr (by simpa using hpmc)
      refine ⟨printk s Diag.pmc_not_available, ?_⟩
      unfold p4_setup_ctrs
      simp only [h0, if_true]
  · obtain ⟨s1, h, _⟩ := p4_start_spec c s ht
    exact ⟨s1, h⟩
  · obtain ⟨s1, h, _⟩ := p4_stop_spec c s ht
    exact ⟨s1, h⟩
  · obtain ⟨s1, ovf, h, _⟩ := p4_check_ctrs_spec c eip mode s ht
    exact ⟨_, h⟩

theorem virt_ctr_in_catalog_witness :
    topology_ok ht_odd_cpu (ht_state pmc_msr) ∧
    ((((ht_state pmc_msr).num_counters = 8 ∧ get_stagger ht_odd_cpu = 0) ∨
      ((ht_state pmc_msr).num_counters = 4 ∧
        (get_stagger ht_odd_cpu = 0 ∨ get_stagger ht_odd_cpu = 1))) ∧
    p4_counters.length = 8 ∧
    (∀ i, i < (ht_state pmc_msr).num_counters →
      VIRT_CTR (ht_state pmc_msr) (get_stagger ht_odd_cpu) i =
        i + (ht_state pmc_msr).num_counters * get_stagger ht_odd_cpu ∧
      VIRT_CTR (ht_state pmc_msr) (get_stagger ht_odd_cpu) i < 8 ∧
      ∃ cb, p4_counters[VIRT_CTR (ht_state pmc_msr) (get_stagger ht_odd_cpu) i]? = some cb) ∧
    (∃ r, p4_fill_in_addresses ht_odd_cpu (ht_state pmc_msr) blank_msrs = some r) ∧
    (∀ ctr, ctr < (ht_state pmc_msr).num_counters →
      ∃ s1, pmc_setup_one_p4_counter ht_odd_cpu (scenario_config 3) ctr (ht_state pmc_msr) =
        some s1) ∧
    (∃ s1, p4_setup_ctrs ht_odd_cpu (scenario_config 3) (ht_state pmc_msr) = some s1) ∧
    (∃ s1, p4_start ht_odd_cpu (ht_state pmc_msr) = some s1) ∧
    (∃ s1, p4_stop ht_odd_cpu (ht_state pmc_msr) = some s1) ∧
    (∃ r, p4_check_ctrs ht_odd_cpu 0 0 (ht_state pmc_msr) = some r)) :=
  ⟨topology_ok_ht 3 1 0 pmc_msr,
    virt_ctr_in_catalog ht_odd_cpu (scenario_config 3) (ht_state pmc_msr) blank_msrs 0 0
      (topology_ok_ht 3 1 0 pmc_msr)⟩

/-- The control list without hyper-threading. -/
theorem fill_in_list_non_ht (c : Cpu) (s : State) (msrs : op_msrs) (hp : fill_pre c s)
    (hht : c.x86_num_siblings ≠ 2) :
    ∃ m l, p4_fill_in_addresses c s msrs = some (setup_num_counters c s, m, l.length) ∧
      entries m.controls l.length = l ∧
      l = List.range' 0x360 18 ++ List.range' 0x3a0 26 ++
        (if decide (c.x86_model ≥ 3) then [0x3a0, 0x3a1] else [0x3ba, 0x3bb]) ++
        [0x3bc, 0x3bd, 0x3be] ++ List.range' 0x3c0 6 ++ List.range' 0x3c8 6 ++ [0x3e1, 0x3e0] := by
  obtain ⟨m, l, heq, hent, _, hc⟩ := fill_in_list c s msrs hp
  refine ⟨m, l, heq, hent, ?_⟩
  rcases hc with ⟨_, _, hl⟩ | ⟨h, _⟩ | ⟨h, _⟩
  · rw [control_list_non_ht] at hl
    exact (Option.some.inj hl).symm
  · exact absurd h hht
  · exact absurd h hht

theorem cccr_table_non_ht (newer : Bool) : ∀ i < 8,
    (p4_counters[i + 8 * 0]?).all (fun cb =>
      decide (cb.cccr_address ∈ List.range' 0x360 18 ++ List.range' 0x3a0 26 ++
        (if newer then [0x3a0, 0x3a1] else [0x3ba, 0x3bb]) ++
        [0x3bc, 0x3bd, 0x3be] ++ List.range' 0x3c0 6 ++ List.range' 0x3c8 6 ++
        [0x3e1, 0x3e0])) = true := by
  cases newer <;> decide!

theorem cccr_table_ht0 (newer : Bool) : ∀ i < 4,
    (p4_counters[i + 4 * 0]?).all (fun cb =>
      decide (cb.cccr_address ∈ List.range' 0x360 9 2 ++ List.range' 0x3a0 13 2 ++
        (if newer then [0x3a0] else [0x3ba]) ++
        [0x3bc, 0x3be] ++ List.range' 0x3c0 3 2 ++ List.range' 0x3c8 3 2 ++ [0x3e0])) = true := by
  cases newer <;> decide!

theorem cccr_table_ht1 (newer : Bool) : ∀ i < 4,
    (p4_counters[i + 4 * 1]?).all (fun cb =>
      decide ((cb.cccr_address ∈ List.range' 0x361 9 2 ++ List.range' 0x3a1 13 2 ++
        (if newer then [0x3a1] else [0x3bb]) ++
        [0x3bd] ++ List.range' 0x3c1 3 2 ++ List.range' 0x3c9 3 2 ++ [0x3e1, 0x3e1]) ↔ i = 3) &&
      decide (i < 3 → cb.cccr_address ∈ List.range' 0x360 9 2 ++ List.range' 0x3a0 13 2 ++
        (if newer then [0x3a0] else [0x3ba]) ++
        [0x3bc, 0x3be] ++ List.range' 0x3c0 3 2 ++ List.range' 0x3c8 3 2 ++ [0x3e0])) = true := by
  cases newer <;> decide!

/-- C19, as stated, fails: on the odd sibling of a two-sibling core, virtual
counter 0 is physical counter 4, whose control register `BPU_CCCR2` (an even
address) is not in the control list `p4_fill_in_addresses` fills for that
sibling. -/
theorem odd_sibling_cccr_not_listed :
    ∃ m l cb,
      p4_fill_in_addresses ht_odd_cpu (boot_state pmc_msr) blank_msrs =
        some (setup_num_counters ht_odd_cpu (boot_state pmc_msr), m, l.length) ∧
      entries m.controls l.length = l ∧
      0 < (setup_num_counters ht_odd_cpu (boot_state pmc_msr)).num_counters ∧
      p4_counters[VIRT_CTR (setup_num_counters ht_odd_cpu (boot_state pmc_msr))
        (get_stagger ht_odd_cpu) 0]? = some cb ∧
      cb.cccr_address = MSR_P4_BPU_CCCR2 ∧ cb.cccr_address ∉ l := by
  obtain ⟨m, l, heq, hent, _, hl⟩ := fill_in_list_ht ht_odd_cpu (boot_state pmc_msr) blank_msrs rfl
  refine ⟨m, l, ⟨CTR_BPU_2, MSR_P4_BPU_PERFCTR2, MSR_P4_BPU_CCCR2⟩, heq, hent, by decide,
    by decide, rfl, ?_⟩
  rw [hl (by decide)]
  decide

/-- C19, amended: without hyper-threading, and on the even sibling of a
two-sibling core, for every virtual counter `i < num_counters` the CCCR
address of physical counter `VIRT_CTR(stagger, i)` is an entry of the control
list `p4_fill_in_addresses` fills for that logical CPU. On the odd sibling
this holds for virtual counter 3 only (`IQ_CCCR5`); the CCCRs of its virtual
counters 0, 1 and 2 (`BPU_CCCR2`, `MS_CCCR2`, `FLAME_CCCR2`) are entries of
the list filled for the even sibling instead. -/
theorem cccr_in_control_list (c sib : Cpu) (s0 t0 : State) (msrs tmsrs : op_msrs)
    (hp : fill_pre c s0) (hsib : sib.x86_num_siblings = 2 ∧ get_stagger sib = 0) :
    ∃ m l tm tl,
      p4_fill_in_addresses c s0 msrs = some (setup_num_counters c s0, m, l.length) ∧
      entries m.controls l.length = l ∧
      p4_fill_in_addresses sib t0 tmsrs = some (setup_num_counters sib t0, tm, tl.length) ∧
      entries tm.controls tl.length = tl ∧
      ∀ i cb, i < (setup_num_counters c s0).num_counters →
        p4_counters[VIRT_CTR (setup_num_counters c s0) (get_stagger c) i]? = some cb →
        ((c.x86_num_siblings ≠ 2 ∨ get_stagger c = 0) → cb.cccr_address ∈ l) ∧
        (c.x86_num_siblings = 2 → get_stagger c = 1 →
          (cb.cccr_address ∈ l ↔ i = 3) ∧ (i < 3 → cb.cccr_address ∈ tl)) := by
  obtain ⟨tm, tl, hteq, htent, htl, _⟩ := fill_in_list_ht sib t0 tmsrs hsib.1
  have htl0 := htl hsib.2
  by_cases hht : c.x86_num_siblings = 2
  · obtain ⟨m, l, heq, hent, hl0, hl1⟩ := fill_in_list_ht c s0 msrs hht
    refine ⟨m, l, tm, tl, heq, hent, hteq, htent, ?_⟩
    intro i cb hi hcb
    have hnc : (setup_num_counters c s0).num_counters = 4 := by
      simp [setup_num_counters, hht, NUM_COUNTERS_HT2]
    rw [hnc] at hi
    simp only [VIRT_CTR, hnc] at hcb
    rcases get_stagger_cases c with h0 | h1
    · rw [h0] at hcb
      have h := cccr_table_ht0 (decide (c.x86_model ≥ 3)) i hi
      rw [hcb] at h
      refine ⟨fun _ => ?_, fun _ h1 => ?_⟩
      · rw [hl0 h0]
        simpa using h
      · omega
    · rw [h1] at hcb
      have h := cccr_table_ht1 (decide (c.x86_model ≥ 3)) i hi
      have ht := cccr_table_ht1 (decide (sib.x86_model ≥ 3)) i hi
      rw [hcb] at h ht
      simp only [Option.all_some, Bool.and_eq_true] at h ht
      refine ⟨fun h01 => ?_, fun _ _ => ⟨?_, ?_⟩⟩
      · rcases h01 with h | h
        · exact absurd hht h
        · omega
      · rw [hl1 h1]
        exact of_decide_eq_true h.1
      · rw [htl0]
        exact of_decide_eq_true ht.2
  · obtain ⟨m, l, heq, hent, hl⟩ := fill_in_list_non_ht c s0 msrs hp hht
    refine ⟨m, l, tm, tl, heq, hent, hteq, htent, ?_⟩
    intro i cb hi hcb
    obtain ⟨hn8, hs0⟩ := hp hht
    have hnc : (setup_num_counters c s0).num_counters = 8 := by
      simp only [setup_num_counters, hht, if_false]
      exact hn8
    rw [hnc] at hi
    simp only [VIRT_CTR, hnc, hs0] at hcb
    have h := cccr_table_non_ht (decide (c.x86_model ≥ 3)) i hi
    rw [hcb] at h
    refine ⟨fun _ => ?_, fun h2 => absurd h2 hht⟩
    rw [hl]
    simpa using h

theorem cccr_in_control_list_witness :
    (fill_pre ht_odd_cpu (boot_state pmc_msr) ∧
      (ht_even_cpu.x86_num_siblings = 2 ∧ get_stagger ht_even_cpu = 0)) ∧
    ∃ m l tm tl,
      p4_fill_in_addresses ht_odd_cpu (boot_state pmc_msr) blank_msrs =
        some (setup_num_counters ht_odd_cpu (boot_state pmc_msr), m, l.length) ∧
      entries m.controls l.length = l ∧
      p4_fill_in_addresses ht_even_cpu (boot_state pmc_msr) blank_msrs =
        some (setup_num_counters ht_even_cpu (boot_state pmc_msr), tm, tl.length) ∧
      entries tm.controls tl.length = tl ∧
      ∀ i cb, i < (setup_num_counters ht_odd_cpu (boot_state pmc_msr)).num_counters →
        p4_counters[VIRT_CTR (setup_num_counters ht_odd_cpu (boot_state pmc_msr))
          (get_stagger ht_odd_cpu) i]? = some cb →
        ((ht_odd_cpu.x86_num_siblings ≠ 2 ∨ get_stagger ht_odd_cpu = 0) →
          cb.cccr_address ∈ l) ∧
        (ht_odd_cpu.x86_num_siblings = 2 → get_stagger ht_odd_cpu = 1 →
          (cb.cccr_address ∈ l ↔ i = 3) ∧ (i < 3 → cb.cccr_address ∈ tl)) :=
  ⟨⟨fill_pre_ht 3 1 0 (boot_state pmc_msr), rfl, rfl⟩,
    cccr_in_control_list ht_odd_cpu ht_even_cpu (boot_state pmc_msr) (boot_state pmc_msr)
      blank_msrs blank_msrs (fill_pre_ht 3 1 0 (boot_state pmc_msr)) ⟨rfl, rfl⟩⟩

/-- Both filled arrays of `p4_fill_in_addresses` as lists, in the three cases. -/
theorem fill_in_both (c : Cpu) (s : State) (msrs : op_msrs) (hp : fill_pre c s) :
    ∃ m cl l,
      p4_fill_in_addresses c s msrs = some (setup_num_counters c s, m, l.length) ∧
      entries m.controls l.length = l ∧
      entries m.counters (setup_num_counters c s).num_counters = cl ∧
      ((c.x86_num_siblings ≠ 2 ∧ get_stagger c = 0 ∧ counter_list 8 0 = some cl ∧
          control_list 1 0 (decide (c.x86_model ≥ 3)) 8 = some l) ∨
       (c.x86_num_siblings = 2 ∧ get_stagger c = 0 ∧ counter_list 4 0 = some cl ∧
          control_list 2 0 (decide (c.x86_model ≥ 3)) 4 = some l) ∨
       (c.x86_num_siblings = 2 ∧ get_stagger c = 1 ∧ counter_list 4 1 = some cl ∧
          control_list 2 1 (decide (c.x86_model ≥ 3)) 4 = some l)) := by
  obtain ⟨cl, l, heq, hc⟩ := fill_in_cases c s msrs hp
  refine ⟨_, cl, l, heq, entries_overlay _ _, ?_, hc⟩
  have hlen : (setup_num_counters c s).num_counters = cl.length := by
    rcases hc with ⟨hs, _, hcl, _⟩ | ⟨hs, _, hcl, _⟩ | ⟨hs, _, hcl, _⟩
    · rw [counter_list_non_ht] at hcl
      rw [← Option.some.inj hcl]
      simp only [setup_num_counters, hs, if_false]
      exact (hp hs).1
    · rw [counter_list_ht0] at hcl
      rw [← Option.some.inj hcl]
      simp [setup_num_counters, hs, NUM_COUNTERS_HT2]
    · rw [counter_list_ht1] at hcl
      rw [← Option.some.inj hcl]
      simp [setup_num_counters, hs, NUM_COUNTERS_HT2]
  rw [hlen]
  exact entries_overlay _ _

/-- The three control lists and the three counter lists, compared. -/
theorem lists_partition (newer : Bool) :
    ∃ l0 l1 ln k0 k1 kn,
      control_list 2 0 newer 4 = some l0 ∧ control_list 2 1 newer 4 = some l1 ∧
      control_list 1 0 newer 8 = some ln ∧
      counter_list 4 0 = some k0 ∧ counter_list 4 1 = some k1 ∧ counter_list 8 0 = some kn ∧
      (∀ x ∈ l0, x % 2 = 0) ∧ (∀ x ∈ l1, x % 2 = 1) ∧
      (∀ x ∈ ln, x ∈ l0 ∨ x ∈ l1) ∧ (∀ x ∈ l0, x ∈ ln) ∧ (∀ x ∈ l1, x ∈ ln) ∧
      (∀ x ∈ k0, x ∉ k1) ∧ kn = k0 ++ k1 := by
  refine ⟨_, _, _, _, _, _, control_list_ht0 newer, control_list_ht1 newer,
    control_list_non_ht newer, counter_list_ht0, counter_list_ht1, counter_list_non_ht, ?_⟩
  cases newer <;> decide!

/-- C20: for a two-sibling core and each model, the control list
`p4_fill_in_addresses` fills for stagger 0 holds even addresses only and the
one for stagger 1 odd addresses only, so no address is in both; an address is
in the control list filled without hyper-threading for the same model exactly
if it is in one of the two. The two counter-address lists have no address in
common, and the stagger-0 list followed by the stagger-1 list is the
counter-address list filled without hyper-threading. -/
theorem sibling_lists_partition (c0 c1 cn : Cpu) (s0 s1 sn : State) (a0 a1 an : op_msrs)
    (h0 : c0.x86_num_siblings = 2 ∧ get_stagger c0 = 0)
    (h1 : c1.x86_num_siblings = 2 ∧ get_stagger c1 = 1)
    (hn : cn.x86_num_siblings ≠ 2 ∧ fill_pre cn sn)
    (hm : c0.x86_model = cn.x86_model ∧ c1.x86_model = cn.x86_model) :
    ∃ m0 m1 mn l0 l1 ln k0 k1 kn,
      p4_fill_in_addresses c0 s0 a0 = some (setup_num_counters c0 s0, m0, l0.length) ∧
      p4_fill_in_addresses c1 s1 a1 = some (setup_num_counters c1 s1, m1, l1.length) ∧
      p4_fill_in_addresses cn sn an = some (setup_num_counters cn sn, mn, ln.length) ∧
      entries m0.controls l0.length = l0 ∧ entries m1.controls l1.length = l1 ∧
      entries mn.controls ln.length = ln ∧
      entries m0.counters (setup_num_counters c0 s0).num_counters = k0 ∧
      entries m1.counters (setup_num_counters c1 s1).num_counters = k1 ∧
      entries mn.counters (setup_num_counters cn sn).num_counters = kn ∧
      (∀ x ∈ l0, x % 2 = 0) ∧ (∀ x ∈ l1, x % 2 = 1) ∧
      (∀ x, ¬ (x ∈ l0 ∧ x ∈ l1)) ∧
      (∀ x, x ∈ ln ↔ x ∈ l0 ∨ x ∈ l1) ∧
      (∀ x, ¬ (x ∈ k0 ∧ x ∈ k1)) ∧
      (∀ x, x ∈ kn ↔ x ∈ k0 ∨ x ∈ k1) ∧ kn = k0 ++ k1 := by
  obtain ⟨m0, k0, l0, e0, hl0, hk0, hc0⟩ := fill_in_both c0 s0 a0 (fun h => absurd h0.1 h)
  obtain ⟨m1, k1, l1, e1, hl1, hk1, hc1⟩ := fill_in_both c1 s1 a1 (fun h => absurd h1.1 h)
  obtain ⟨mn, kn, ln, en, hln, hkn, hcn⟩ := fill_in_both cn sn an hn.2
  obtain ⟨p0, p1, pn, q0, q1, qn, t0, t1, tn, u0, u1, un, hev, hodd, hsub, hs0, hs1, hdis, happ⟩ :=
    lists_partition (decide (cn.x86_model ≥ 3))
  have r0 : counter_list 4 0 = some k0 ∧
      control_list 2 0 (decide (cn.x86_model ≥ 3)) 4 = some l0 := by
    rcases hc0 with ⟨h, _⟩ | ⟨_, _, a, b⟩ | ⟨_, h, _⟩
    · exact absurd h0.1 h
    · rw [hm.1] at b
      exact ⟨a, b⟩
    · have := h0.2
      omega
  have r1 : counter_list 4 1 = some k1 ∧
      control_list 2 1 (decide (cn.x86_model ≥ 3)) 4 = some l1 := by
    rcases hc1 with ⟨h, _⟩ | ⟨_, h, _⟩ | ⟨_, _, a, b⟩
    · exact absurd h1.1 h
    · have := h1.2
      omega
    · rw [hm.2] at b
      exact ⟨a, b⟩
  have rn : counter_list 8 0 = some kn ∧
      control_list 1 0 (decide (cn.x86_model ≥ 3)) 8 = some ln := by
    rcases hcn with ⟨_, _, a, b⟩ | ⟨h, _⟩ | ⟨h, _⟩
    · exact ⟨a, b⟩
    · exact absurd h hn.1
    · exact absurd h hn.1
  have el0 : p0 = l0 := Option.some.inj (t0.symm.trans r0.2)
  have el1 : p1 = l1 := Option.some.inj (t1.symm.trans r1.2)
  have eln : pn = ln := Option.some.inj (tn.symm.trans rn.2)
  have ek0 : q0 = k0 := Option.some.inj (u0.symm.trans r0.1)
  have ek1 : q1 = k1 := Option.some.inj (u1.symm.trans r1.1)
  have ekn : qn = kn := Option.some.inj (un.symm.trans rn.1)
  subst el0 el1 eln ek0 ek1 ekn
  refine ⟨m0, m1, mn, _, _, _, _, _, _, e0, e1, en, hl0, hl1, hln, hk0, hk1, hkn, hev, hodd,
    ?_, ?_, ?_, ?_, happ⟩
  · rintro x ⟨hx0, hx1⟩
    have := hev x hx0
    have := hodd x hx1
    omega
  · intro x
    exact ⟨hsub x, fun h => h.elim (hs0 x) (hs1 x)⟩
  · rintro x ⟨hx0, hx1⟩
    exact hdis x hx0 hx1
  · intro x
    rw [happ, List.mem_append]

theorem sibling_lists_partition_witness :
    ((ht_even_cpu.x86_num_siblings = 2 ∧ get_stagger ht_even_cpu = 0) ∧
      (ht_odd_cpu.x86_num_siblings = 2 ∧ get_stagger ht_odd_cpu = 1) ∧
      (non_ht_cpu.x86_num_siblings ≠ 2 ∧ fill_pre non_ht_cpu (boot_state pmc_msr)) ∧
      (ht_even_cpu.x86_model = non_ht_cpu.x86_model ∧
        ht_odd_cpu.x86_model = non_ht_cpu.x86_model)) ∧
    ∃ m0 m1 mn l0 l1 ln k0 k1 kn,
      p4_fill_in_addresses ht_even_cpu (boot_state pmc_msr) blank_msrs =
        some (setup_num_counters ht_even_cpu (boot_state pmc_msr), m0, l0.length) ∧
      p4_fill_in_addresses ht_odd_cpu (boot_state pmc_msr) blank_msrs =
        some (setup_num_counters ht_odd_cpu (boot_state pmc_msr), m1, l1.length) ∧
      p4_fill_in_addresses non_ht_cpu (boot_state pmc_msr) blank_msrs =
        some (setup_num_counters non_ht_cpu (boot_state pmc_msr), mn, ln.length) ∧
      entries m0.controls l0.length = l0 ∧ entries m1.controls l1.length = l1 ∧
      entries mn.controls ln.length = ln ∧
      entries m0.counters (setup_num_counters ht_even_cpu (boot_state pmc_msr)).num_counters =
        k0 ∧
      entries m1.counters (setup_num_counters ht_odd_cpu (boot_state pmc_msr)).num_counters =
        k1 ∧
      entries mn.counters (setup_num_counters non_ht_cpu (boot_state pmc_msr)).num_counters =
        kn ∧
      (∀ x ∈ l0, x % 2 = 0) ∧ (∀ x ∈ l1, x % 2 = 1) ∧
      (∀ x, ¬ (x ∈ l0 ∧ x ∈ l1)) ∧
      (∀ x, x ∈ ln ↔ x ∈ l0 ∨ x ∈ l1) ∧
      (∀ x, ¬ (x ∈ k0 ∧ x ∈ k1)) ∧
      (∀ x, x ∈ kn ↔ x ∈ k0 ∨ x ∈ k1) ∧ kn = k0 ++ k1 :=
  ⟨⟨⟨rfl, rfl⟩, ⟨rfl, rfl⟩, ⟨by decide, fill_pre_boot_non_ht 3 pmc_msr⟩, rfl, rfl⟩,
    sibling_lists_partition ht_even_cpu ht_odd_cpu non_ht_cpu (boot_state pmc_msr)
      (boot_state pmc_msr) (boot_state pmc_msr) blank_msrs blank_msrs blank_msrs
      ⟨rfl, rfl⟩ ⟨rfl, rfl⟩ ⟨by decide, fill_pre_boot_non_ht 3 pmc_msr⟩ ⟨rfl, rfl⟩⟩

/-! ## The overflow monitor right after the setup sequence -/

theorem ovf_clear_wrmsrl_clean {A : Nat → Prop} {st : State} (addr v : Nat)
    (h : ovf_clear A st) (hv : v.testBit 31 = false) : ovf_clear A (wrmsrl st addr v) := by
  intro a ha
  show (set_at st.msr addr v a).testBit 31 = false
  unfold set_at
  split
  · exact hv
  · exact h a ha

theorem ovf_clear_wrmsrl_other {A : Nat → Prop} {st : State} (addr v : Nat)
    (h : ovf_clear A st) (hn : ¬ A addr) : ovf_clear A (wrmsrl st addr v) := by
  intro a ha
  show (set_at st.msr addr v a).testBit 31 = false
  unfold set_at
  split
  · rename_i he
    rw [he] at ha
    exact absurd ha hn
  · exact h a ha

theorem clear_cccr_value_clean (x : Nat) :
    (CCCR_SET_REQUIRED_BITS (CCCR_CLEAR x)).testBit 31 = false := by
  unfold CCCR_SET_REQUIRED_BITS CCCR_CLEAR
  simp only [Nat.testBit_and, Nat.testBit_or, testBit_cccr_reserved, testBit_required]
  simp

theorem owned_cccr_range {c : Cpu} {s : State} {k a : Nat} (h : owned_cccr c s k a) :
    MSR_P4_BPU_CCCR0 ≤ a ∧ a ≤ MSR_P4_IQ_CCCR5 := by
  obtain ⟨j, cb, _, hcb, he⟩ := h
  rw [← he]
  exact (p4_counters_range cb (List.getElem?_mem hcb)).2.2

theorem ovf_clear_escr {c : Cpu} {s st : State} {k : Nat} (addr v : Nat)
    (h : ovf_clear (owned_cccr c s k) st) (ha : MSR_P4_BSU_ESCR0 ≤ addr) :
    ovf_clear (owned_cccr c s k) (wrmsrl st addr v) := by
  apply ovf_clear_wrmsrl_other addr v h
  intro ho
  have := (owned_cccr_range ho).2
  simp only [MSR_P4_BSU_ESCR0, MSR_P4_IQ_CCCR5] at ha this
  omega

theorem clear_escr_scan_clean (c : Cpu) (s st : State) (k last a0 : Nat)
    (h0 : MSR_P4_BSU_ESCR0 ≤ a0)
    (hp : st.num_counters = s.num_counters ∧ ovf_clear (owned_cccr c s k) st) :
    ∃ st1, for_addr_le last (addr_increment c) clear_escr a0 st = some st1 ∧
      st1.num_counters = s.num_counters ∧ ovf_clear (owned_cccr c s k) st1 :=
  for_addr_le_inv
    (fun st : State => st.num_counters = s.num_counters ∧ ovf_clear (owned_cccr c s k) st)
    last _ a0 clear_escr (addr_increment_pos c)
    (fun a st h1 _ hp => ⟨wrmsrl st a 0, rfl, hp.1, ovf_clear_escr a 0 hp.2 (by omega)⟩) st hp

/-- The configurator keeps the overflow flags of the owned CCCRs clear. -/
theorem pmc_setup_one_clean (c : Cpu) (cfg : Nat → op_counter_config) (ctr k : Nat)
    (s st : State) (ht : topology_ok c st) (hc : ctr < st.num_counters)
    (h : ovf_clear (owned_cccr c s k) st) :
    ∃ s1, pmc_setup_one_p4_counter c cfg ctr st = some s1 ∧
      s1.num_counters = st.num_counters ∧ ovf_clear (owned_cccr c s k) s1 := by
  obtain ⟨cb, hcb, hcbm⟩ := p4_counters_lookup _ (virt_ctr_lt c st ctr ht hc)
  rw [pmc_setup_one_eq c cfg ctr st cb hcb]
  by_cases hr : (cfg ctr).event ≤ 0 ∨ (cfg ctr).event > NUM_EVENTS
  · rw [if_pos hr]
    exact ⟨_, rfl, rfl, h⟩
  · rw [if_neg hr]
    simp only [NUM_EVENTS] at hr
    obtain ⟨ev, hev, hevm⟩ := event_lookup (cfg ctr).event (by omega) (by omega)
    rw [hev, Option.some_bind]
    cases hfb : first_binding ev (1 <<< VIRT_CTR st (get_stagger c) ctr) with
    | none => exact ⟨_, rfl, rfl, h⟩
    | some b0 =>
      refine ⟨_, rfl, rfl, ?_⟩
      unfold program_binding
      exact ovf_clear_wrmsrl_clean _ _
        (ovf_clear_escr _ _ h (first_binding_escr_range ev _ b0 hevm hfb))
        (cccr_program_flags _ _ _).2.1

theorem setup_counter_clean (c : Cpu) (cfg : Nat → op_counter_config) (k i : Nat)
    (s st : State) (ht : topology_ok c s) (hi : i < s.num_counters)
    (hp : st.num_counters = s.num_counters ∧ ovf_clear (owned_cccr c s k) st) :
    ∃ st1, setup_counter c cfg i st = some st1 ∧
      st1.num_counters = s.num_counters ∧ ovf_clear (owned_cccr c s k) st1 := by
  unfold setup_counter
  by_cases hen : (cfg i).enabled ≠ 0
  · rw [if_pos hen]
    have htr : topology_ok c { st with reset_value := set_at st.reset_value i (cfg i).count } :=
      topology_ok_of_num_counters ht hp.1
    obtain ⟨sm, esm, hnc, hcl⟩ := pmc_setup_one_clean c cfg i k s
      { st with reset_value := set_at st.reset_value i (cfg i).count } htr
      (by show i < st.num_counters; rw [hp.1]; exact hi) hp.2
    have hncm : sm.num_counters = s.num_counters := hnc.trans hp.1
    obtain ⟨cb, hcb, hcbm⟩ := p4_counters_lookup _ (virt_ctr_lt c s i ht hi)
    have hcb2 : p4_counters[VIRT_CTR sm (get_stagger c) i]? = some cb := by
      rw [VIRT_CTR_congr hncm]
      exact hcb
    refine ⟨wrmsrl sm cb.counter_address (neg64 (cfg i).count), ?_, hncm, ?_⟩
    · simp only [esm, Option.some_bind, CTR_WRITE, hcb2, Option.map_some']
    · apply ovf_clear_wrmsrl_other _ _ hcl
      intro ho
      have h1 := (owned_cccr_range ho).1
      have h2 := counter_address_lt _ _ hcb
      omega
  · rw [if_neg hen]
    exact ⟨_, rfl, hp.1, hp.2⟩

/-- With the capability bit set, `p4_setup_ctrs` leaves the overflow flag of
the CCCR of every owned virtual counter clear. -/
theorem p4_setup_ctrs_ovf_clear (c : Cpu) (cfg : Nat → op_counter_config) (s : State)
    (ht : topology_ok c s) (hpmc : MISC_PMC_ENABLED_P (s.msr MSR_IA32_MISC_ENABLE) ≠ 0) :
    ∃ s1, p4_setup_ctrs c cfg s = some s1 ∧
      ovf_clear (owned_cccr c s s.num_counters) s1 := by
  -- clear the cccrs we will use
  obtain ⟨s1, e1, p1⟩ := for_count_inv
    (fun k (st : State) => st.num_counters = s.num_counters ∧ ovf_clear (owned_cccr c s k) st)
    (fun i st => (p4_counters[VIRT_CTR st (get_stagger c) i]?).map
      (fun b => clear_cccr st b.cccr_address)) s.num_counters 0 s
    (by
      intro i st _ hi hp
      have hi2 : i < st.num_counters := by rw [hp.1]; omega
      obtain ⟨cb, hcb, hm⟩ := p4_counters_lookup _
        (virt_ctr_lt c st i (topology_ok_of_num_counters ht hp.1) hi2)
      refine ⟨clear_cccr st cb.cccr_address, by simp only [hcb, Option.map_some'], hp.1, ?_⟩
      intro a ha
      show (set_at st.msr cb.cccr_address _ a).testBit 31 = false
      unfold set_at
      split
      · exact clear_cccr_value_clean _
      · rename_i hne
        obtain ⟨j, cbj, hj, hcbj, he⟩ := ha
        have hji : j ≠ i := by
          intro hji
          subst hji
          rw [VIRT_CTR_congr hp.1] at hcb
          have : cbj = cb := Option.some.inj (hcbj.symm.trans hcb)
          subst this
          exact hne he.symm
        exact hp.2 a ⟨j, cbj, by omega, hcbj, he⟩)
    ⟨rfl, fun a ha => by
      obtain ⟨j, _, hj, _⟩ := ha
      omega⟩
  rw [Nat.zero_add] at p1
  -- clear cccrs outside our concern
  obtain ⟨s2, e2, p2⟩ := for_addr_lt_inv
    (fun st : State => st.num_counters = s.num_counters ∧
      ovf_clear (owned_cccr c s s.num_counters) st)
    NUM_UNUSED_CCCRS (addr_increment c)
    (get_stagger c) (fun i st => (p4_unused_cccr[i]?).map (clear_cccr st))
    (addr_increment_pos c)
    (by
      intro i st _ hi hp
      have hl : i < p4_unused_cccr.length := hi
      exact ⟨clear_cccr st p4_unused_cccr[i],
        by simp only [List.getElem?_eq_getElem hl, Option.map_some'], hp.1,
        ovf_clear_wrmsrl_clean _ _ hp.2 (clear_cccr_value_clean _)⟩)
    s1 p1
  -- clear all escrs
  obtain ⟨s3, e3, p3⟩ := for_addr_lt_inv
    (fun st : State => st.num_counters = s.num_counters ∧
      ovf_clear (owned_cccr c s s.num_counters) st)
    MSR_P4_IQ_ESCR0 (addr_increment c)
    (MSR_P4_BSU_ESCR0 + get_stagger c) clear_escr (addr_increment_pos c)
    (by
      intro a st h1 _ hp
      exact ⟨_, rfl, hp.1, ovf_clear_escr a 0 hp.2 (by omega)⟩)
    s2 p2
  have p4 : (fun st : State => st.num_counters = s.num_counters ∧
      ovf_clear (owned_cccr c s s.num_counters) st) (if c.x86_model < 0x3 then
      wrmsrl (wrmsrl s3 MSR_P4_IQ_ESCR0 0) MSR_P4_IQ_ESCR1 0 else s3) := by
    split
    · exact ⟨p3.1, ovf_clear_escr _ _ (ovf_clear_escr _ _ p3.2 (by decide)) (by decide)⟩
    · exact p3
  obtain ⟨s5, e5, p5⟩ := clear_escr_scan_clean c s _ s.num_counters MSR_P4_SSU_ESCR0
    (MSR_P4_RAT_ESCR0 + get_stagger c) (by simp only [MSR_P4_RAT_ESCR0, MSR_P4_BSU_ESCR0]; omega) p4
  obtain ⟨s6, e6, p6⟩ := clear_escr_scan_clean c s s5 s.num_counters MSR_P4_TC_ESCR1
    (MSR_P4_MS_ESCR0 + get_stagger c) (by simp only [MSR_P4_MS_ESCR0, MSR_P4_BSU_ESCR0]; omega) p5
  obtain ⟨s7, e7, p7⟩ := clear_escr_scan_clean c s s6 s.num_counters MSR_P4_CRU_ESCR3
    (MSR_P4_IX_ESCR0 + get_stagger c) (by simp only [MSR_P4_IX_ESCR0, MSR_P4_BSU_ESCR0]; omega) p6
  have p8 : (fun st : State => st.num_counters = s.num_counters ∧
      ovf_clear (owned_cccr c s s.num_counters) st)
      (if s7.num_counters = NUM_COUNTERS_NON_HT then
        wrmsrl (wrmsrl s7 MSR_P4_CRU_ESCR4 0) MSR_P4_CRU_ESCR5 0
      else if get_stagger c = 0 then wrmsrl s7 MSR_P4_CRU_ESCR4 0
      else wrmsrl s7 MSR_P4_CRU_ESCR5 0) := by
    split
    · exact ⟨p7.1, ovf_clear_escr _ _ (ovf_clear_escr _ _ p7.2 (by decide)) (by decide)⟩
    · split
      · exact ⟨p7.1, ovf_clear_escr _ _ p7.2 (by decide)⟩
      · exact ⟨p7.1, ovf_clear_escr _ _ p7.2 (by decide)⟩
  -- setup all counters
  obtain ⟨s9, e9, p9⟩ := for_count_inv
    (fun _ (st : State) => st.num_counters = s.num_counters ∧
      ovf_clear (owned_cccr c s s.num_counters) st)
    (setup_counter c cfg) s.num_counters 0 _
    (fun i st _ hi hp => setup_counter_clean c cfg s.num_counters i s st ht (by omega) hp)
    p8
  refine ⟨s9, ?_, p9.2⟩
  unfold p4_setup_ctrs
  simp only [rdmsrl, hpmc, if_false, Option.bind_eq_bind, e1, Option.some_bind, e2, e3, e5, e6, e7]
  rw [p8.1]
  exact e9

/-- Bit 31 of a negated count is set exactly if the low 32 bits of the count,
as a number, lie between 1 and `2^31`. -/
theorem neg64_testBit_31 (x : Nat) :
    (neg64 x).testBit 31 = true ↔ 1 ≤ x % 2 ^ 32 ∧ x % 2 ^ 32 ≤ 2 ^ 31 := by
  unfold neg64
  rw [Nat.testBit_to_div_mod, decide_eq_true_eq]
  omega

/-- Which counters `p4_check_ctrs` finds overflowed in the state `p4_setup_ctrs`
leaves: the enabled ones whose count is nonzero and whose negated count has
bit 31 clear. -/
theorem due_after_setup (c : Cpu) (cfg : Nat → op_counter_config) (s s1 : State)
    (ht : topology_ok c s) (hpmc : (s.msr MSR_IA32_MISC_ENABLE).testBit 7 = true)
    (hs1 : p4_setup_ctrs c cfg s = some s1) :
    s1.num_counters = s.num_counters ∧
    ∀ i, i < s.num_counters →
      (due c s1 i = true ↔ (cfg i).enabled ≠ 0 ∧ (cfg i).count ≠ 0 ∧
        ¬ (1 ≤ (cfg i).count % 2 ^ 32 ∧ (cfg i).count % 2 ^ 32 ≤ 2 ^ 31)) := by
  obtain ⟨s8, t1, h8, heq, hinv⟩ := p4_setup_ctrs_spec c cfg s ht hpmc
  have e1 : t1 = s1 := Option.some.inj (heq.symm.trans hs1)
  subst e1
  have hne : MISC_PMC_ENABLED_P (s.msr MSR_IA32_MISC_ENABLE) ≠ 0 := by
    intro h0
    have := (misc_pmc_enabled_eq_zero _).mp h0
    rw [hpmc] at this
    cases this
  obtain ⟨t2, heq2, hclean⟩ := p4_setup_ctrs_ovf_clear c cfg s ht hne
  have e2 : t2 = t1 := Option.some.inj (heq2.symm.trans hs1)
  subst e2
  have hnc8 : s8.num_counters = s.num_counters := h8.1
  have hnc1 : t2.num_counters = s.num_counters := hinv.nc.trans hnc8
  refine ⟨hnc1, ?_⟩
  intro i hi
  obtain ⟨cb, hcb, _⟩ := p4_counters_lookup _ (virt_ctr_lt c s i ht hi)
  have hcb8 : p4_counters[VIRT_CTR s8 (get_stagger c) i]? = some cb := by
    rw [VIRT_CTR_congr hnc8]
    exact hcb
  have hcb1 : p4_counters[VIRT_CTR t2 (get_stagger c) i]? = some cb := by
    rw [VIRT_CTR_congr hnc1]
    exact hcb
  have hflag : (t2.msr cb.cccr_address).testBit 31 = false :=
    hclean _ ⟨i, cb, hi, hcb, rfl⟩
  rw [due_iff c t2 i cb hcb1, hflag]
  by_cases hen : (cfg i).enabled ≠ 0
  · obtain ⟨hrv, hctr, _⟩ := hinv.en i cb hi hen hcb8
    rw [hrv, hctr]
    have hb := neg64_testBit_31 (cfg i).count
    constructor
    · rintro ⟨h0, h | h⟩
      · cases h
      · refine ⟨hen, h0, fun hr => ?_⟩
        rw [hb.mpr hr] at h
        cases h
    · rintro ⟨_, h0, hr⟩
      refine ⟨h0, Or.inr ?_⟩
      cases hbit : (neg64 (cfg i).count).testBit 31 with
      | false => rfl
      | true => exact absurd (hb.mp hbit) hr
  · have hdis : (cfg i).enabled = 0 := by
      by_contra h
      exact hen h
    rw [hinv.dis i hi hdis]
    constructor
    · rintro ⟨h0, _⟩
      exact absurd rfl h0
    · rintro ⟨h, _⟩
      exact absurd hdis h

theorem flatMap_range_nil {β : Type} (g : Nat → List β) :
    ∀ n, (∀ j, j < n → g j = []) → (List.range n).flatMap g = [] := by
  intro n
  induction n with
  | zero => intro _; rfl
  | succ m ih =>
    intro h
    rw [range_succ_flatMap, ih (fun j hj => h j (by omega)), h m (by omega)]
    rfl

/-- C21, as stated, fails: without hyper-threading, with virtual counter 3
enabled for event 1 (which has a candidate pair for it) and count
`0xFFFF0000`, the counter register holds `0xFFFFFFFF00010000` after
`p4_setup_ctrs`, bit 31 of which is clear; `p4_check_ctrs`, run at once, emits
a sample for counter 3, writes registers and returns 1. -/
theorem overflow_right_after_setup :
    ∃ s1 s2 ovf, p4_setup_ctrs non_ht_cpu (scenario_config 3) (boot_state pmc_msr) = some s1 ∧
      p4_check_ctrs non_ht_cpu 7 1 s1 = some (s2, ovf) ∧
      ((scenario_config 3 3).enabled ≠ 0 ∧ (scenario_config 3 3).count ≠ 0) ∧
      (∃ ev b, p4_events[(scenario_config 3 3).event - 1]? = some ev ∧
        first_binding ev (1 <<< VIRT_CTR (boot_state pmc_msr) (get_stagger non_ht_cpu) 3) =
          some b) ∧
      s1.msr MSR_P4_IQ_PERFCTR4 = 0xFFFFFFFF00010000 ∧
      ovf = 1 ∧ s2.samples = [(7, 1, 3)] ∧ s2.writes.length = s1.writes.length + 3 := by
  obtain ⟨s1, hs1⟩ : ∃ s1, p4_setup_ctrs non_ht_cpu (scenario_config 3) (boot_state pmc_msr) =
      some s1 := Option.isSome_iff_exists.mp (by decide!)
  obtain ⟨p, hp⟩ : ∃ p, (p4_setup_ctrs non_ht_cpu (scenario_config 3)
      (boot_state pmc_msr)).bind (p4_check_ctrs non_ht_cpu 7 1) = some p :=
    Option.isSome_iff_exists.mp (by decide!)
  have hctr : (p4_setup_ctrs non_ht_cpu (scenario_config 3) (boot_state pmc_msr)).map
      (fun s => s.msr MSR_P4_IQ_PERFCTR4) = some 0xFFFFFFFF00010000 := by decide!
  have hres : ((p4_setup_ctrs non_ht_cpu (scenario_config 3) (boot_state pmc_msr)).bind
      (p4_check_ctrs non_ht_cpu 7 1)).map (fun p => (p.2, p.1.samples)) =
      some (1, [(7, 1, 3)]) := by decide!
  have hlen : ((p4_setup_ctrs non_ht_cpu (scenario_config 3) (boot_state pmc_msr)).bind
      (p4_check_ctrs non_ht_cpu 7 1)).map (fun p => p.1.writes.length) =
      (p4_setup_ctrs non_ht_cpu (scenario_config 3) (boot_state pmc_msr)).map
      (fun s => s.writes.length + 3) := by decide!
  rw [hp] at hres hlen
  rw [hs1] at hp hctr hlen
  simp only [Option.map_some', Option.some.injEq, Prod.mk.injEq, Option.some_bind] at hctr hres hlen hp
  exact ⟨s1, p.1, p.2, hs1, hp, by decide,
    ⟨⟨0x05, 0x06, [⟨CTR_IQ_4, MSR_P4_CRU_ESCR2⟩, ⟨CTR_IQ_5, MSR_P4_CRU_ESCR3⟩]⟩,
      ⟨CTR_IQ_4, MSR_P4_CRU_ESCR2⟩, by decide, by decide⟩,
    hctr, hres.1, hres.2, hlen⟩

/-- C21, amended: after `p4_setup_ctrs` with the capability bit set,
`p4_check_ctrs`, run at once, returns 0 exactly if every enabled counter with
a nonzero count has a count whose low 32 bits, as a number, lie between 1 and
`2^31` (so that bit 31 of the negated count in the counter register is set);
it then emits no sample and writes no register. An enabled counter with any
other nonzero count is found overflowed at once and a sample is emitted for
it. This holds for every topology and whatever the event codes are. -/
theorem check_after_setup (c : Cpu) (cfg : Nat → op_counter_config) (s : State)
    (eip mode : Nat) (ht : topology_ok c s)
    (hpmc : (s.msr MSR_IA32_MISC_ENABLE).testBit 7 = true) :
    ∃ s1 s2 ovf, p4_setup_ctrs c cfg s = some s1 ∧
      p4_check_ctrs c eip mode s1 = some (s2, ovf) ∧
      (ovf = 0 ↔ ∀ i, i < s.num_counters → (cfg i).enabled ≠ 0 → (cfg i).count ≠ 0 →
        1 ≤ (cfg i).count % 2 ^ 32 ∧ (cfg i).count % 2 ^ 32 ≤ 2 ^ 31) ∧
      (ovf = 0 → s2.samples = s1.samples ∧ s2.writes = s1.writes) ∧
      (∀ i, i < s.num_counters → (cfg i).enabled ≠ 0 → (cfg i).count ≠ 0 →
        ¬ (1 ≤ (cfg i).count % 2 ^ 32 ∧ (cfg i).count % 2 ^ 32 ≤ 2 ^ 31) →
        ovf = 1 ∧ (eip, mode, i) ∈ s2.samples.drop s1.samples.length) := by
  obtain ⟨_, s1, _, hs1, _⟩ := p4_setup_ctrs_spec c cfg s ht hpmc
  obtain ⟨hnc, hdue⟩ := due_after_setup c cfg s s1 ht hpmc hs1
  have ht1 : topology_ok c s1 := topology_ok_of_num_counters ht hnc
  obtain ⟨s2, ovf, hs2, _, _, hw, hsm, _, hovf, _⟩ := p4_check_ctrs_spec c eip mode s1 ht1
  rw [hnc] at hw hsm hovf
  have hany : (List.range s.num_counters).any (due c s1) = true ↔
      ∃ i, i < s.num_counters ∧ due c s1 i = true := by
    rw [List.any_eq_true]
    constructor
    · rintro ⟨i, hi, hd⟩
      exact ⟨i, List.mem_range.mp hi, hd⟩
    · rintro ⟨i, hi, hd⟩
      exact ⟨i, List.mem_range.mpr hi, hd⟩
  have hzero : ovf = 0 ↔ ∀ i, i < s.num_counters → due c s1 i = false := by
    rw [hovf]
    constructor
    · intro h i hi
      cases hd : due c s1 i with
      | false => rfl
      | true =>
        rw [if_pos (hany.mpr ⟨i, hi, hd⟩)] at h
        cases h
    · intro h
      rw [if_neg]
      intro ha
      obtain ⟨i, hi, hd⟩ := hany.mp ha
      rw [h i hi] at hd
      cases hd
  refine ⟨s1, s2, ovf, hs1, hs2, ?_, ?_, ?_⟩
  · rw [hzero]
    constructor
    · intro h i hi hen hcnt
      by_contra hr
      have := (hdue i hi).mpr ⟨hen, hcnt, hr⟩
      rw [h i hi] at this
      cases this
    · intro h i hi
      cases hd : due c s1 i with
      | false => rfl
      | true =>
        obtain ⟨hen, hcnt, hr⟩ := (hdue i hi).mp hd
        exact absurd (h i hi hen hcnt) hr
  · intro h0
    have hall := hzero.mp h0
    have hw0 : (List.range s.num_counters).flatMap (service_writes c s1) = [] := by
      apply flatMap_range_nil
      intro j hj
      unfold service_writes
      split
      · rw [hall j hj]
        rfl
      · rfl
    have hs0 : (List.range s.num_counters).flatMap (service_samples c eip mode s1) = [] := by
      apply flatMap_range_nil
      intro j hj
      unfold service_samples
      rw [hall j hj]
      rfl
    rw [hw, hsm, hw0, hs0, List.append_nil, List.append_nil]
    exact ⟨rfl, rfl⟩
  · intro i hi hen hcnt hr
    have hd : due c s1 i = true := (hdue i hi).mpr ⟨hen, hcnt, hr⟩
    refine ⟨?_, ?_⟩
    · rw [hovf, if_pos (hany.mpr ⟨i, hi, hd⟩)]
    · rw [hsm, List.drop_left]
      rw [List.mem_flatMap]
      refine ⟨i, List.mem_range.mpr hi, ?_⟩
      simp [service_samples, hd]

theorem check_after_setup_witness :
    (topology_ok non_ht_cpu (boot_state pmc_msr) ∧
      ((boot_state pmc_msr).msr MSR_IA32_MISC_ENABLE).testBit 7 = true ∧
      ∀ i, i < (boot_state pmc_msr).num_counters → (small_count_config 3 i).enabled ≠ 0 →
        (small_count_config 3 i).count ≠ 0 →
        1 ≤ (small_count_config 3 i).count % 2 ^ 32 ∧
          (small_count_config 3 i).count % 2 ^ 32 ≤ 2 ^ 31) ∧
    ∃ s1 s2 ovf,
      p4_setup_ctrs non_ht_cpu (small_count_config 3) (boot_state pmc_msr) = some s1 ∧
      p4_check_ctrs non_ht_cpu 7 1 s1 = some (s2, ovf) ∧
      (ovf = 0 ↔ ∀ i, i < (boot_state pmc_msr).num_counters →
        (small_count_config 3 i).enabled ≠ 0 → (small_count_config 3 i).count ≠ 0 →
        1 ≤ (small_count_config 3 i).count % 2 ^ 32 ∧
          (small_count_config 3 i).count % 2 ^ 32 ≤ 2 ^ 31) ∧
      (ovf = 0 → s2.samples = s1.samples ∧ s2.writes = s1.writes) ∧
      (∀ i, i < (boot_state pmc_msr).num_counters →
        (small_count_config 3 i).enabled ≠ 0 → (small_count_config 3 i).count ≠ 0 →
        ¬ (1 ≤ (small_count_config 3 i).count % 2 ^ 32 ∧
          (small_count_config 3 i).count % 2 ^ 32 ≤ 2 ^ 31) →
        ovf = 1 ∧ (7, 1, i) ∈ s2.samples.drop s1.samples.length) :=
  ⟨⟨topology_ok_boot_non_ht 3 pmc_msr, by decide, by decide⟩,
    check_after_setup non_ht_cpu (small_count_config 3) (boot_state pmc_msr) 7 1
      (topology_ok_boot_non_ht 3 pmc_msr) (by decide)⟩

end OpModelP4
